import Mathlib

/-!
Verification of the atlascore 2D physics pipeline against its specification.

This file shallowly embeds the components of the repository that the
checked properties concern — the ECS dense component storage
(`include/ecs/ComponentStorage.hpp`), the job system's scheduling and wait
logic (`src/jobs/JobSystem.cpp`), the broadphase collision detector
(`src/physics/CollisionSystem.cpp`), the island builder and the
position/velocity/constraint solvers (`src/physics/Systems.cpp`), the
integrator (`src/physics/PhysicsIntegrationSystem.cpp`) and the pipeline
orchestrator (`src/physics/PhysicsPipelineSystem.cpp`) — and proves or
refutes the specified properties about those embeddings.

Modelling conventions:
* C++ `float` values are modelled as exact rationals (`ℚ`).  All claim-relevant
  arithmetic (comparisons, +, −, ×, ÷) is exact; `std::sqrt` is modelled by
  `Rat.sqrt` (exact on perfect squares).  No theorem below depends on the value
  of a square root of a non-square.
* `std::vector` is a `List`, `std::unordered_map` is an association list.
* In-out reference parameters become explicit state passing.
* Worker-thread execution in the job system is collapsed to its sequential
  observable behaviour: each scheduled job carries the outcome (success or
  error) that its body produces, and `Wait` returns that outcome; this is the
  standard sequential abstraction of a fork/join pool.
-/

namespace AtlasCore

/-! ## ECS component storage (`include/ecs/ComponentStorage.hpp`) -/

/-- Entity identifier (`ecs::EntityId = std::uint32_t`). -/
abbrev EntityId := Nat

/-- `ecs::ComponentStorage<TComponent>`: dense component array `data`
(`m_data`), parallel entity-id array `entities` (`m_denseToEntity`), and the
sparse entity→index map `index` (`m_entityToDense`, an `unordered_map`
modelled as an association list). -/
structure ComponentStorage (C : Type) where
  data : List C
  entities : List EntityId
  index : List (EntityId × Nat)
deriving DecidableEq

/-- The empty storage (default-constructed `ComponentStorage`). -/
def ComponentStorage.empty {C : Type} : ComponentStorage C := ⟨[], [], []⟩

/-- Assignment `m[k] = v` on an `unordered_map` whose key `k` is present:
rewrite the matching association-list entry in place. -/
def updateAssoc (l : List (EntityId × Nat)) (k : EntityId) (v : Nat) :
    List (EntityId × Nat) :=
  l.map (fun p => if p.1 = k then (k, v) else p)

/-- `ComponentStorage::Add`: overwrite in place when the id is present,
otherwise append to the dense arrays and record the new index. -/
def ComponentStorage.Add {C : Type} (s : ComponentStorage C) (id : EntityId)
    (c : C) : ComponentStorage C :=
  match s.index.lookup id with
  | some i => { s with data := s.data.set i c }
  | none =>
      { data := s.data ++ [c]
        entities := s.entities ++ [id]
        index := (id, s.data.length) :: s.index }

/-- `ComponentStorage::Get`: look the id up in the sparse map and read the
dense slot (`nullptr` becomes `none`). -/
def ComponentStorage.Get {C : Type} (s : ComponentStorage C) (id : EntityId) :
    Option C :=
  match s.index.lookup id with
  | some i => s.data.get? i
  | none => none

/-- `ComponentStorage::Remove`: swap the removed slot with the last slot
(`lastIndex = m_data.size() - 1`), repoint the moved entity's sparse entry,
then `pop_back` both dense arrays and erase the id from the sparse map. -/
def ComponentStorage.Remove {C : Type} [Inhabited C] (s : ComponentStorage C)
    (id : EntityId) : ComponentStorage C :=
  match s.index.lookup id with
  | none => s
  | some i =>
      if i = s.data.length - 1 then
        { data := s.data.dropLast
          entities := s.entities.dropLast
          index := s.index.eraseP (fun p => p.1 == id) }
      else
        { data :=
            (s.data.set i (s.data.getD (s.data.length - 1) default)).dropLast
          entities :=
            (s.entities.set i
              (s.entities.getD (s.data.length - 1) 0)).dropLast
          index :=
            (updateAssoc s.index (s.entities.getD (s.data.length - 1) 0)
              i).eraseP (fun p => p.1 == id) }

/-- Well-formedness of a storage: dense arrays have equal length, entity ids
are distinct, map keys are distinct, and the sparse map is exactly the inverse
of the dense entity array.  All quantifiers are bounded, so this is decidable
on concrete storages. -/
def StorageWF {C : Type} (s : ComponentStorage C) : Prop :=
  s.data.length = s.entities.length ∧
  s.entities.Nodup ∧
  (s.index.map Prod.fst).Nodup ∧
  (∀ p ∈ s.index, p.2 < s.entities.length ∧ s.entities.getD p.2 0 = p.1) ∧
  (∀ i < s.entities.length, (s.entities.getD i 0, i) ∈ s.index)

instance {C : Type} (s : ComponentStorage C) : Decidable (StorageWF s) := by
  unfold StorageWF
  infer_instance

/-- A concrete well-formed three-entry storage used by the C8 witness. -/
def storageW : ComponentStorage Nat :=
  ((ComponentStorage.empty.Add 5 50).Add 6 60).Add 7 70


/-! ## Job system (`src/jobs/JobSystem.cpp`)

Worker threads are abstracted away: every scheduled job eventually runs and
records its outcome, and `Wait` blocks until that outcome is available.  The
sequential model therefore attaches to each scheduled job the outcome its
body produces (`none` = normal return, `some e` = the body threw `e`), and
`Wait` consumes it.  The C++ `states`/`completedFailures` pair collapses to a
single id→outcome map with exactly the observable protocol of the source:
the first `Wait` on a handle consumes its outcome (rethrowing a captured
failure), later `Wait`s on the same id are no-ops. -/

/-- `jobs::JobHandle`: `std::size_t id{}` (so a default handle has id 0). -/
structure JobHandle where
  id : Nat
deriving DecidableEq

/-- Abstract stand-in for a captured `std::exception_ptr`. -/
abbrev JobError := Nat

/-- The job system's bookkeeping: the atomic id counter `m_impl->nextId`
(initialised to 1) and the id→outcome map for scheduled, not yet reaped
jobs. -/
structure JobSystemState where
  nextId : Nat
  states : List (Nat × Option JobError)
deriving DecidableEq

/-- Freshly constructed `JobSystem` (`nextId{1}`, no jobs). -/
def JobSystemState.init : JobSystemState := ⟨1, []⟩

/-- `JobSystem::Schedule(std::unique_ptr<IJob>)`.  A null `job` hits the
`if (!job) return JobHandle{};` guard: nothing is enqueued, no id is drawn,
and the returned handle has id 0.  Otherwise a fresh id is fetched from
`nextId` and the job is enqueued; `job = some outcome` carries the outcome
the job's body will produce when a worker executes it. -/
def schedule (s : JobSystemState) (job : Option (Option JobError)) :
    JobSystemState × JobHandle :=
  match job with
  | none => (s, ⟨0⟩)
  | some outcome =>
      (⟨s.nextId + 1, s.states ++ [(s.nextId, outcome)]⟩, ⟨s.nextId⟩)

/-- `JobSystem::Wait(const JobHandle&)`.  The `handle.id == 0` guard returns
immediately with no error and no state change.  Otherwise the job's recorded
outcome is consumed; a returned `some e` models the
`std::rethrow_exception` escaping from `Wait`, and an id that is not (or no
longer) tracked is a completed-and-reaped handle, a no-op. -/
def wait1 (s : JobSystemState) (h : JobHandle) :
    JobSystemState × Option JobError :=
  if h.id = 0 then (s, none)
  else
    match s.states.lookup h.id with
    | none => (s, none)
    | some outcome =>
        (⟨s.nextId, s.states.eraseP (fun p => p.1 == h.id)⟩, outcome)

/-- `JobSystem::Wait(const std::vector<JobHandle>&)`: the plain loop
`for (const auto& handle : handles) Wait(handle);` with no try/catch around
the body — an exception propagating out of `Wait(handle)` leaves the loop at
once, so the remaining handles are never waited. -/
def waitMany (s : JobSystemState) :
    List JobHandle → JobSystemState × Option JobError
  | [] => (s, none)
  | h :: rest =>
      match wait1 s h with
      | (s', some e) => (s', some e)
      | (s', none) => waitMany s' rest

/-! ## Physics data model (`include/physics/Components.hpp`) -/

/-- `physics::TransformComponent`. -/
structure TransformComponent where
  x : ℚ
  y : ℚ
  rotation : ℚ
deriving DecidableEq

instance : Inhabited TransformComponent := ⟨⟨0, 0, 0⟩⟩

/-- `physics::RigidBodyComponent`, with the C++ member defaults. -/
structure RigidBodyComponent where
  vx : ℚ := 0
  vy : ℚ := 0
  lastX : ℚ := 0
  lastY : ℚ := 0
  lastAngle : ℚ := 0
  mass : ℚ := 1
  invMass : ℚ := 1
  inertia : ℚ := 1
  invInertia : ℚ := 1
  restitution : ℚ := 1/2
  friction : ℚ := 1/2
  angularVelocity : ℚ := 0
  torque : ℚ := 0
  angularFriction : ℚ := 1/2
  angularDrag : ℚ := 0
deriving DecidableEq

instance : Inhabited RigidBodyComponent := ⟨{}⟩

/-- `physics::EnvironmentForces`, with the C++ member defaults. -/
structure EnvironmentForces where
  gravityY : ℚ := -981/100
  windX : ℚ := 0
  windY : ℚ := 0
  drag : ℚ := 0
deriving DecidableEq

/-- `physics::AABBComponent`. -/
structure AABBComponent where
  minX : ℚ := 0
  minY : ℚ := 0
  maxX : ℚ := 0
  maxY : ℚ := 0
deriving DecidableEq

instance : Inhabited AABBComponent := ⟨{}⟩

/-- `physics::CircleColliderComponent`. -/
structure CircleColliderComponent where
  radius : ℚ := 1
  offsetX : ℚ := 0
  offsetY : ℚ := 0
deriving DecidableEq

instance : Inhabited CircleColliderComponent := ⟨{}⟩

/-- `physics::DistanceJointComponent`. -/
structure DistanceJointComponent where
  entityA : EntityId
  entityB : EntityId
  targetDistance : ℚ
  compliance : ℚ := 0
deriving DecidableEq

instance : Inhabited DistanceJointComponent := ⟨⟨0, 0, 0, 0⟩⟩

/-- `physics::CollisionEvent`. -/
structure CollisionEvent where
  entityA : EntityId
  entityB : EntityId
  normalX : ℚ := 0
  normalY : ℚ := 0
  penetration : ℚ := 0
deriving DecidableEq

/-- The component `World`, restricted to the storages the physics pipeline
touches.  `ecs::World::GetStorage<T>` returns `nullptr` until the first
`AddComponent<T>`; since every pipeline system only iterates or `Get`s, a
missing storage and an empty storage are observationally identical, so
storages are modelled as always present. -/
structure World where
  transforms : ComponentStorage TransformComponent
  bodies : ComponentStorage RigidBodyComponent
  aabbs : ComponentStorage AABBComponent
  circles : ComponentStorage CircleColliderComponent
  joints : ComponentStorage DistanceJointComponent
deriving DecidableEq

/-- Write through a pointer previously obtained from `Get`: replace the dense
slot of `id` (no-op when `id` is absent, in which case the C++ code never had
a pointer to write through). -/
def ComponentStorage.setAt {C : Type} (s : ComponentStorage C) (id : EntityId)
    (c : C) : ComponentStorage C :=
  match s.index.lookup id with
  | some i => { s with data := s.data.set i c }
  | none => s

/-- Read-modify-write through a `Get` pointer. -/
def ComponentStorage.modify {C : Type} (s : ComponentStorage C) (id : EntityId)
    (f : C → C) : ComponentStorage C :=
  match s.Get id with
  | some c => s.setAt id (f c)
  | none => s

/-! ## Integrator (`src/physics/PhysicsIntegrationSystem.cpp`) -/

/-- `EnsureDerivedMass` (anonymous namespace of
`PhysicsIntegrationSystem.cpp`). -/
def ensureDerivedMass (b : RigidBodyComponent) : RigidBodyComponent :=
  if b.mass ≤ 0 then { b with invMass := 0, inertia := 0, invInertia := 0 }
  else
    let b1 := if b.invMass ≤ 0 then { b with invMass := 1 / b.mass } else b
    let b2 :=
      if b1.inertia ≤ 0 then { b1 with inertia := 1/2 * b1.mass } else b1
    if b2.invInertia ≤ 0 ∧ b2.inertia > 0 then
      { b2 with invInertia := 1 / b2.inertia }
    else b2

/-- The speed-ceiling clamp repeated verbatim in `Update`, `Integrate` and
`UpdateVelocities`: if `vx²+vy² > 50²`, rescale the velocity to length 50. -/
def clampSpeed (vx vy : ℚ) : ℚ × ℚ :=
  let maxVel : ℚ := 50
  let vSq := vx * vx + vy * vy
  if vSq > maxVel * maxVel then
    let v := Rat.sqrt vSq
    ((vx / v) * maxVel, (vy / v) * maxVel)
  else (vx, vy)

/-- Per-body step of `PhysicsIntegrationSystem::Update`'s `integrateRange`
lambda: restore derived mass for `invMass == 0 && mass > 0` bodies, skip
(and zero the angular velocity and torque of) bodies whose `invMass` is still
0, and otherwise do the symplectic-Euler update of velocity, position and
rotation. -/
def integrateBody (env : EnvironmentForces) (dt : ℚ)
    (tf : TransformComponent) (b0 : RigidBodyComponent) :
    TransformComponent × RigidBodyComponent :=
  let b := if b0.invMass = 0 ∧ b0.mass > 0 then ensureDerivedMass b0 else b0
  if b.invMass = 0 then
    (tf, { b with angularVelocity := 0, torque := 0 })
  else
    let b := { b with lastX := tf.x, lastY := tf.y, lastAngle := tf.rotation }
    let ax := env.windX - env.drag * b.vx
    let ay := env.gravityY + env.windY - env.drag * b.vy
    let v1 := clampSpeed (b.vx + ax * dt) (b.vy + ay * dt)
    let b := { b with vx := v1.1, vy := v1.2 }
    let tf := { tf with x := tf.x + b.vx * dt, y := tf.y + b.vy * dt }
    let b :=
      if b.invInertia = 0 ∧ b.inertia > 0 then
        { b with invInertia := 1 / b.inertia }
      else b
    if b.invInertia > 0 then
      let angularAccel := b.torque * b.invInertia - b.angularDrag * b.angularVelocity
      let damping := max 0 (1 - b.angularFriction * dt)
      let av := (b.angularVelocity + angularAccel * dt) * damping
      ({ tf with rotation := tf.rotation + av * dt },
        { b with angularVelocity := av, torque := 0 })
    else
      (tf, { b with angularVelocity := 0, torque := 0 })

/-- `PhysicsIntegrationSystem::Update`: integrate every rigid body against
the transform it owns.  The serial `integrateRange(0, count)` path is
modelled; the `Dispatch` path partitions `[0,count)` into disjoint index
ranges whose iterations write disjoint slots, so it computes the same
state. -/
def integrationUpdate (env : EnvironmentForces) (w : World) (dt : ℚ) : World :=
  (List.range w.bodies.data.length).foldl
    (fun w i =>
      let id := w.bodies.entities.getD i 0
      match w.transforms.Get id with
      | none => w
      | some tf =>
          let b := w.bodies.data.getD i default
          let r := integrateBody env dt tf b
          { w with
            bodies := { w.bodies with data := w.bodies.data.set i r.2 }
            transforms := w.transforms.setAt id r.1 })
    w

/-- `PhysicsIntegrationSystem::UpdateVelocities`: no-op for non-finite or
non-positive `dt` (non-finite floats have no rational counterpart, so the
`std::isfinite` guard is vacuous here); otherwise every dynamic body's
velocity is reconstructed from the position delta since integration and
clamped to the speed ceiling. -/
def updateVelocities (w : World) (dt : ℚ) : World :=
  if dt ≤ 0 then w
  else
    (List.range w.bodies.data.length).foldl
      (fun w i =>
        let id := w.bodies.entities.getD i 0
        match w.transforms.Get id with
        | none => w
        | some tf =>
            let b := w.bodies.data.getD i default
            if b.invMass = 0 then w
            else
              let v1 := clampSpeed ((tf.x - b.lastX) / dt) ((tf.y - b.lastY) / dt)
              let b' := { b with
                vx := v1.1
                vy := v1.2
                angularVelocity := (tf.rotation - b.lastAngle) / dt }
              { w with bodies := { w.bodies with data := w.bodies.data.set i b' } })
      w

/-! ## Contact gathering and solvers (`src/physics/Systems.cpp`) -/

/-- `kContactEpsilon = 1e-6f`. -/
def kContactEpsilon : ℚ := 1/1000000

/-- `EstimateLever`: collider radius for circles, half-diagonal for boxes. -/
def estimateLever (circle : Option CircleColliderComponent)
    (aabb : Option AABBComponent) : ℚ :=
  match circle with
  | some c => max c.radius 0
  | none =>
      match aabb with
      | some bb =>
          1/2 * Rat.sqrt (max 0 ((bb.maxX - bb.minX) * (bb.maxX - bb.minX) +
            (bb.maxY - bb.minY) * (bb.maxY - bb.minY)))
      | none => 0

/-- `CircleCircleManifold`; returns `(nx, ny, penetration)` on contact. -/
def circleCircleManifold (tA : TransformComponent)
    (cA : CircleColliderComponent) (tB : TransformComponent)
    (cB : CircleColliderComponent) : Option (ℚ × ℚ × ℚ) :=
  let ax := tA.x + cA.offsetX
  let ay := tA.y + cA.offsetY
  let bx := tB.x + cB.offsetX
  let by' := tB.y + cB.offsetY
  let dx := bx - ax
  let dy := by' - ay
  let radii := max cA.radius 0 + max cB.radius 0
  if radii ≤ 0 then none
  else
    let distSq := dx * dx + dy * dy
    if distSq ≤ kContactEpsilon then some (0, 1, radii)
    else
      let dist := Rat.sqrt distSq
      if dist ≥ radii then none
      else
        let pen := radii - dist
        if pen > 0 then some (dx / dist, dy / dist, pen) else none

/-- `CircleAabbManifold`; returns `(nx, ny, penetration)` on contact. -/
def circleAabbManifold (tCircle : TransformComponent)
    (circle : CircleColliderComponent) (box : AABBComponent) :
    Option (ℚ × ℚ × ℚ) :=
  let cx := tCircle.x + circle.offsetX
  let cy := tCircle.y + circle.offsetY
  let radius := max circle.radius 0
  if radius ≤ 0 then none
  else
    let closestX := min (max cx box.minX) box.maxX
    let closestY := min (max cy box.minY) box.maxY
    let dx := closestX - cx
    let dy := closestY - cy
    let distSq := dx * dx + dy * dy
    if distSq > radius * radius + kContactEpsilon then none
    else if distSq > kContactEpsilon then
      let dist := Rat.sqrt distSq
      let pen := radius - dist
      if pen > 0 then some (dx / dist, dy / dist, pen) else none
    else
      let left := cx - box.minX
      let right := box.maxX - cx
      let bottom := cy - box.minY
      let top := box.maxY - cy
      let sel0 : ℚ × ℚ × ℚ := (left, 1, 0)
      let sel1 := if right < sel0.1 then ((right, -1, 0) : ℚ × ℚ × ℚ) else sel0
      let sel2 := if bottom < sel1.1 then ((bottom, 0, 1) : ℚ × ℚ × ℚ) else sel1
      let sel3 := if top < sel2.1 then ((top, 0, -1) : ℚ × ℚ × ℚ) else sel2
      some (sel3.2.1, sel3.2.2, radius + sel3.1)

/-- The anonymous-namespace `Contact` record, with the `RigidBodyComponent*`
and `TransformComponent*` members replaced by the entity ids they point at
(the solvers re-resolve them through the storages, which is what reading and
writing through the cached pointers observes). -/
structure ContactData where
  entityA : EntityId
  entityB : EntityId
  leverA : ℚ
  leverB : ℚ
  nx : ℚ
  ny : ℚ
  pen : ℚ
  restitution : ℚ
  friction : ℚ
  invMassSum : ℚ
deriving DecidableEq

/-- `GatherContacts`: resolve each collision event against the storages,
replace the event manifold by the exact circle manifolds where circle
colliders are involved, and drop events with no bodies, no positive
penetration, or an immovable pair (`invMassSum == 0`). -/
def gatherContacts (events : List CollisionEvent) (w : World) :
    List ContactData :=
  events.filterMap (fun event =>
    match w.bodies.Get event.entityA, w.bodies.Get event.entityB,
        w.transforms.Get event.entityA, w.transforms.Get event.entityB with
    | some bA, some bB, some tA, some tB =>
        let aabbA := w.aabbs.Get event.entityA
        let aabbB := w.aabbs.Get event.entityB
        let cA := w.circles.Get event.entityA
        let cB := w.circles.Get event.entityB
        let manifold : Option (ℚ × ℚ × ℚ) :=
          match cA, cB with
          | some ca, some cb =>
              match circleCircleManifold tA ca tB cb with
              | none => none
              | some m => some m
          | some ca, none =>
              match aabbB with
              | some bb =>
                  match circleAabbManifold tA ca bb with
                  | none => none
                  | some m => some m
              | none => some (event.normalX, event.normalY, event.penetration)
          | none, some cb =>
              match aabbA with
              | some bb =>
                  match circleAabbManifold tB cb bb with
                  | none => none
                  | some m => some (-m.1, -m.2.1, m.2.2)
              | none => some (event.normalX, event.normalY, event.penetration)
          | none, none => some (event.normalX, event.normalY, event.penetration)
        match manifold with
        | none => none
        | some (nx, ny, pen) =>
            if pen ≤ 0 then none
            else
              let c : ContactData :=
                { entityA := event.entityA
                  entityB := event.entityB
                  leverA := estimateLever cA aabbA
                  leverB := estimateLever cB aabbB
                  nx := nx
                  ny := ny
                  pen := pen
                  restitution := min bA.restitution bB.restitution
                  friction := Rat.sqrt (bA.friction * bA.friction +
                    bB.friction * bB.friction)
                  invMassSum := bA.invMass + bB.invMass }
              if c.invMassSum = 0 then none else some c
    | _, _, _, _ => none)

/-! ## Island builder (union-find in `Systems.cpp`) -/

/-- One step of the parent chain: `parent[i]`, with out-of-range indices
their own parent. -/
def pstep (p : List Nat) (i : Nat) : Nat := p.getD i i

/-- `IslandBuilder::Find` with path compression, fuelled for termination
(`find` below supplies fuel `p.length`, which suffices for every
well-formed parent forest: see `findAux_spec`).  Returns the updated parent
array and the root. -/
def findAux : Nat → List Nat → Nat → List Nat × Nat
  | 0, p, i => (p, i)
  | fuel + 1, p, i =>
      let pi := pstep p i
      if pi = i then (p, i)
      else
        let r := findAux fuel p pi
        (r.1.set i r.2, r.2)

/-- `IslandBuilder::Find(idx)`. -/
def ufFind (p : List Nat) (i : Nat) : List Nat × Nat := findAux p.length p i

/-- `IslandBuilder` state: the entity→index map (`indices`, an
`unordered_map` as an association list), and the `parent`/`rank` arrays. -/
structure IslandBuilder where
  indices : List (EntityId × Nat) := []
  parent : List Nat := []
  rank : List Nat := []
deriving DecidableEq

/-- `IslandBuilder::Add`: return the existing index or append a fresh
singleton. -/
def IslandBuilder.add (s : IslandBuilder) (id : EntityId) :
    IslandBuilder × Nat :=
  match s.indices.lookup id with
  | some i => (s, i)
  | none =>
      let idx := s.parent.length
      ({ indices := (id, idx) :: s.indices
         parent := s.parent ++ [idx]
         rank := s.rank ++ [0] }, idx)

/-- `IslandBuilder::Unite`: union by rank of the two entities' roots. -/
def IslandBuilder.unite (s : IslandBuilder) (a b : EntityId) : IslandBuilder :=
  let r1 := s.add a
  let r2 := r1.1.add b
  let s2 := r2.1
  let f1 := ufFind s2.parent r1.2
  let f2 := ufFind f1.1 r2.2
  let ra := f1.2
  let rb := f2.2
  if ra = rb then { s2 with parent := f2.1 }
  else
    let ra' := if s2.rank.getD ra 0 < s2.rank.getD rb 0 then rb else ra
    let rb' := if s2.rank.getD ra 0 < s2.rank.getD rb 0 then ra else rb
    { indices := s2.indices
      parent := f2.1.set rb' ra'
      rank :=
        if s2.rank.getD ra' 0 = s2.rank.getD rb' 0 then
          s2.rank.set ra' (s2.rank.getD ra' 0 + 1)
        else s2.rank }

/-- `IslandBuilder::Root`: `-1` for unregistered entities, otherwise the
path-compressed root of the entity's index. -/
def IslandBuilder.root (s : IslandBuilder) (id : EntityId) :
    IslandBuilder × Int :=
  match s.indices.lookup id with
  | none => (s, -1)
  | some i =>
      let f := ufFind s.parent i
      ({ s with parent := f.1 }, (f.2 : Int))

/-- `BuildIslands`, phase 2 state: the builder, the `rootToIsland` map and
the islands accumulated so far. -/
structure GroupState where
  builder : IslandBuilder
  rootToIsland : List (Int × Nat)
  islands : List (List ContactData)

/-- Phase 1 of `BuildIslands`: unite the endpoints of every contact,
starting from an empty builder (the `builder` local of `BuildIslands`). -/
def uniteAll (contacts : List ContactData) : IslandBuilder :=
  contacts.foldl (fun s c => s.unite c.entityA c.entityB) {}

/-- Phase 2 loop body of `BuildIslands`: find the (path-compressed) root of
the contact's first body, skip it when negative (unregistered), and append
the contact to its root's island, creating the island on first sight. -/
def groupStep (g : GroupState) (c : ContactData) : GroupState :=
  let r := g.builder.root c.entityA
  if r.2 < 0 then { g with builder := r.1 }
  else
    match g.rootToIsland.lookup r.2 with
    | some k =>
        { builder := r.1
          rootToIsland := g.rootToIsland
          islands := g.islands.set k (g.islands.getD k [] ++ [c]) }
    | none =>
        { builder := r.1
          rootToIsland := g.rootToIsland ++ [(r.2, g.islands.length)]
          islands := g.islands ++ [[c]] }

/-- `BuildIslands`: unite the endpoints of every contact, then group the
contacts by the final root of their first endpoint, creating islands in
first-occurrence order. -/
def buildIslands (contacts : List ContactData) :
    List (List ContactData) :=
  if contacts.isEmpty then []
  else (contacts.foldl groupStep ⟨uniteAll contacts, [], []⟩).islands

/-- The island list produced by the phase-2 grouping fold (the value
`BuildIslands` returns on a nonempty contact list). -/
def islandsOf (contacts : List ContactData) : List (List ContactData) :=
  (contacts.foldl groupStep ⟨uniteAll contacts, [], []⟩).islands

/-- `CollisionResolutionSystem::SolverSettings`, with C++ defaults. -/
structure SolverSettings where
  positionIterations : Int := 16
  velocityIterations : Int := 8
  penetrationSlop : ℚ := 1/100
  correctionPercent : ℚ := 1/5
  maxCorrection : ℚ := 1/5
deriving DecidableEq

/-- One contact of the position solver's per-island loop body: clamp the
correction and displace the two transforms along ±normal scaled by each
body's inverse mass.  Writes go through the cached pointers, modelled as
sequential read-modify-writes of the storage. -/
def positionPassContact (slop percent maxCorrection : ℚ) (w : World)
    (c : ContactData) : World :=
  match w.bodies.Get c.entityA, w.bodies.Get c.entityB with
  | some bA, some bB =>
      let correction0 := max (c.pen - slop) 0 / c.invMassSum * percent
      let correction :=
        if correction0 > maxCorrection then maxCorrection else correction0
      let cx := correction * c.nx
      let cy := correction * c.ny
      let w1 := { w with transforms := (w.transforms.modify c.entityA
        (fun t => { t with x := t.x - cx * bA.invMass, y := t.y - cy * bA.invMass })) }
      { w1 with transforms := (w1.transforms.modify c.entityB
        (fun t => { t with x := t.x + cx * bB.invMass, y := t.y + cy * bB.invMass })) }
  | _, _ => w

/-- The position solver's island lambda: `positionIterations` sweeps over the
island's contacts. -/
def solveIslandPosition (slop percent maxC : ℚ) (iters : Nat)
    (island : List ContactData) (w : World) : World :=
  (List.range iters).foldl
    (fun w _ => island.foldl (positionPassContact slop percent maxC) w) w

/-- `CollisionResolutionSystem::ResolvePosition`.  `ExecuteIslands` is
modelled by the serial fold: the `Dispatch` path solves body-disjoint islands
concurrently and merges nothing, so it produces the same storage state. -/
def resolvePosition (st : SolverSettings) (events : List CollisionEvent)
    (w : World) : World :=
  let contacts := gatherContacts events w
  if contacts.isEmpty then w
  else
    let iters := (max 1 st.positionIterations).toNat
    (buildIslands contacts).foldl
      (fun w isl =>
        solveIslandPosition st.penetrationSlop st.correctionPercent
          st.maxCorrection iters isl w) w

/-- Application of a linear impulse `(ix, iy)` to a contact pair: subtract
`impulse·invMass` from body A's velocity and add it to body B's, writing
through the cached pointers in that order (the paired `-=`/`+=` statements of
the velocity solver). -/
def applyLinearImpulse (s : ComponentStorage RigidBodyComponent)
    (idA idB : EntityId) (ix iy : ℚ) : ComponentStorage RigidBodyComponent :=
  (s.modify idA (fun bb => { bb with
      vx := bb.vx - ix * bb.invMass
      vy := bb.vy - iy * bb.invMass })).modify idB
    (fun bb => { bb with
      vx := bb.vx + ix * bb.invMass
      vy := bb.vy + iy * bb.invMass })

/-- Application of the tangential impulse's angular response: spin body A
down and body B up by `jt·lever·invInertia`, each guarded by
`lever > 0 && invInertia > 0`. -/
def applyAngularImpulse (s : ComponentStorage RigidBodyComponent)
    (idA idB : EntityId) (leverA leverB jt : ℚ) :
    ComponentStorage RigidBodyComponent :=
  (s.modify idA (fun bb =>
    if leverA > 0 ∧ bb.invInertia > 0 then
      { bb with angularVelocity :=
          bb.angularVelocity - jt * leverA * bb.invInertia }
    else bb)).modify idB (fun bb =>
    if leverB > 0 ∧ bb.invInertia > 0 then
      { bb with angularVelocity :=
          bb.angularVelocity + jt * leverB * bb.invInertia }
    else bb)

/-- One contact of the velocity solver's per-island loop body: normal impulse
when approaching, then (while `pen > -0.05`) a Coulomb-capped tangential
impulse with angular response. -/
def velocityPassContact (w : World) (c : ContactData) : World :=
  match w.bodies.Get c.entityA, w.bodies.Get c.entityB with
  | some bA, some bB =>
      let rvx := bB.vx - bA.vx
      let rvy := bB.vy - bA.vy
      let velAlongNormal := rvx * c.nx + rvy * c.ny
      let j :=
        if velAlongNormal < 0 then
          -(1 + c.restitution) * velAlongNormal / c.invMassSum
        else 0
      let w1 :=
        if velAlongNormal < 0 then
          { w with bodies :=
              (applyLinearImpulse w.bodies c.entityA c.entityB (j * c.nx)
                (j * c.ny)) }
        else w
      if c.pen > -(1/20) then
        match w1.bodies.Get c.entityA, w1.bodies.Get c.entityB with
        | some bA2, some bB2 =>
            let rvx2 := bB2.vx - bA2.vx
            let rvy2 := bB2.vy - bA2.vy
            let tx := -c.ny
            let ty := c.nx
            let velAlongTangent := rvx2 * tx + rvy2 * ty
            let jt0 := -velAlongTangent / c.invMassSum
            let maxJt := if j > 0 then c.friction * j else c.friction * (1/10)
            let jt :=
              if |jt0| > maxJt then (if jt0 > 0 then maxJt else -maxJt)
              else jt0
            { w1 with bodies :=
                (applyAngularImpulse
                  (applyLinearImpulse w1.bodies c.entityA c.entityB (jt * tx)
                    (jt * ty))
                  c.entityA c.entityB c.leverA c.leverB jt) }
        | _, _ => w1
      else w1
  | _, _ => w

/-- The velocity solver's island lambda: `velocityIterations` sweeps. -/
def solveIslandVelocity (iters : Nat) (island : List ContactData)
    (w : World) : World :=
  (List.range iters).foldl
    (fun w _ => island.foldl velocityPassContact w) w

/-- `CollisionResolutionSystem::ResolveVelocity` (serial island execution,
as for `resolvePosition`). -/
def resolveVelocity (st : SolverSettings) (events : List CollisionEvent)
    (w : World) : World :=
  let contacts := gatherContacts events w
  if contacts.isEmpty then w
  else
    let iters := (max 1 st.velocityIterations).toNat
    (buildIslands contacts).foldl
      (fun w isl => solveIslandVelocity iters isl w) w

/-- The local `Constraint` record of `ConstraintResolutionSystem::Resolve`,
pointers replaced by entity ids. -/
structure ConstraintInfo where
  entityA : EntityId
  entityB : EntityId
  targetDistance : ℚ
  invMassSum : ℚ
  compliance : ℚ
deriving DecidableEq

/-- The constraint pre-resolution loop: keep joints whose endpoints have
transforms and bodies and whose `invMassSum` is nonzero. -/
def gatherConstraints (w : World) : List ConstraintInfo :=
  w.joints.data.filterMap (fun joint =>
    match w.transforms.Get joint.entityA, w.transforms.Get joint.entityB,
        w.bodies.Get joint.entityA, w.bodies.Get joint.entityB with
    | some _, some _, some bA, some bB =>
        let ims := bA.invMass + bB.invMass
        if ims = 0 then none
        else
          some ⟨joint.entityA, joint.entityB, joint.targetDistance, ims,
            joint.compliance⟩
    | _, _, _, _ => none)

/-- One distance joint of the constraint solver's loop body: project the two
endpoints toward the target distance, softened by `compliance/dt²`. -/
def constraintPass (dtSafe : ℚ) (w : World) (c : ConstraintInfo) : World :=
  match w.transforms.Get c.entityA, w.transforms.Get c.entityB with
  | some tA, some tB =>
      let dx := tB.x - tA.x
      let dy := tB.y - tA.y
      let dist := Rat.sqrt (dx * dx + dy * dy)
      if dist < 1/10000 then w
      else
        let diff := dist - c.targetDistance
        let complianceTerm :=
          if c.compliance > 0 then c.compliance / (dtSafe * dtSafe) else 0
        let denom := c.invMassSum + complianceTerm
        if denom ≤ 0 then w
        else
          let correction := diff / denom
          let px := dx / dist * correction
          let py := dy / dist * correction
          match w.bodies.Get c.entityA, w.bodies.Get c.entityB with
          | some bA, some bB =>
              let w1 := { w with transforms := (w.transforms.modify c.entityA
                (fun t => { t with
                  x := t.x + px * bA.invMass
                  y := t.y + py * bA.invMass })) }
              { w1 with transforms := (w1.transforms.modify c.entityB
                (fun t => { t with
                  x := t.x - px * bB.invMass
                  y := t.y - py * bB.invMass })) }
          | _, _ => w
  | _, _ => w

/-- `ConstraintResolutionSystem::Resolve`. -/
def constraintResolve (iterations : Int) (w : World) (dt : ℚ) : World :=
  let constraints := gatherConstraints w
  let iters := (max 1 iterations).toNat
  let dtSafe := max dt (1/10000)
  (List.range iters).foldl
    (fun w _ => constraints.foldl (constraintPass dtSafe) w) w

/-! ## Broadphase (`src/physics/CollisionSystem.cpp`) -/

/-- `GetCellCoords` with `CELL_SIZE = 2.0f`: the cell of a point,
`static_cast<int>(std::floor(coord / 2))`. -/
def getCellCoords (x y : ℚ) : ℤ × ℤ := (⌊x / 2⌋, ⌊y / 2⌋)

/-- `PackKey`: `(uint64_t(x) << 32) | uint32_t(y)` — the low 32 bits of each
(two's-complement) coordinate packed into one 64-bit word. -/
def packKey (x y : ℤ) : ℕ :=
  (x % 2 ^ 32).toNat * 2 ^ 32 + (y % 2 ^ 32).toNat

/-- `CellEntry`. -/
structure CellEntry where
  key : ℕ
  index : ℕ
deriving DecidableEq

instance : Inhabited CellEntry := ⟨⟨0, 0⟩⟩

/-- `CellEntry::operator<` is the strict lexicographic order on
`(key, index)`; sorting with `std::sort` produces the list nondecreasing in
this order, which `List.mergeSort` with the reflexive closure computes. -/
def entryLE (a b : CellEntry) : Bool :=
  decide (a.key < b.key) || (decide (a.key = b.key) && decide (a.index ≤ b.index))

/-- The inclusive `int` range `lo..hi` (empty when `hi < lo`). -/
def intRange (lo hi : ℤ) : List ℤ :=
  (List.range (hi + 1 - lo).toNat).map (fun k : ℕ => lo + (k : ℤ))

/-- Grid-entry construction: one `(cellKey, colliderIndex)` entry per cell
overlapped by each collider's AABB (x outer loop, y inner loop). -/
def buildEntries (aabbs : List AABBComponent) : List CellEntry :=
  (List.range aabbs.length).flatMap (fun i =>
    let box := aabbs.getD i default
    let cmin := getCellCoords box.minX box.minY
    let cmax := getCellCoords box.maxX box.maxY
    (intRange cmin.1 cmax.1).flatMap (fun x =>
      (intRange cmin.2 cmax.2).map (fun y => ⟨packKey x y, i⟩)))

/-- `GetManifold`: overlap test, then separating-axis selection with the
smaller overlap; returns `(normalX, normalY, penetration)`. -/
def getManifold (a b : AABBComponent) : Option (ℚ × ℚ × ℚ) :=
  if a.maxX < b.minX ∨ a.minX > b.maxX ∨ a.maxY < b.minY ∨ a.minY > b.maxY then
    none
  else
    let xOverlap := min a.maxX b.maxX - max a.minX b.minX
    let yOverlap := min a.maxY b.maxY - max a.minY b.minY
    if xOverlap < yOverlap then
      some (if a.minX + a.maxX < b.minX + b.maxX then 1 else -1, 0, xOverlap)
    else
      some (0, if a.minY + a.maxY < b.minY + b.maxY then 1 else -1, yOverlap)

/-- The serial O(n²) branch of `CollisionSystem::Detect`: all index pairs
`i < j` in order, one event per overlapping pair. -/
def serialEvents (aabbs : List AABBComponent) (ids : List EntityId) :
    List CollisionEvent :=
  (List.range aabbs.length).flatMap (fun i =>
    ((List.range aabbs.length).drop (i + 1)).filterMap (fun j =>
      match getManifold (aabbs.getD i default) (aabbs.getD j default) with
      | some m => some ⟨ids.getD i 0, ids.getD j 0, m.1, m.2.1, m.2.2⟩
      | none => none))

/-- Decompose a list into its maximal runs of equal keys (the `GridTask`
scan over the sorted entries identifies exactly these runs). -/
def splitRuns : List CellEntry → List (List CellEntry)
  | [] => []
  | e :: rest =>
      match splitRuns rest with
      | [] => [[e]]
      | r :: rs =>
          if (r.headD e).key = e.key then (e :: r) :: rs else [e] :: r :: rs

/-- All ordered position pairs of a list (the `i < j` double loop over a
cell task's entries). -/
def orderedPairs {α : Type} : List α → List (α × α)
  | [] => []
  | x :: xs => (xs.map (fun y => (x, y))) ++ orderedPairs xs

/-- The per-pair body of the cell-task worker: fast AABB rejection, the
primary-cell check against the task's key, then the manifold. -/
def pairEvent (aabbs : List AABBComponent) (ids : List EntityId)
    (taskKey : ℕ) (pr : CellEntry × CellEntry) : Option CollisionEvent :=
  let boxA := aabbs.getD pr.1.index default
  let boxB := aabbs.getD pr.2.index default
  if boxA.maxX < boxB.minX ∨ boxA.minX > boxB.maxX ∨
      boxA.maxY < boxB.minY ∨ boxA.minY > boxB.maxY then none
  else
    let cc := getCellCoords (max boxA.minX boxB.minX) (max boxA.minY boxB.minY)
    if packKey cc.1 cc.2 = taskKey then
      match getManifold boxA boxB with
      | some m =>
          some ⟨ids.getD pr.1.index 0, ids.getD pr.2.index 0, m.1, m.2.1, m.2.2⟩
      | none => none
    else none

/-- One cell task's private result buffer. -/
def taskEvents (aabbs : List AABBComponent) (ids : List EntityId)
    (run : List CellEntry) : List CollisionEvent :=
  (orderedPairs run).filterMap (pairEvent aabbs ids (run.headD default).key)

/-- The spatial-hash branch of `CollisionSystem::Detect`: build and sort the
grid entries, form the cell tasks (runs of a shared key with more than one
entry), test the pairs of each task, and concatenate the per-task buffers in
task order (the deterministic merge after `Wait`). -/
def hashedEvents (aabbs : List AABBComponent) (ids : List EntityId) :
    List CollisionEvent :=
  let entries := (buildEntries aabbs).mergeSort entryLE
  ((splitRuns entries).filter (fun r => 1 < r.length)).flatMap
    (taskEvents aabbs ids)

/-- `CollisionSystem::Detect`.  `prev` is the incoming contents of
`outEvents`, discarded by the leading `outEvents.clear()`; `hasJobSystem`
models whether a non-null scheduler was supplied. -/
def detect (prev : List CollisionEvent) (aabbs : List AABBComponent)
    (ids : List EntityId) (hasJobSystem : Bool) : List CollisionEvent :=
  let _ := prev
  if aabbs.length < 2 ∨ aabbs.length ≠ ids.length then []
  else if hasJobSystem ∧ 100 < aabbs.length then hashedEvents aabbs ids
  else serialEvents aabbs ids

/-! ## Pipeline orchestrator (`src/physics/PhysicsPipelineSystem.cpp`) -/

/-- `physics::PhysicsSettings`, with C++ defaults. -/
structure PhysicsSettings where
  substeps : Int := 16
  positionIterations : Int := 20
  velocityIterations : Int := 10
  constraintIterations : Int := 8
  penetrationSlop : ℚ := 1/100
  correctionPercent : ℚ := 1/5
  maxPositionCorrection : ℚ := 1/5
deriving DecidableEq

/-- `PhysicsSystem::ApplySettings`: the solver-settings projection. -/
def toSolverSettings (s : PhysicsSettings) : SolverSettings :=
  ⟨s.positionIterations, s.velocityIterations, s.penetrationSlop,
    s.correctionPercent, s.maxPositionCorrection⟩

/-- `SyncDynamicAabbsToTransforms`: recentre each dynamic body's AABB on its
transform, keeping the half-extents. -/
def syncDynamicAabbs (w : World) : World :=
  (List.range w.aabbs.data.length).foldl
    (fun w i =>
      let id := w.aabbs.entities.getD i 0
      match w.bodies.Get id, w.transforms.Get id with
      | some rb, some tf =>
          if rb.invMass = 0 then w
          else
            let aabb := w.aabbs.data.getD i default
            let halfW := max 0 ((aabb.maxX - aabb.minX) / 2)
            let halfH := max 0 ((aabb.maxY - aabb.minY) / 2)
            { w with aabbs := { w.aabbs with data := (w.aabbs.data.set i
                ⟨tf.x - halfW, tf.y - halfH, tf.x + halfW, tf.y + halfH⟩) } }
      | _, _ => w)
    w

/-- The broadphase input gathering of `PhysicsSystem::Update`: all AABB
colliders, then circle colliders lacking an explicit AABB with an AABB
derived from centre ± radius. -/
def broadphaseInput (w : World) : List AABBComponent × List EntityId :=
  (List.range w.circles.data.length).foldl
    (fun (acc : List AABBComponent × List EntityId) j =>
      let id := w.circles.entities.getD j 0
      if (w.aabbs.Get id).isSome then acc
      else
        match w.transforms.Get id with
        | none => acc
        | some tf =>
            let circle := w.circles.data.getD j default
            let radius := max 0 circle.radius
            let cx := tf.x + circle.offsetX
            let cy := tf.y + circle.offsetY
            (acc.1 ++ [⟨cx - radius, cy - radius, cx + radius, cy + radius⟩],
              acc.2 ++ [id]))
    (w.aabbs.data, w.aabbs.entities)

/-- One substep of `PhysicsSystem::Update`: integrate, sync AABBs, detect,
solve positions, solve joints, reconstruct velocities, solve velocities. -/
def substep (settings : PhysicsSettings) (env : EnvironmentForces)
    (hasJobSystem : Bool) (w : World) (subDt : ℚ) : World :=
  let w := integrationUpdate env w subDt
  let w := syncDynamicAabbs w
  let bp := broadphaseInput w
  let events :=
    if bp.1.isEmpty then [] else detect [] bp.1 bp.2 hasJobSystem
  let w :=
    if events.isEmpty then w
    else resolvePosition (toSolverSettings settings) events w
  let w := constraintResolve settings.constraintIterations w subDt
  let w := updateVelocities w subDt
  if events.isEmpty then w
  else resolveVelocity (toSolverSettings settings) events w

/-- `PhysicsSystem::Update`: reject only non-finite or negative `dt` (the
guard is `dt < 0.0f`; a non-finite `dt` has no rational counterpart), then
run `max(1, substeps)` substeps of `dt / substeps` each. -/
def physicsUpdate (settings : PhysicsSettings) (env : EnvironmentForces)
    (hasJobSystem : Bool) (w : World) (dt : ℚ) : World :=
  if dt < 0 then w
  else
    let substeps := (max 1 settings.substeps).toNat
    let subDt := dt / (substeps : ℚ)
    (List.range substeps).foldl
      (fun w _ => substep settings env hasJobSystem w subDt) w

/-- A two-body world used by the C5 witness. -/
def worldC5 : World :=
  { transforms := ((ComponentStorage.empty.Add 1 ⟨0, 0, 0⟩).Add 2 ⟨1, 0, 0⟩)
    bodies := ((ComponentStorage.empty.Add 1 { invMass := 1 }).Add 2
      { invMass := 1 })
    aabbs := ComponentStorage.empty
    circles := ComponentStorage.empty
    joints := ComponentStorage.empty }

/-- A concrete contact between the two bodies of `worldC5`. -/
def contactC5 : ContactData :=
  { entityA := 1, entityB := 2, leverA := 0, leverB := 0, nx := 1, ny := 0,
    pen := 11/100, restitution := 0, friction := 0, invMassSum := 2 }

/-- A body with `invMass == 0` but positive `mass`, used by the C1
counterexample. -/
def bodyC1 : RigidBodyComponent := { vx := 1, invMass := 0 }

/-- A world with one genuinely static body (entity 3) for the C1 witness. -/
def worldC1 : World :=
  { transforms := ComponentStorage.empty.Add 3 ⟨5, 6, 0⟩
    bodies := (ComponentStorage.empty.Add 3
      { invMass := 0, mass := 0, inertia := 0, invInertia := 0,
        angularVelocity := 1, torque := 2 })
    aabbs := ComponentStorage.empty
    circles := ComponentStorage.empty
    joints := ComponentStorage.empty }

/-- The one-substep settings used by the C3 counterexample. -/
def settingsC3 : PhysicsSettings := { substeps := 1, constraintIterations := 1 }

/-- The one-body world used by the C3 counterexample: entity 1 is static
(`invMass = 0`, `mass = 0`) and carries a pending torque. -/
def worldC3 : World :=
  { transforms := ComponentStorage.empty.Add 1 ⟨0, 0, 0⟩
    bodies := (ComponentStorage.empty.Add 1 { invMass := 0, mass := 0, torque := 1 })
    aabbs := ComponentStorage.empty
    circles := ComponentStorage.empty
    joints := ComponentStorage.empty }

/-- The state `worldC3` reaches after one `dt = 0` substep: the static
body's torque has been reset. -/
def worldC3close : World :=
  { transforms := ComponentStorage.empty.Add 1 ⟨0, 0, 0⟩
    bodies := { data := [{ invMass := 0, mass := 0 }], entities := [1],
                index := [(1, 0)] }
    aabbs := ComponentStorage.empty
    circles := ComponentStorage.empty
    joints := ComponentStorage.empty }

/-- The two equal-mass bodies of the C7 witness, approaching head-on along
the x axis with speeds 1 and -1. -/
def bodyA7 : RigidBodyComponent := { vx := 1, invMass := 1 }

/-- See `bodyA7`. -/
def bodyB7 : RigidBodyComponent := { vx := -1, invMass := 1 }

/-- The two-body world of the C7 witness. -/
def worldC7 : World :=
  { transforms := ((ComponentStorage.empty.Add 1 ⟨0, 0, 0⟩).Add 2 ⟨1, 0, 0⟩)
    bodies := ((ComponentStorage.empty.Add 1 bodyA7).Add 2 bodyB7)
    aabbs := ComponentStorage.empty
    circles := ComponentStorage.empty
    joints := ComponentStorage.empty }

/-- The restitution-1 frictionless head-on contact of the C7 witness. -/
def contactC7 : ContactData :=
  { entityA := 1, entityB := 2, leverA := 0, leverB := 0, nx := 1, ny := 0,
    pen := 1/10, restitution := 1, friction := 0, invMassSum := 2 }

/-- The malformed box of the C2 counterexample: inverted on the x axis
(`minX > maxX`), so its spatial-hash cell range is empty. -/
def box0C2 : AABBComponent := { minX := 5, minY := 0, maxX := 0, maxY := 1 }

/-- The well-formed partner box of the C2 counterexample. -/
def box1C2 : AABBComponent := { minX := 0, minY := 0, maxX := 5, maxY := 1 }

/-- The C2 counterexample input. -/
def aabbsC2 : List AABBComponent := [box0C2, box1C2]

/-- Entity ids for the C2 counterexample input. -/
def idsC2 : List EntityId := [5, 6]

/-- Two overlapping well-formed boxes for the C2 witness. -/
def aabbsW2 : List AABBComponent :=
  [{ minX := 0, minY := 0, maxX := 2, maxY := 2 },
   { minX := 1, minY := 1, maxX := 3, maxY := 3 }]

/-- Entity ids for the C2 witness input. -/
def idsW2 : List EntityId := [7, 8]

instance : Inhabited ContactData := ⟨⟨0, 0, 0, 0, 0, 0, 0, 0, 0, 0⟩⟩

/-- One edge of the contact graph: some contact joins `u` and `v`. -/
def contactEdge (contacts : List ContactData) (u v : EntityId) : Prop :=
  ∃ c ∈ contacts, (c.entityA = u ∧ c.entityB = v) ∨
    (c.entityA = v ∧ c.entityB = u)

/-- Connectivity in the contact graph (bodies as vertices, contacts as
edges): the equivalence closure of `contactEdge`. -/
def Connected (contacts : List ContactData) (u v : EntityId) : Prop :=
  Relation.EqvGen (contactEdge contacts) u v

/-- A body that appears in some contact. -/
def Touched (contacts : List ContactData) (v : EntityId) : Prop :=
  ∃ c ∈ contacts, c.entityA = v ∨ c.entityB = v

/-- The representative body of an island: the first endpoint of its first
contact. -/
def islandRep (isl : List ContactData) : EntityId :=
  (isl.headD default).entityA

/-- `i` is a root of the parent forest. -/
def IsRoot (p : List Nat) (r : Nat) : Prop := pstep p r = r

/-- The parent chain from `i` reaches the root `r`. -/
def RootedAt (p : List Nat) (i r : Nat) : Prop :=
  ∃ k, (pstep p)^[k] i = r ∧ IsRoot p r

/-- The union-find invariants: equal array lengths, in-bounds parents, and
strictly increasing rank along non-trivial parent edges (which bounds every
parent chain and justifies the fuel `parent.size()`). -/
def UFInv (p rank : List Nat) : Prop :=
  p.length = rank.length ∧
  (∀ i, i < p.length → pstep p i < p.length) ∧
  (∀ i, i < p.length → pstep p i ≠ i →
    rank.getD i 0 < rank.getD (pstep p i) 0)

/-- Well-formedness of the whole `IslandBuilder`: union-find invariants
plus a bijective entity↔slot map. -/
def IBWF (s : IslandBuilder) : Prop :=
  UFInv s.parent s.rank ∧
  (s.indices.map Prod.fst).Nodup ∧
  (∀ pr ∈ s.indices, pr.2 < s.parent.length) ∧
  (∀ i, i < s.parent.length → ∃ e, (e, i) ∈ s.indices)

/-- An entity the builder has seen. -/
def Registered (s : IslandBuilder) (e : EntityId) : Prop :=
  ∃ i, s.indices.lookup e = some i

/-- Two entities whose slots share a union-find root. -/
def SameRoot (s : IslandBuilder) (x y : EntityId) : Prop :=
  ∃ ix iy r, s.indices.lookup x = some ix ∧ s.indices.lookup y = some iy ∧
    RootedAt s.parent ix r ∧ RootedAt s.parent iy r

/-- The equivalence generated from `E` by joining the classes of `a` and
`b` (the effect of one `Unite`). -/
def JoinE (E : EntityId → EntityId → Prop) (a b x y : EntityId) : Prop :=
  E x y ∨ (E x a ∧ E b y) ∨ (E x b ∧ E a y)

/-- The phase-1 canonical root of a contact's first body. -/
def ARoot (b0 : IslandBuilder) (c : ContactData) (r : Nat) : Prop :=
  ∃ i, b0.indices.lookup c.entityA = some i ∧ RootedAt b0.parent i r

/-- Invariant of the phase-2 grouping fold of `BuildIslands`, relative to
the phase-1 builder `b0` and the prefix `processed` of contacts handled so
far: the builder only compresses paths (indices, ranks and every root
assignment are those of `b0`), `rootToIsland` maps distinct roots onto the
island indices `0..islands.length-1` in order, each island holds exactly
the processed contacts whose first body has the corresponding root, and no
island is empty. -/
def GroupInv (b0 : IslandBuilder) (g : GroupState)
    (processed : List ContactData) : Prop :=
  g.builder.indices = b0.indices ∧
  g.builder.rank = b0.rank ∧
  g.builder.parent.length = b0.parent.length ∧
  UFInv g.builder.parent b0.rank ∧
  (∀ j rr, RootedAt g.builder.parent j rr ↔ RootedAt b0.parent j rr) ∧
  g.rootToIsland.map Prod.snd = List.range g.islands.length ∧
  (∀ (r : Nat) (k : Nat), g.rootToIsland.lookup (r : Int) = some k →
    ∀ cc ∈ g.islands.getD k [], ARoot b0 cc r) ∧
  (∀ k cc, k < g.islands.length → cc ∈ g.islands.getD k [] →
    ∃ r : Nat, ARoot b0 cc r ∧ g.rootToIsland.lookup (r : Int) = some k) ∧
  g.islands.flatten.Perm processed ∧
  (∀ isl ∈ g.islands, isl ≠ [])

/-- The else-branch of `IslandBuilder::Unite` (union by rank): given the
post-`Find` parent array `q` and the two distinct roots `ra`, `rb`, attach
the lower-ranked root under the higher-ranked one (ties attach `rb` under
`ra` and bump `ra`'s rank). -/
def linkRoots (s2 : IslandBuilder) (q : List Nat) (ra rb : Nat) :
    IslandBuilder :=
  { indices := s2.indices
    parent := q.set
      (if s2.rank.getD ra 0 < s2.rank.getD rb 0 then ra else rb)
      (if s2.rank.getD ra 0 < s2.rank.getD rb 0 then rb else ra)
    rank :=
      if s2.rank.getD
            (if s2.rank.getD ra 0 < s2.rank.getD rb 0 then rb else ra) 0 =
          s2.rank.getD
            (if s2.rank.getD ra 0 < s2.rank.getD rb 0 then ra else rb) 0 then
        s2.rank.set (if s2.rank.getD ra 0 < s2.rank.getD rb 0 then rb else ra)
          (s2.rank.getD
            (if s2.rank.getD ra 0 < s2.rank.getD rb 0 then rb else ra) 0 + 1)
      else s2.rank }

/-! ## Supporting lemmas and claim theorems -/


/-- Distinct positions of a duplicate-free list hold distinct values
(`getD` form). -/
theorem nodup_getD_inj {α : Type} {l : List α} (hnd : l.Nodup) {a b : Nat}
    (ha : a < l.length) (hb : b < l.length) (d : α)
    (h : l.getD a d = l.getD b d) : a = b := by
  rw [List.getD_eq_getElem _ _ ha, List.getD_eq_getElem _ _ hb] at h
  exact (List.Nodup.getElem_inj_iff hnd).mp h


/-- With distinct keys, association-list lookup agrees with membership. -/
theorem lookup_eq_some_iff_mem {l : List (EntityId × Nat)}
    (hnd : (l.map Prod.fst).Nodup) (k : EntityId) (v : Nat) :
    l.lookup k = some v ↔ (k, v) ∈ l := by
  induction l with
  | nil => simp [List.lookup]
  | cons p rest ih =>
      obtain ⟨pk, pv⟩ := p
      simp only [List.map_cons, List.nodup_cons] at hnd
      by_cases hk : pk = k
      · subst hk
        simp only [List.lookup, beq_self_eq_true, List.mem_cons,
          Option.some.injEq, Prod.mk.injEq, true_and]
        constructor
        · intro h
          exact Or.inl h.symm
        · rintro (h | h)
          · exact h.symm
          · exact absurd (List.mem_map_of_mem Prod.fst h) hnd.1
      · have hbeq : (k == pk) = false :=
          beq_eq_false_iff_ne.mpr (fun h => hk h.symm)
        simp only [List.lookup, hbeq, List.mem_cons, Prod.mk.injEq]
        rw [ih hnd.2]
        constructor
        · exact fun h => Or.inr h
        · rintro (⟨h1, _⟩ | h)
          · exact absurd h1.symm hk
          · exact h

/-- Lookup misses exactly when the key is absent. -/
theorem lookup_eq_none_iff_not_mem {l : List (EntityId × Nat)} (k : EntityId) :
    l.lookup k = none ↔ k ∉ l.map Prod.fst := by
  induction l with
  | nil => simp [List.lookup]
  | cons p rest ih =>
      obtain ⟨pk, pv⟩ := p
      by_cases hk : pk = k
      · subst hk
        simp [List.lookup]
      · have hbeq : (k == pk) = false :=
          beq_eq_false_iff_ne.mpr (fun h => hk h.symm)
        simp only [List.lookup, hbeq, List.map_cons, List.mem_cons]
        rw [ih]
        constructor
        · intro h hmem
          rcases hmem with h' | h'
          · exact hk h'.symm
          · exact h h'
        · intro h hmem
          exact h (Or.inr hmem)

/-- Erasing a key from a nodup-key association list removes it from the key
set. -/
theorem not_mem_keys_eraseP {l : List (EntityId × Nat)}
    (hnd : (l.map Prod.fst).Nodup) (k : EntityId) :
    k ∉ (l.eraseP (fun p => p.1 == k)).map Prod.fst := by
  induction l with
  | nil => simp [List.eraseP]
  | cons p rest ih =>
      obtain ⟨pk, pv⟩ := p
      simp only [List.map_cons, List.nodup_cons] at hnd
      by_cases hk : pk = k
      · subst hk
        have : (fun p : EntityId × Nat => p.1 == pk) (pk, pv) = true := by
          simp
        simp only [List.eraseP, this]
        exact hnd.1
      · have : (fun p : EntityId × Nat => p.1 == k) (pk, pv) = false := by
          simpa using hk
        simp only [List.eraseP, this, List.map_cons]
        intro hmem
        rcases List.mem_cons.mp hmem with h | h
        · exact hk h.symm
        · exact ih hnd.2 h

/-- Keys of `updateAssoc` are unchanged. -/
theorem keys_updateAssoc (l : List (EntityId × Nat)) (k : EntityId) (v : Nat) :
    (updateAssoc l k v).map Prod.fst = l.map Prod.fst := by
  induction l with
  | nil => rfl
  | cons p rest ih =>
      obtain ⟨pk, pv⟩ := p
      by_cases hk : pk = k
      · subst hk
        simpa [updateAssoc, List.map_cons] using ih
      · simpa [updateAssoc, hk, List.map_cons] using ih

/-- Erasing one key leaves lookups of other keys unchanged. -/
theorem lookup_eraseP_ne {l : List (EntityId × Nat)} {id k : EntityId}
    (hne : k ≠ id) : (l.eraseP (fun p => p.1 == id)).lookup k = l.lookup k := by
  induction l with
  | nil => simp [List.eraseP]
  | cons p rest ih =>
      obtain ⟨pk, pv⟩ := p
      by_cases hid : pk = id
      · subst hid
        have hpred : (fun p : EntityId × Nat => p.1 == pk) (pk, pv) = true := by
          simp
        have hbeq : (k == pk) = false := beq_eq_false_iff_ne.mpr hne
        simp only [List.eraseP, hpred, cond_true, List.lookup, hbeq]
      · have hpred : (fun p : EntityId × Nat => p.1 == id) (pk, pv) = false := by
          simpa using hid
        by_cases hks : pk = k
        · subst hks
          simp only [List.eraseP, hpred, cond_false, List.lookup,
            beq_self_eq_true]
        · have hbeq : (k == pk) = false :=
            beq_eq_false_iff_ne.mpr (fun h => hks h.symm)
          simp only [List.eraseP, hpred, cond_false, List.lookup, hbeq]
          exact ih

/-- After repointing key `k` to `v`, looking `k` up yields `v` (given `k`
is present and keys are distinct). -/
theorem lookup_updateAssoc_self {l : List (EntityId × Nat)}
    (hnd : (l.map Prod.fst).Nodup) {k : EntityId} (hk : k ∈ l.map Prod.fst)
    (v : Nat) : (updateAssoc l k v).lookup k = some v := by
  have hnd' : ((updateAssoc l k v).map Prod.fst).Nodup := by
    rw [keys_updateAssoc]; exact hnd
  rw [lookup_eq_some_iff_mem hnd']
  obtain ⟨p, hp, hpk⟩ := List.mem_map.mp hk
  have : (fun p : EntityId × Nat => if p.1 = k then (k, v) else p) p = (k, v) := by
    simp [hpk]
  exact this ▸ List.mem_map_of_mem _ hp

/-- `Add` keeps the sparse-map keys distinct and makes `id` present. -/
theorem add_keys {C : Type} (s : ComponentStorage C) (id : EntityId) (c : C)
    (hnd : (s.index.map Prod.fst).Nodup) :
    ((s.Add id c).index.map Prod.fst).Nodup ∧
      id ∈ (s.Add id c).index.map Prod.fst := by
  unfold ComponentStorage.Add
  cases hlk : s.index.lookup id with
  | some i =>
      refine ⟨hnd, ?_⟩
      have := lookup_eq_some_iff_mem hnd id i |>.mp hlk
      exact List.mem_map_of_mem Prod.fst this
  | none =>
      have hnot : id ∉ s.index.map Prod.fst :=
        (lookup_eq_none_iff_not_mem id).mp hlk
      exact ⟨List.nodup_cons.mpr ⟨hnot, hnd⟩, by simp⟩

theorem StorageWF.len {C : Type} {s : ComponentStorage C} (h : StorageWF s) :
    s.data.length = s.entities.length := h.1

theorem StorageWF.entNodup {C : Type} {s : ComponentStorage C}
    (h : StorageWF s) : s.entities.Nodup := h.2.1

theorem StorageWF.keysNodup {C : Type} {s : ComponentStorage C}
    (h : StorageWF s) : (s.index.map Prod.fst).Nodup := h.2.2.1

theorem StorageWF.memIdx {C : Type} {s : ComponentStorage C} (h : StorageWF s) :
    ∀ p ∈ s.index, p.2 < s.entities.length ∧ s.entities.getD p.2 0 = p.1 :=
  h.2.2.2.1

theorem StorageWF.surj {C : Type} {s : ComponentStorage C} (h : StorageWF s) :
    ∀ i < s.entities.length, (s.entities.getD i 0, i) ∈ s.index := h.2.2.2.2

/-- Under well-formedness, two present ids have equal sparse indices only if
they are equal. -/
theorem StorageWF.index_inj {C : Type} {s : ComponentStorage C}
    (h : StorageWF s) {a b : EntityId} {i : Nat}
    (ha : (a, i) ∈ s.index) (hb : (b, i) ∈ s.index) : a = b := by
  have h1 := (h.memIdx _ ha).2
  have h2 := (h.memIdx _ hb).2
  simp only at h1 h2
  rw [← h1, ← h2]

/-- `setAt` keeps the entity array, index map, and data length. -/
theorem setAt_entities_index {C : Type} (s : ComponentStorage C)
    (id : EntityId) (c : C) :
    (s.setAt id c).entities = s.entities ∧ (s.setAt id c).index = s.index ∧
      (s.setAt id c).data.length = s.data.length := by
  unfold ComponentStorage.setAt
  cases s.index.lookup id with
  | none => exact ⟨rfl, rfl, rfl⟩
  | some i => exact ⟨rfl, rfl, List.length_set _ _ _⟩

/-- `setAt` preserves well-formedness. -/
theorem StorageWF.setAt {C : Type} {s : ComponentStorage C} (h : StorageWF s)
    (id : EntityId) (c : C) : StorageWF (s.setAt id c) := by
  obtain ⟨he, hi, hl⟩ := setAt_entities_index s id c
  exact ⟨by rw [hl, he]; exact h.len, by rw [he]; exact h.entNodup,
    by rw [hi]; exact h.keysNodup,
    by rw [hi, he]; exact h.memIdx, by rw [hi, he]; exact h.surj⟩

/-- Reading back through `setAt`: the written id sees the new value (when
present), other ids are untouched. -/
theorem Get_setAt {C : Type} {s : ComponentStorage C} (h : StorageWF s)
    (id : EntityId) (c : C) (e : EntityId) :
    (s.setAt id c).Get e =
      if id = e ∧ (s.Get e).isSome then some c else s.Get e := by
  unfold ComponentStorage.setAt ComponentStorage.Get
  cases hid : s.index.lookup id with
  | none =>
      cases he : s.index.lookup e with
      | none => simp
      | some ie =>
          by_cases heq : id = e
          · subst heq
            rw [hid] at he
            exact absurd he (by simp)
          · simp [heq]
  | some i =>
      cases he : s.index.lookup e with
      | none => simp [he]
      | some ie =>
          dsimp only
          by_cases heq : id = e
          · subst heq
            rw [hid] at he
            have : i = ie := by injection he
            subst this
            have hmem := (lookup_eq_some_iff_mem h.keysNodup id i).mp hid
            have hbound : i < s.data.length := by
              rw [h.len]; exact (h.memIdx _ hmem).1
            cases hg : s.data.get? i with
            | none =>
                rw [List.get?_eq_getElem?] at hg
                rw [List.getElem?_eq_getElem hbound] at hg
                exact absurd hg (by simp)
            | some v =>
                simp only [hg, Option.isSome_some, and_true, if_pos trivial,
                  if_true]
                rw [List.get?_eq_getElem?, List.getElem?_set_self hbound]
          · have hne : ¬ i = ie := by
              intro hcon
              subst hcon
              exact heq (h.index_inj
                ((lookup_eq_some_iff_mem h.keysNodup id i).mp hid)
                ((lookup_eq_some_iff_mem h.keysNodup e i).mp he))
            simp only [heq, false_and, if_neg, not_false_iff]
            rw [List.get?_eq_getElem?, List.get?_eq_getElem?,
              List.getElem?_set_ne hne]

/-- `modify` keeps the entity array, index map, and data length. -/
theorem modify_entities_index {C : Type} (s : ComponentStorage C)
    (id : EntityId) (f : C → C) :
    (s.modify id f).entities = s.entities ∧ (s.modify id f).index = s.index ∧
      (s.modify id f).data.length = s.data.length := by
  unfold ComponentStorage.modify
  cases s.Get id with
  | none => exact ⟨rfl, rfl, rfl⟩
  | some c => exact setAt_entities_index s id (f c)

/-- `modify` preserves well-formedness. -/
theorem StorageWF.modify {C : Type} {s : ComponentStorage C} (h : StorageWF s)
    (id : EntityId) (f : C → C) : StorageWF (s.modify id f) := by
  unfold ComponentStorage.modify
  cases s.Get id with
  | none => exact h
  | some c => exact h.setAt id (f c)

/-- Reading back through `modify`: the modified id sees `f` applied, other
ids are untouched. -/
theorem Get_modify {C : Type} {s : ComponentStorage C} (h : StorageWF s)
    (id : EntityId) (f : C → C) (e : EntityId) :
    (s.modify id f).Get e =
      if id = e then (s.Get e).map f else s.Get e := by
  unfold ComponentStorage.modify
  cases hid : s.Get id with
  | none =>
      by_cases heq : id = e
      · subst heq
        simp [hid]
      · simp [heq]
  | some c =>
      rw [Get_setAt h id (f c) e]
      by_cases heq : id = e
      · subst heq
        simp [hid]
      · simp [heq]
/-- C8: for a well-formed component storage, `Add` then `Remove` then `Get`
returns not-found; and when `Remove` deletes a non-last dense slot, the entity
swapped in from the last slot stays consistent: the sparse map sends it to the
freed index, and the dense entity array stores it there. -/
theorem C8_storage_consistency {C : Type} [Inhabited C]
    (s : ComponentStorage C) (hwf : StorageWF s) (id : EntityId) (c : C) :
    (((s.Add id c).Remove id).Get id = none) ∧
    (∀ i, s.index.lookup id = some i → i + 1 < s.data.length →
      ((s.Remove id).index.lookup (s.entities.getD (s.data.length - 1) 0) =
          some i) ∧
      ((s.Remove id).entities.getD i 0 =
          s.entities.getD (s.data.length - 1) 0)) := by
  obtain ⟨hlen, hentnd, hkeynd, hmem, hsurj⟩ := hwf
  constructor
  · -- Add; Remove; Get = none
    obtain ⟨htnd, htmem⟩ := add_keys s id c hkeynd
    have hnone : ((s.Add id c).Remove id).index.lookup id = none := by
      unfold ComponentStorage.Remove
      obtain ⟨i, hti⟩ : ∃ i, (s.Add id c).index.lookup id = some i := by
        cases h : (s.Add id c).index.lookup id with
        | none =>
            exact absurd ((lookup_eq_none_iff_not_mem id).mp h)
              (by simpa using htmem)
        | some i => exact ⟨i, rfl⟩
      rw [hti]
      dsimp only
      by_cases hil : i = (s.Add id c).data.length - 1
      · rw [if_pos hil]
        exact (lookup_eq_none_iff_not_mem id).mpr (not_mem_keys_eraseP htnd id)
      · rw [if_neg hil]
        have hnd2 : ((updateAssoc (s.Add id c).index
            ((s.Add id c).entities.getD ((s.Add id c).data.length - 1) 0)
            i).map Prod.fst).Nodup := by
          rw [keys_updateAssoc]; exact htnd
        exact (lookup_eq_none_iff_not_mem id).mpr (not_mem_keys_eraseP hnd2 id)
    unfold ComponentStorage.Get
    rw [hnone]
  · -- swapped-entity consistency
    intro i hlk hi
    have hil : ¬ i = s.data.length - 1 := by omega
    have hlastlt : s.data.length - 1 < s.entities.length := by omega
    have hilt : i < s.entities.length := by omega
    have hmovedmem : (s.entities.getD (s.data.length - 1) 0,
        s.data.length - 1) ∈ s.index := hsurj _ hlastlt
    have hidmem : (id, i) ∈ s.index :=
      (lookup_eq_some_iff_mem hkeynd id i).mp hlk
    have hident : s.entities.getD i 0 = id := (hmem _ hidmem).2
    have hne : s.entities.getD (s.data.length - 1) 0 ≠ id := by
      intro h
      have heqi : s.data.length - 1 = i :=
        nodup_getD_inj hentnd hlastlt hilt 0 (by rw [h, hident])
      omega
    unfold ComponentStorage.Remove
    rw [hlk]
    dsimp only
    rw [if_neg hil]
    constructor
    · rw [lookup_eraseP_ne hne]
      exact lookup_updateAssoc_self hkeynd
        (List.mem_map_of_mem Prod.fst hmovedmem) i
    · show ((s.entities.set i
          (s.entities.getD (s.data.length - 1) 0)).dropLast).getD i 0 =
          s.entities.getD (s.data.length - 1) 0
      have hsetlen : (s.entities.set i
          (s.entities.getD (s.data.length - 1) 0)).length =
          s.entities.length := List.length_set _ _ _
      have hidl : i < (s.entities.set i
          (s.entities.getD (s.data.length - 1) 0)).length - 1 := by
        rw [hsetlen]; omega
      rw [List.getD_eq_getElem?_getD, List.dropLast_eq_take,
        List.getElem?_take_of_lt hidl]
      rw [List.getElem?_set_self (by rw [hsetlen] at hidl; omega)]
      rfl

/-- C8 witness: the theorem applied to a concrete storage, with every
hypothesis discharged by computation; entity 5 sits at dense index 0, entity 7
at the last index 2, so removing 5 swaps 7 into index 0. -/
theorem C8_storage_consistency_witness :
    StorageWF storageW ∧
    ((storageW.Add 9 90).Remove 9).Get 9 = none ∧
    (storageW.Remove 5).index.lookup
        (storageW.entities.getD (storageW.data.length - 1) 0) = some 0 ∧
    (storageW.Remove 5).entities.getD 0 0 =
      storageW.entities.getD (storageW.data.length - 1) 0 := by
  have h := C8_storage_consistency storageW (by decide) 9 90
  have h5 := C8_storage_consistency storageW (by decide) 5 50
  exact ⟨by decide, h.1, (h5.2 0 (by decide) (by decide)).1,
    (h5.2 0 (by decide) (by decide)).2⟩

/-- C10: `JobSystem::Schedule` called with a null job enqueues no work (the
state, including the id counter, is untouched) and returns a handle with id
0; and `JobSystem::Wait` on any handle whose id is 0 returns immediately
without error and without touching the state. -/
theorem C10_null_schedule_and_zero_wait (s : JobSystemState) (h : JobHandle)
    (hz : h.id = 0) :
    schedule s none = (s, ⟨0⟩) ∧ wait1 s h = (s, none) := by
  refine ⟨rfl, ?_⟩
  unfold wait1
  rw [if_pos hz]

/-- C10 witness: the theorem applied to a concrete state holding a pending
job, and the zero handle. -/
theorem C10_null_schedule_and_zero_wait_witness :
    schedule ⟨3, [(1, some 7), (2, none)]⟩ none = (⟨3, [(1, some 7), (2, none)]⟩, ⟨0⟩) ∧
    wait1 ⟨3, [(1, some 7), (2, none)]⟩ ⟨0⟩ = (⟨3, [(1, some 7), (2, none)]⟩, none) :=
  C10_null_schedule_and_zero_wait ⟨3, [(1, some 7), (2, none)]⟩ ⟨0⟩ rfl

/-- Waiting a concatenation: once the first block finishes without error, the
loop continues into the second block from the resulting state. -/
theorem waitMany_append_of_no_error (s : JobSystemState) (pre rest : List JobHandle)
    (hok : (waitMany s pre).2 = none) :
    waitMany s (pre ++ rest) = waitMany (waitMany s pre).1 rest := by
  induction pre generalizing s with
  | nil => simp [waitMany]
  | cons h t ih =>
      simp only [List.cons_append, waitMany]
      cases hw : wait1 s h with
      | mk s' e =>
          cases e with
          | some e0 =>
              exfalso
              simp only [waitMany, hw] at hok
              exact Option.some_ne_none e0 hok
          | none =>
              simp only [waitMany, hw] at hok ⊢
              exact ih s' hok

/-- C4 counterexample: with one failing job (id 1, error 7) and one pending
successful job (id 2) both scheduled, `Wait([h1, h2])` rethrows job 1's error
and returns without ever waiting handle 2: the call is indistinguishable from
`Wait([h1])`, and job 2's completion record is still unconsumed afterwards —
so not every handle in the vector is waited when an earlier job failed. -/
theorem C4_wait_vector_counterexample :
    waitMany ⟨3, [(1, some 7), (2, none)]⟩ [⟨1⟩, ⟨2⟩] =
      waitMany ⟨3, [(1, some 7), (2, none)]⟩ [⟨1⟩] ∧
    (waitMany ⟨3, [(1, some 7), (2, none)]⟩ [⟨1⟩, ⟨2⟩]).2 = some 7 ∧
    (waitMany ⟨3, [(1, some 7), (2, none)]⟩ [⟨1⟩, ⟨2⟩]).1.states.lookup 2 =
      some none := by
  decide

/-- C4 (amended): `Wait(vector)` waits the handles sequentially, but an error
surfacing at one handle's `Wait` propagates out of the loop at once: the
handles before the first failing one are all waited, and the handles after it
are not waited at all — the whole call behaves exactly like waiting the
prefix up to and including the first failing handle. -/
theorem C4_wait_vector_stops_at_first_failure (s : JobSystemState)
    (pre post : List JobHandle) (hbad : JobHandle) (e : JobError)
    (hok : (waitMany s pre).2 = none)
    (hfail : (wait1 (waitMany s pre).1 hbad).2 = some e) :
    waitMany s (pre ++ hbad :: post) =
      ((wait1 (waitMany s pre).1 hbad).1, some e) ∧
    waitMany s (pre ++ hbad :: post) = waitMany s (pre ++ [hbad]) := by
  have h1 : waitMany s (pre ++ hbad :: post) =
      waitMany (waitMany s pre).1 (hbad :: post) :=
    waitMany_append_of_no_error s pre (hbad :: post) hok
  have h2 : waitMany s (pre ++ [hbad]) =
      waitMany (waitMany s pre).1 [hbad] :=
    waitMany_append_of_no_error s pre [hbad] hok
  have hstep : ∀ rest, waitMany (waitMany s pre).1 (hbad :: rest) =
      ((wait1 (waitMany s pre).1 hbad).1, some e) := by
    intro rest
    simp only [waitMany]
    cases hw : wait1 (waitMany s pre).1 hbad with
    | mk s' e' =>
        cases e' with
        | some e0 =>
            have : e0 = e := by
              rw [hw] at hfail
              exact Option.some.inj hfail
            subst this
            rfl
        | none =>
            rw [hw] at hfail
            exact absurd hfail (by simp)
  rw [h1, h2, hstep post, hstep []]
  exact ⟨rfl, rfl⟩

/-- C4 amended-theorem witness: a successful job (id 1), then a failing job
(id 2, error 9), then another pending job; the theorem applies with
`pre = [h1]`, `hbad = h2`, `post = [h3]`, all hypotheses discharged by
computation. -/
theorem C4_wait_vector_stops_at_first_failure_witness :
    (waitMany ⟨4, [(1, none), (2, some 9), (3, none)]⟩ [⟨1⟩]).2 = none ∧
    waitMany ⟨4, [(1, none), (2, some 9), (3, none)]⟩ [⟨1⟩, ⟨2⟩, ⟨3⟩] =
      waitMany ⟨4, [(1, none), (2, some 9), (3, none)]⟩ [⟨1⟩, ⟨2⟩] :=
  ⟨by decide,
    (C4_wait_vector_stops_at_first_failure ⟨4, [(1, none), (2, some 9), (3, none)]⟩
      [⟨1⟩] [⟨3⟩] ⟨2⟩ 9 (by decide) (by decide)).2⟩

/-- Generic fold preservation. -/
theorem foldl_preserve {α β : Type} (P : β → Prop) (f : β → α → β)
    (hf : ∀ w a, P w → P (f w a)) :
    ∀ (l : List α) (w : β), P w → P (l.foldl f w) := by
  intro l
  induction l with
  | nil => intro w hw; exact hw
  | cons a t ih =>
      intro w hw
      exact ih (f w a) (hf w a hw)

/-- A `modify` whose function fixes the stored value of `e` (when it targets
`e` at all) does not change what `Get e` returns. -/
theorem Get_modify_preserve {C : Type} {s : ComponentStorage C}
    (h : StorageWF s) (id : EntityId) (f : C → C) (e : EntityId)
    (hf : id = e → ∀ x, s.Get e = some x → f x = x) :
    (s.modify id f).Get e = s.Get e := by
  rw [Get_modify h]
  by_cases heq : id = e
  · rw [if_pos heq]
    cases hx : s.Get e with
    | none => simp
    | some x => simp [hx, hf heq x hx]
  · rw [if_neg heq]

/-- Integration skips a body whose `invMass` is 0 and whose `mass` is not
positive, only zeroing its angular velocity and torque. -/
theorem integrateBody_static (env : EnvironmentForces) (dt : ℚ)
    (tf : TransformComponent) {b : RigidBodyComponent}
    (h0 : b.invMass = 0) (hm : b.mass ≤ 0) :
    integrateBody env dt tf b = (tf, { b with angularVelocity := 0, torque := 0 }) := by
  have h1 : ¬(b.invMass = 0 ∧ b.mass > 0) := fun hc =>
    absurd hc.2 (not_lt.mpr hm)
  unfold integrateBody
  rw [if_neg h1, if_pos h0]

/-- A position-solver contact never displaces an `invMass == 0` body. -/
theorem positionPass_static (slop pct maxC : ℚ) (w : World) (c : ContactData)
    (e : EntityId) (b : RigidBodyComponent) (hwfT : StorageWF w.transforms)
    (hb : w.bodies.Get e = some b) (h0 : b.invMass = 0) :
    (positionPassContact slop pct maxC w c).transforms.Get e =
      w.transforms.Get e := by
  unfold positionPassContact
  cases hA : w.bodies.Get c.entityA with
  | none => rfl
  | some bA =>
      cases hB : w.bodies.Get c.entityB with
      | none => rfl
      | some bB =>
          dsimp only
          have hAe : c.entityA = e → bA.invMass = 0 := by
            intro he
            subst he
            rw [hA] at hb
            rw [Option.some.inj hb]
            exact h0
          have hBe : c.entityB = e → bB.invMass = 0 := by
            intro he
            subst he
            rw [hB] at hb
            rw [Option.some.inj hb]
            exact h0
          rw [Get_modify_preserve (hwfT.modify _ _) c.entityB _ e ?_,
            Get_modify_preserve hwfT c.entityA _ e ?_]
          · intro he x _
            cases x
            simp [hAe he]
          · intro he x _
            cases x
            simp [hBe he]

/-- A constraint-solver joint never displaces an `invMass == 0` body. -/
theorem constraintPass_static (dtSafe : ℚ) (w : World) (c : ConstraintInfo)
    (e : EntityId) (b : RigidBodyComponent) (hwfT : StorageWF w.transforms)
    (hb : w.bodies.Get e = some b) (h0 : b.invMass = 0) :
    (constraintPass dtSafe w c).transforms.Get e = w.transforms.Get e := by
  unfold constraintPass
  cases hA : w.transforms.Get c.entityA with
  | none => rfl
  | some tA =>
      cases hB : w.transforms.Get c.entityB with
      | none => rfl
      | some tB =>
          dsimp only
          by_cases hdist : Rat.sqrt ((tB.x - tA.x) * (tB.x - tA.x) +
              (tB.y - tA.y) * (tB.y - tA.y)) < 1/10000
          · rw [if_pos hdist]
          · rw [if_neg hdist]
            by_cases hden : c.invMassSum +
                (if c.compliance > 0 then
                  c.compliance / (dtSafe * dtSafe) else 0) ≤ 0
            · rw [if_pos hden]
            · rw [if_neg hden]
              cases hbA : w.bodies.Get c.entityA with
              | none => rfl
              | some bA =>
                  cases hbB : w.bodies.Get c.entityB with
                  | none => rfl
                  | some bB =>
                      dsimp only
                      have hAe : c.entityA = e → bA.invMass = 0 := by
                        intro he
                        subst he
                        rw [hbA] at hb
                        rw [Option.some.inj hb]
                        exact h0
                      have hBe : c.entityB = e → bB.invMass = 0 := by
                        intro he
                        subst he
                        rw [hbB] at hb
                        rw [Option.some.inj hb]
                        exact h0
                      rw [Get_modify_preserve (hwfT.modify _ _) c.entityB _ e ?_,
                        Get_modify_preserve hwfT c.entityA _ e ?_]
                      · intro he x _
                        cases x
                        simp [hAe he]
                      · intro he x _
                        cases x
                        simp [hBe he]

/-- A velocity-solver contact applies no impulse (linear or angular) to a
body with `invMass == 0` and non-positive `invInertia`. -/
theorem velocityPass_static (w : World) (c : ContactData) (e : EntityId)
    (b : RigidBodyComponent) (hwfB : StorageWF w.bodies)
    (hb : w.bodies.Get e = some b) (h0 : b.invMass = 0)
    (hi : b.invInertia ≤ 0) :
    (velocityPassContact w c).bodies.Get e = some b := by
  have hsub : ∀ (s : ComponentStorage RigidBodyComponent) (id : EntityId)
      (px py : ℚ), StorageWF s → s.Get e = some b →
      ((s.modify id (fun bb => { bb with
          vx := bb.vx - px * bb.invMass
          vy := bb.vy - py * bb.invMass })).Get e = some b) := by
    intro s id px py hwf hget
    rw [Get_modify_preserve hwf id _ e ?_]
    · exact hget
    · intro _ x hx
      rw [hget] at hx
      rw [← Option.some.inj hx]
      simp only [h0, mul_zero, sub_zero]
      rw [← h0]
  have hadd : ∀ (s : ComponentStorage RigidBodyComponent) (id : EntityId)
      (px py : ℚ), StorageWF s → s.Get e = some b →
      ((s.modify id (fun bb => { bb with
          vx := bb.vx + px * bb.invMass
          vy := bb.vy + py * bb.invMass })).Get e = some b) := by
    intro s id px py hwf hget
    rw [Get_modify_preserve hwf id _ e ?_]
    · exact hget
    · intro _ x hx
      rw [hget] at hx
      rw [← Option.some.inj hx]
      simp only [h0, mul_zero, add_zero]
      rw [← h0]
  have hangA : ∀ (s : ComponentStorage RigidBodyComponent) (id : EntityId)
      (lever jt : ℚ), StorageWF s → s.Get e = some b →
      ((s.modify id (fun bb =>
        if lever > 0 ∧ bb.invInertia > 0 then
          { bb with angularVelocity := bb.angularVelocity - jt * lever * bb.invInertia }
        else bb)).Get e = some b) := by
    intro s id lever jt hwf hget
    rw [Get_modify_preserve hwf id _ e ?_]
    · exact hget
    · intro _ x hx
      rw [hget] at hx
      rw [← Option.some.inj hx]
      rw [if_neg (by intro hcon; exact absurd hcon.2 (not_lt.mpr hi))]
  have hangB : ∀ (s : ComponentStorage RigidBodyComponent) (id : EntityId)
      (lever jt : ℚ), StorageWF s → s.Get e = some b →
      ((s.modify id (fun bb =>
        if lever > 0 ∧ bb.invInertia > 0 then
          { bb with angularVelocity := bb.angularVelocity + jt * lever * bb.invInertia }
        else bb)).Get e = some b) := by
    intro s id lever jt hwf hget
    rw [Get_modify_preserve hwf id _ e ?_]
    · exact hget
    · intro _ x hx
      rw [hget] at hx
      rw [← Option.some.inj hx]
      rw [if_neg (by intro hcon; exact absurd hcon.2 (not_lt.mpr hi))]
  unfold velocityPassContact
  cases hA : w.bodies.Get c.entityA with
  | none => exact hb
  | some bA =>
      cases hB : w.bodies.Get c.entityB with
      | none => exact hb
      | some bB =>
          dsimp only
          by_cases hv : (bB.vx - bA.vx) * c.nx + (bB.vy - bA.vy) * c.ny < 0
          · simp only [if_pos hv]
            by_cases hpen : c.pen > -(1/20)
            · simp only [if_pos hpen]
              split
              · exact hangB _ _ _ _
                  (((((hwfB.modify _ _).modify _ _).modify _ _).modify
                    _ _).modify _ _)
                  (hangA _ _ _ _
                    ((((hwfB.modify _ _).modify _ _).modify _ _).modify _ _)
                    (hadd _ _ _ _ (((hwfB.modify _ _).modify _ _).modify _ _)
                      (hsub _ _ _ _ ((hwfB.modify _ _).modify _ _)
                        (hadd _ _ _ _ (hwfB.modify _ _)
                          (hsub _ _ _ _ hwfB hb)))))
              · exact hadd _ _ _ _ (hwfB.modify _ _) (hsub _ _ _ _ hwfB hb)
            · simp only [if_neg hpen]
              exact hadd _ _ _ _ (hwfB.modify _ _) (hsub _ _ _ _ hwfB hb)
          · simp only [if_neg hv]
            by_cases hpen : c.pen > -(1/20)
            · simp only [if_pos hpen]
              split
              · exact hangB _ _ _ _
                  (((hwfB.modify _ _).modify _ _).modify _ _)
                  (hangA _ _ _ _ ((hwfB.modify _ _).modify _ _)
                    (hadd _ _ _ _ (hwfB.modify _ _)
                      (hsub _ _ _ _ hwfB hb)))
              · exact hb
            · simp only [if_neg hpen]
              exact hb

/-- `Get` through a known sparse-map entry. -/
theorem Get_eq_of_lookup {C : Type} {s : ComponentStorage C} {e : EntityId}
    {i : Nat} (hlk : s.index.lookup e = some i) : s.Get e = s.data.get? i := by
  unfold ComponentStorage.Get
  rw [hlk]

/-- Generic fold preservation, with membership available at each step. -/
theorem foldl_preserve_mem {α β : Type} (P : β → Prop) (f : β → α → β)
    (l : List α) (hf : ∀ w a, a ∈ l → P w → P (f w a)) :
    ∀ w, P w → P (l.foldl f w) := by
  induction l with
  | nil => exact fun w hw => hw
  | cons a t ih =>
      intro w hw
      exact ih (fun w' a' ha' hw' => hf w' a' (List.mem_cons_of_mem _ ha') hw')
        _ (hf w a (List.mem_cons_self _ _) hw)

/-- `integrationUpdate` acts pointwise: an entity with a body and a transform
ends up with exactly `integrateBody` applied to its pair. -/
theorem integrationUpdate_spec (env : EnvironmentForces) (dt : ℚ) (w : World)
    (hwfB : StorageWF w.bodies) (hwfT : StorageWF w.transforms)
    (e : EntityId) (tfe : TransformComponent) (b : RigidBodyComponent)
    (hb : w.bodies.Get e = some b) (ht : w.transforms.Get e = some tfe) :
    (integrationUpdate env w dt).bodies.Get e =
      some (integrateBody env dt tfe b).2 ∧
    (integrationUpdate env w dt).transforms.Get e =
      some (integrateBody env dt tfe b).1 := by
  obtain ⟨ie, hlk⟩ : ∃ ie, w.bodies.index.lookup e = some ie := by
    unfold ComponentStorage.Get at hb
    cases h : w.bodies.index.lookup e with
    | none => rw [h] at hb; exact absurd hb (by simp)
    | some i => exact ⟨i, rfl⟩
  have hslot : w.bodies.data.get? ie = some b := by
    rw [← Get_eq_of_lookup hlk]; exact hb
  have hmemie : (e, ie) ∈ w.bodies.index :=
    (lookup_eq_some_iff_mem hwfB.keysNodup e ie).mp hlk
  have hieent : ie < w.bodies.entities.length := (hwfB.memIdx _ hmemie).1
  have hee : w.bodies.entities.getD ie 0 = e := (hwfB.memIdx _ hmemie).2
  have hien : ie < w.bodies.data.length := by rw [hwfB.len]; exact hieent
  set r := integrateBody env dt tfe b with hr
  set F : World → Nat → World := fun w' i =>
    let id := w'.bodies.entities.getD i 0
    match w'.transforms.Get id with
    | none => w'
    | some tf =>
        let bcur := w'.bodies.data.getD i default
        let rr := integrateBody env dt tf bcur
        { w' with
          bodies := { w'.bodies with data := w'.bodies.data.set i rr.2 }
          transforms := w'.transforms.setAt id rr.1 } with hF
  let P : RigidBodyComponent → TransformComponent → World → Prop :=
    fun vb vt w' =>
      w'.bodies.index = w.bodies.index ∧
      w'.bodies.entities = w.bodies.entities ∧
      w'.bodies.data.length = w.bodies.data.length ∧
      StorageWF w'.transforms ∧
      w'.bodies.data.get? ie = some vb ∧ w'.transforms.Get e = some vt
  have hstep_ne : ∀ (vb : RigidBodyComponent) (vt : TransformComponent)
      (i : Nat), i < w.bodies.data.length → i ≠ ie →
      ∀ w', P vb vt w' → P vb vt (F w' i) := by
    intro vb vt i hin hine w' hw'
    obtain ⟨hidx, hent, hlen, hwfT', hslot', ht'⟩ := hw'
    have hidne : w.bodies.entities.getD i 0 ≠ e := by
      intro hcon
      have hilt : i < w.bodies.entities.length := by
        rw [← hwfB.len]; exact hin
      have heqi : i = ie :=
        nodup_getD_inj hwfB.entNodup hilt hieent 0 (by rw [hcon, hee])
      exact hine heqi
    show P vb vt (F w' i)
    rw [hF]
    dsimp only
    rw [hent]
    cases htf : w'.transforms.Get (w.bodies.entities.getD i 0) with
    | none => exact ⟨hidx, hent, hlen, hwfT', hslot', ht'⟩
    | some tf =>
        dsimp only
        refine ⟨hidx, rfl, ?_, hwfT'.setAt _ _, ?_, ?_⟩
        · show (w'.bodies.data.set i _).length = _
          rw [List.length_set]; exact hlen
        · show (w'.bodies.data.set i _).get? ie = some vb
          rw [List.get?_eq_getElem?, List.getElem?_set_ne hine,
            ← List.get?_eq_getElem?]
          exact hslot'
        · show (w'.transforms.setAt (w.bodies.entities.getD i 0) _).Get e =
            some vt
          rw [Get_setAt hwfT']
          rw [if_neg (by intro hc; exact hidne hc.1)]
          exact ht'
  have hstep_ie : ∀ w', P b tfe w' → P r.2 r.1 (F w' ie) := by
    intro w' hw'
    obtain ⟨hidx, hent, hlen, hwfT', hslot', ht'⟩ := hw'
    rw [hF]
    dsimp only
    rw [hent, hee, ht']
    dsimp only
    have hbcur : w'.bodies.data.getD ie default = b := by
      rw [List.getD_eq_getElem?_getD, ← List.get?_eq_getElem?, hslot']
      rfl
    rw [hbcur]
    have hielen' : ie < w'.bodies.data.length := by rw [hlen]; exact hien
    refine ⟨hidx, rfl, ?_, hwfT'.setAt _ _, ?_, ?_⟩
    · show (w'.bodies.data.set ie _).length = _
      rw [List.length_set]; exact hlen
    · show (w'.bodies.data.set ie _).get? ie = some r.2
      rw [List.get?_eq_getElem?, List.getElem?_set_self hielen']
    · show (w'.transforms.setAt e _).Get e = some r.1
      rw [Get_setAt hwfT']
      rw [if_pos ⟨rfl, by rw [ht']; rfl⟩]
  have hsplit : List.range w.bodies.data.length =
      List.range' 0 ie ++ [ie] ++ List.range' (ie + 1)
        (w.bodies.data.length - ie - 1) := by
    rw [List.range_eq_range']
    have h1 : List.range' 0 ie ++ [ie] = List.range' 0 (ie + 1) := by
      have := List.range'_append 0 ie 1 1
      simpa [Nat.add_comm] using this
    rw [h1]
    have h2 := List.range'_append 0 (ie + 1)
      (w.bodies.data.length - ie - 1) 1
    simp only [one_mul, zero_add] at h2
    rw [h2]
    congr 1
    omega
  have hP0 : P b tfe w := ⟨rfl, rfl, rfl, hwfT, hslot, ht⟩
  have hfold : P r.2 r.1 ((List.range w.bodies.data.length).foldl F w) := by
    rw [hsplit, List.foldl_append, List.foldl_append]
    have hpre1 : P b tfe ((List.range' 0 ie).foldl F w) := by
      refine foldl_preserve_mem (P b tfe) F _ ?_ w hP0
      intro w' i hi hw'
      have hibound := List.mem_range'_1.mp hi
      exact hstep_ne b tfe i (by omega) (by omega) w' hw'
    have hmid : P r.2 r.1 (List.foldl F ((List.range' 0 ie).foldl F w) [ie]) := by
      simp only [List.foldl_cons, List.foldl_nil]
      exact hstep_ie _ hpre1
    refine foldl_preserve_mem (P r.2 r.1) F _ ?_ _ hmid
    intro w' i hi hw'
    have hibound := List.mem_range'_1.mp hi
    exact hstep_ne r.2 r.1 i (by omega) (by omega) w' hw'
  have hiu : integrationUpdate env w dt =
      (List.range w.bodies.data.length).foldl F w := by
    rw [hF]
    rfl
  rw [hiu]
  obtain ⟨hidx, hent, hlen, hwfT', hslot', ht'⟩ := hfold
  constructor
  · rw [Get_eq_of_lookup (show _ = some ie by rw [hidx]; exact hlk)]
    exact hslot'
  · exact ht'

/-- The position solver touches only the transform storage. -/
theorem positionPass_bodies (slop pct maxC : ℚ) (w : World) (c : ContactData) :
    (positionPassContact slop pct maxC w c).bodies = w.bodies ∧
    (positionPassContact slop pct maxC w c).joints = w.joints := by
  unfold positionPassContact
  cases w.bodies.Get c.entityA with
  | none => exact ⟨rfl, rfl⟩
  | some bA =>
      cases w.bodies.Get c.entityB with
      | none => exact ⟨rfl, rfl⟩
      | some bB => exact ⟨rfl, rfl⟩

/-- The position solver preserves transform-storage well-formedness. -/
theorem positionPass_wf (slop pct maxC : ℚ) (w : World) (c : ContactData)
    (h : StorageWF w.transforms) :
    StorageWF (positionPassContact slop pct maxC w c).transforms := by
  unfold positionPassContact
  cases w.bodies.Get c.entityA with
  | none => exact h
  | some bA =>
      cases w.bodies.Get c.entityB with
      | none => exact h
      | some bB => exact (h.modify _ _).modify _ _

/-- The constraint solver touches only the transform storage. -/
theorem constraintPass_bodies (dtSafe : ℚ) (w : World) (c : ConstraintInfo) :
    (constraintPass dtSafe w c).bodies = w.bodies := by
  unfold constraintPass
  cases w.transforms.Get c.entityA with
  | none => rfl
  | some tA =>
      cases w.transforms.Get c.entityB with
      | none => rfl
      | some tB =>
          dsimp only
          repeat' (first | rfl | split)

/-- The constraint solver preserves transform-storage well-formedness. -/
theorem constraintPass_wf (dtSafe : ℚ) (w : World) (c : ConstraintInfo)
    (h : StorageWF w.transforms) :
    StorageWF (constraintPass dtSafe w c).transforms := by
  unfold constraintPass
  cases w.transforms.Get c.entityA with
  | none => exact h
  | some tA =>
      cases w.transforms.Get c.entityB with
      | none => exact h
      | some tB =>
          dsimp only
          repeat' (first
            | exact h
            | exact (h.modify _ _).modify _ _
            | split)

/-- The velocity solver touches only the body storage. -/
theorem velocityPass_transforms (w : World) (c : ContactData) :
    (velocityPassContact w c).transforms = w.transforms := by
  unfold velocityPassContact
  cases w.bodies.Get c.entityA with
  | none => rfl
  | some bA =>
      cases w.bodies.Get c.entityB with
      | none => rfl
      | some bB =>
          dsimp only
          by_cases hv : (bB.vx - bA.vx) * c.nx + (bB.vy - bA.vy) * c.ny < 0
          · simp only [if_pos hv]
            by_cases hpen : c.pen > -(1/20)
            · simp only [if_pos hpen]
              split
              · rfl
              · rfl
            · simp only [if_neg hpen]
          · simp only [if_neg hv]
            by_cases hpen : c.pen > -(1/20)
            · simp only [if_pos hpen]
              split
              · rfl
              · rfl
            · simp only [if_neg hpen]

/-- The velocity solver preserves body-storage well-formedness. -/
theorem velocityPass_wf (w : World) (c : ContactData)
    (h : StorageWF w.bodies) :
    StorageWF (velocityPassContact w c).bodies := by
  unfold velocityPassContact
  cases w.bodies.Get c.entityA with
  | none => exact h
  | some bA =>
      cases w.bodies.Get c.entityB with
      | none => exact h
      | some bB =>
          dsimp only
          by_cases hv : (bB.vx - bA.vx) * c.nx + (bB.vy - bA.vy) * c.ny < 0
          · simp only [if_pos hv]
            by_cases hpen : c.pen > -(1/20)
            · simp only [if_pos hpen]
              split
              · exact ((((((h.modify _ _).modify _ _).modify _ _).modify
                  _ _).modify _ _).modify _ _)
              · exact (h.modify _ _).modify _ _
            · simp only [if_neg hpen]
              exact (h.modify _ _).modify _ _
          · simp only [if_neg hv]
            by_cases hpen : c.pen > -(1/20)
            · simp only [if_pos hpen]
              split
              · exact (((h.modify _ _).modify _ _).modify _ _).modify _ _
              · exact h
            · simp only [if_neg hpen]
              exact h

/-- `ResolvePosition` never displaces an `invMass == 0` body and never
touches the body storage. -/
theorem resolvePosition_static (st : SolverSettings)
    (events : List CollisionEvent) (w : World) (e : EntityId)
    (b : RigidBodyComponent) (hwfT : StorageWF w.transforms)
    (hb : w.bodies.Get e = some b) (h0 : b.invMass = 0) :
    (resolvePosition st events w).bodies = w.bodies ∧
    StorageWF (resolvePosition st events w).transforms ∧
    (resolvePosition st events w).transforms.Get e = w.transforms.Get e := by
  have hP : ∀ (l : List (List ContactData)) (w' : World),
      (w'.bodies = w.bodies ∧ StorageWF w'.transforms ∧
        w'.transforms.Get e = w.transforms.Get e) →
      (w'.bodies = w.bodies ∧ StorageWF w'.transforms ∧
        w'.transforms.Get e = w.transforms.Get e) → True := fun _ _ _ _ => trivial
  clear hP
  unfold resolvePosition
  by_cases hemp : (gatherContacts events w).isEmpty
  · rw [if_pos hemp]
    exact ⟨rfl, hwfT, rfl⟩
  · rw [if_neg hemp]
    refine foldl_preserve
      (fun w' => w'.bodies = w.bodies ∧ StorageWF w'.transforms ∧
        w'.transforms.Get e = w.transforms.Get e) _ ?_ _ w ⟨rfl, hwfT, rfl⟩
    intro w' island hw'
    unfold solveIslandPosition
    refine foldl_preserve
      (fun w' => w'.bodies = w.bodies ∧ StorageWF w'.transforms ∧
        w'.transforms.Get e = w.transforms.Get e) _ ?_ _ w' hw'
    intro w'' _ hw''
    refine foldl_preserve
      (fun w' => w'.bodies = w.bodies ∧ StorageWF w'.transforms ∧
        w'.transforms.Get e = w.transforms.Get e) _ ?_ _ w'' hw''
    intro w3 c hw3
    obtain ⟨hbod, hwf3, hget3⟩ := hw3
    have hb3 : w3.bodies.Get e = some b := by rw [hbod]; exact hb
    refine ⟨?_, positionPass_wf _ _ _ _ _ hwf3, ?_⟩
    · rw [(positionPass_bodies _ _ _ _ _).1, hbod]
    · rw [positionPass_static _ _ _ _ _ _ _ hwf3 hb3 h0, hget3]

/-- `ResolveVelocity` applies no linear or angular impulse to a body with
`invMass == 0` and non-positive `invInertia`, and never touches the
transform storage. -/
theorem resolveVelocity_static (st : SolverSettings)
    (events : List CollisionEvent) (w : World) (e : EntityId)
    (b : RigidBodyComponent) (hwfB : StorageWF w.bodies)
    (hb : w.bodies.Get e = some b) (h0 : b.invMass = 0)
    (hi : b.invInertia ≤ 0) :
    (resolveVelocity st events w).transforms = w.transforms ∧
    StorageWF (resolveVelocity st events w).bodies ∧
    (resolveVelocity st events w).bodies.Get e = some b := by
  unfold resolveVelocity
  by_cases hemp : (gatherContacts events w).isEmpty
  · rw [if_pos hemp]
    exact ⟨rfl, hwfB, hb⟩
  · rw [if_neg hemp]
    refine foldl_preserve
      (fun w' => w'.transforms = w.transforms ∧ StorageWF w'.bodies ∧
        w'.bodies.Get e = some b) _ ?_ _ w ⟨rfl, hwfB, hb⟩
    intro w' island hw'
    unfold solveIslandVelocity
    refine foldl_preserve
      (fun w' => w'.transforms = w.transforms ∧ StorageWF w'.bodies ∧
        w'.bodies.Get e = some b) _ ?_ _ w' hw'
    intro w'' _ hw''
    refine foldl_preserve
      (fun w' => w'.transforms = w.transforms ∧ StorageWF w'.bodies ∧
        w'.bodies.Get e = some b) _ ?_ _ w'' hw''
    intro w3 c hw3
    obtain ⟨htr, hwf3, hget3⟩ := hw3
    refine ⟨?_, velocityPass_wf _ _ hwf3, ?_⟩
    · rw [velocityPass_transforms, htr]
    · exact velocityPass_static _ _ _ _ hwf3 hget3 h0 hi

/-- `ConstraintResolutionSystem::Resolve` never displaces an `invMass == 0`
body and never touches the body storage. -/
theorem constraintResolve_static (iterations : Int) (w : World) (dt : ℚ)
    (e : EntityId) (b : RigidBodyComponent) (hwfT : StorageWF w.transforms)
    (hb : w.bodies.Get e = some b) (h0 : b.invMass = 0) :
    (constraintResolve iterations w dt).bodies = w.bodies ∧
    StorageWF (constraintResolve iterations w dt).transforms ∧
    (constraintResolve iterations w dt).transforms.Get e =
      w.transforms.Get e := by
  unfold constraintResolve
  refine foldl_preserve
    (fun w' => w'.bodies = w.bodies ∧ StorageWF w'.transforms ∧
      w'.transforms.Get e = w.transforms.Get e) _ ?_ _ w ⟨rfl, hwfT, rfl⟩
  intro w' _ hw'
  refine foldl_preserve
    (fun w' => w'.bodies = w.bodies ∧ StorageWF w'.transforms ∧
      w'.transforms.Get e = w.transforms.Get e) _ ?_ _ w' hw'
  intro w'' c hw''
  obtain ⟨hbod, hwf2, hget2⟩ := hw''
  have hb2 : w''.bodies.Get e = some b := by rw [hbod]; exact hb
  refine ⟨?_, constraintPass_wf _ _ _ hwf2, ?_⟩
  · rw [constraintPass_bodies, hbod]
  · rw [constraintPass_static _ _ _ _ _ hwf2 hb2 h0, hget2]

/-- C1 (amended): a rigid body that is genuinely static — `invMass == 0`
with non-positive `mass` and non-positive `invInertia` — is never displaced
and receives no linear or angular impulse from any pipeline operation:
integration leaves its transform and linear velocity unchanged (resetting
its angular velocity and torque to zero), and the position, velocity and
constraint solvers leave its transform, velocity and angular velocity
unchanged. -/
theorem C1_static_body_untouched (w : World) (e : EntityId)
    (b : RigidBodyComponent) (tfe : TransformComponent)
    (hwfB : StorageWF w.bodies) (hwfT : StorageWF w.transforms)
    (hb : w.bodies.Get e = some b) (ht : w.transforms.Get e = some tfe)
    (h0 : b.invMass = 0) (hm : b.mass ≤ 0) (hi : b.invInertia ≤ 0)
    (env : EnvironmentForces) (dt : ℚ) (st : SolverSettings)
    (events : List CollisionEvent) (iterations : Int) :
    ((integrationUpdate env w dt).transforms.Get e = some tfe ∧
      (integrationUpdate env w dt).bodies.Get e =
        some { b with angularVelocity := 0, torque := 0 }) ∧
    ((resolvePosition st events w).transforms.Get e = some tfe ∧
      (resolvePosition st events w).bodies.Get e = some b) ∧
    ((resolveVelocity st events w).bodies.Get e = some b ∧
      (resolveVelocity st events w).transforms.Get e = some tfe) ∧
    ((constraintResolve iterations w dt).transforms.Get e = some tfe ∧
      (constraintResolve iterations w dt).bodies.Get e = some b) := by
  have hint := integrationUpdate_spec env dt w hwfB hwfT e tfe b hb ht
  have hib := integrateBody_static env dt tfe h0 hm
  have hpos := resolvePosition_static st events w e b hwfT hb h0
  have hvel := resolveVelocity_static st events w e b hwfB hb h0 hi
  have hcon := constraintResolve_static iterations w dt e b hwfT hb h0
  refine ⟨⟨?_, ?_⟩, ⟨?_, ?_⟩, ⟨?_, ?_⟩, ⟨?_, ?_⟩⟩
  · rw [hint.2, hib]
  · rw [hint.1, hib]
  · rw [hpos.2.2, ht]
  · rw [hpos.1, hb]
  · exact hvel.2.2
  · rw [hvel.1, ht]
  · rw [hcon.2.2, ht]
  · rw [hcon.1, hb]

/-- C1 counterexample: a body with `invMass == 0` but `mass == 1` (the
default) IS displaced by integration — `PhysicsIntegrationSystem::Update`
restores `invMass = 1/mass` via `EnsureDerivedMass` and integrates the body,
so the claim's "regardless of the body's mass field" fails. -/
theorem C1_counterexample :
    bodyC1.invMass = 0 ∧
    (integrateBody { gravityY := 0 } 1 ⟨0, 0, 0⟩ bodyC1).1.x ≠
      (⟨0, 0, 0⟩ : TransformComponent).x := by
  constructor
  · rfl
  · have : (integrateBody { gravityY := 0 } 1 ⟨0, 0, 0⟩ bodyC1).1.x = 1 := by
      norm_num [integrateBody, ensureDerivedMass, clampSpeed, bodyC1]
    rw [this]
    norm_num

/-- C1 witness: the amended theorem applied to a concrete one-body world,
every hypothesis discharged by computation. -/
theorem C1_static_body_untouched_witness :
    StorageWF worldC1.bodies ∧ StorageWF worldC1.transforms ∧
    (resolvePosition {} [] worldC1).transforms.Get 3 = some ⟨5, 6, 0⟩ ∧
    (integrationUpdate {} worldC1 1).bodies.Get 3 =
      some ({ invMass := 0, mass := 0, inertia := 0, invInertia := 0,
              angularVelocity := 0, torque := 0 } : RigidBodyComponent) := by
  have h := C1_static_body_untouched worldC1 3
    { invMass := 0, mass := 0, inertia := 0, invInertia := 0,
      angularVelocity := 1, torque := 2 } ⟨5, 6, 0⟩
    (by decide) (by decide) rfl rfl rfl (by norm_num) (by norm_num)
    {} 1 {} [] 8
  exact ⟨by decide, by decide, h.2.1.1, h.1.2⟩

/-- C5: in every position-solver iteration, each contact's applied correction
equals `min(max(penetration − slop, 0) / invMassSum · correctionPercent,
maxCorrection)`, body A is displaced by `−correction·normal·invMassA` and
body B by `+correction·normal·invMassB`. -/
theorem C5_position_correction (slop percent maxC : ℚ) (w : World)
    (c : ContactData) (bA bB : RigidBodyComponent)
    (tA tB : TransformComponent) (hwfT : StorageWF w.transforms)
    (hbA : w.bodies.Get c.entityA = some bA)
    (hbB : w.bodies.Get c.entityB = some bB)
    (htA : w.transforms.Get c.entityA = some tA)
    (htB : w.transforms.Get c.entityB = some tB)
    (hne : c.entityA ≠ c.entityB) :
    (positionPassContact slop percent maxC w c).transforms.Get c.entityA =
      some { tA with
        x := tA.x - min (max (c.pen - slop) 0 / c.invMassSum * percent) maxC *
          c.nx * bA.invMass
        y := tA.y - min (max (c.pen - slop) 0 / c.invMassSum * percent) maxC *
          c.ny * bA.invMass } ∧
    (positionPassContact slop percent maxC w c).transforms.Get c.entityB =
      some { tB with
        x := tB.x + min (max (c.pen - slop) 0 / c.invMassSum * percent) maxC *
          c.nx * bB.invMass
        y := tB.y + min (max (c.pen - slop) 0 / c.invMassSum * percent) maxC *
          c.ny * bB.invMass } := by
  have hmin : (if max (c.pen - slop) 0 / c.invMassSum * percent > maxC then
      maxC else max (c.pen - slop) 0 / c.invMassSum * percent) =
      min (max (c.pen - slop) 0 / c.invMassSum * percent) maxC := by
    rcases le_or_lt (max (c.pen - slop) 0 / c.invMassSum * percent) maxC with
      h | h
    · rw [if_neg (not_lt.mpr h), min_eq_left h]
    · rw [if_pos h, min_eq_right (le_of_lt h)]
  unfold positionPassContact
  rw [hbA, hbB]
  dsimp only
  rw [hmin]
  constructor
  · rw [Get_modify (hwfT.modify _ _)]
    rw [if_neg (Ne.symm hne)]
    rw [Get_modify hwfT, if_pos rfl, htA]
    rfl
  · rw [Get_modify (hwfT.modify _ _), if_pos rfl]
    rw [Get_modify hwfT, if_neg hne, htB]
    rfl

/-- C5 witness: a concrete contact between two present bodies. -/
theorem C5_position_correction_witness :
    StorageWF worldC5.transforms ∧
    (positionPassContact (1/100) (1/5) (1/5) worldC5 contactC5).transforms.Get
      1 = some ⟨-1/100, 0, 0⟩ := by
  have h := C5_position_correction (1/100) (1/5) (1/5) worldC5 contactC5
    { invMass := 1 } { invMass := 1 } ⟨0, 0, 0⟩ ⟨1, 0, 0⟩
    (by decide) rfl rfl rfl rfl (by decide)
  refine ⟨by decide, ?_⟩
  have h1 := h.1
  rw [show contactC5.entityA = 1 from rfl] at h1
  rw [h1]
  norm_num [contactC5]

/-- C9: `Detect` ignores (clears) the previous contents of `outEvents`, and
returns an empty event list when fewer than two AABBs are supplied or the
`aabbs` and `entityIds` vectors differ in length. -/
theorem C9_detect_clears_and_guards (prev prev' : List CollisionEvent)
    (aabbs : List AABBComponent) (ids : List EntityId) (js : Bool) :
    detect prev aabbs ids js = detect prev' aabbs ids js ∧
    (aabbs.length < 2 ∨ aabbs.length ≠ ids.length →
      detect prev aabbs ids js = []) := by
  refine ⟨rfl, fun h => ?_⟩
  unfold detect
  rw [if_pos h]

/-- C9 witness: stale events plus a size-mismatched input give the empty
list. -/
theorem C9_detect_clears_and_guards_witness :
    detect [⟨9, 9, 1, 0, 5⟩] [{ minX := 0, maxX := 1, maxY := 1 }] [] true =
      [] :=
  (C9_detect_clears_and_guards [⟨9, 9, 1, 0, 5⟩] [] [{ minX := 0, maxX := 1, maxY := 1 }]
    [] true).2 (Or.inl (by norm_num))

/-- C3 (amended): the orchestrator `PhysicsSystem::Update` no-ops only for
non-finite or strictly negative `dt` (its guard is `dt < 0.0f`), while the
velocity-reconstruction step `UpdateVelocities` no-ops for all non-positive
`dt` including zero. -/
theorem C3_dt_guards (settings : PhysicsSettings) (env : EnvironmentForces)
    (hasJS : Bool) (w : World) (dt : ℚ) :
    (dt < 0 → physicsUpdate settings env hasJS w dt = w) ∧
    (dt ≤ 0 → updateVelocities w dt = w) := by
  constructor
  · intro h
    unfold physicsUpdate
    rw [if_pos h]
  · intro h
    unfold updateVelocities
    rw [if_pos h]

/-- C3 witness: a concrete world, `dt = -1` for the orchestrator guard and
`dt = 0` for the velocity-reconstruction guard. -/
theorem C3_dt_guards_witness :
    ((-1 : ℚ) < 0 ∧ physicsUpdate {} {} false worldC1 (-1) = worldC1) ∧
    ((0 : ℚ) ≤ 0 ∧ updateVelocities worldC1 0 = worldC1) :=
  ⟨⟨by norm_num, (C3_dt_guards {} {} false worldC1 (-1)).1 (by norm_num)⟩,
    ⟨by norm_num, (C3_dt_guards {} {} false worldC1 0).2 (by norm_num)⟩⟩

/-- C3 counterexample: `PhysicsSystem::Update` with `dt == 0` is NOT a no-op
— the guard only rejects `dt < 0`, so the substeps still run and (for
example) reset a static body's torque. -/
theorem C3_counterexample :
    worldC3.bodies.Get 1 = some { invMass := 0, mass := 0, torque := 1 } ∧
    (physicsUpdate settingsC3 {} false worldC3 0).bodies.Get 1 =
      some ({ invMass := 0, mass := 0, torque := 0 } : RigidBodyComponent) ∧
    physicsUpdate settingsC3 {} false worldC3 0 ≠ worldC3 := by
  have ha : integrationUpdate {} worldC3 0 = worldC3close := by
    unfold integrationUpdate
    rw [show worldC3.bodies.data.length = 1 from rfl,
      show List.range 1 = [0] from rfl, List.foldl_cons, List.foldl_nil]
    rw [show worldC3.bodies.entities.getD 0 0 = 1 from rfl]
    dsimp only
    rw [show worldC3.transforms.Get 1 = some ⟨0, 0, 0⟩ from rfl]
    dsimp only
    rw [show worldC3.bodies.data.getD 0 default =
        { invMass := 0, mass := 0, torque := 1 } from rfl]
    rw [integrateBody_static {} 0 ⟨0, 0, 0⟩ rfl (le_refl 0)]
    rfl
  have hsync : syncDynamicAabbs worldC3close = worldC3close := by
    unfold syncDynamicAabbs
    rw [show worldC3close.aabbs.data.length = 0 from rfl, List.range_zero,
      List.foldl_nil]
  have hbp : broadphaseInput worldC3close = ([], []) := by
    unfold broadphaseInput
    rw [show worldC3close.circles.data.length = 0 from rfl, List.range_zero,
      List.foldl_nil]
    rfl
  have hcr : constraintResolve settingsC3.constraintIterations worldC3close 0 =
      worldC3close := by
    unfold constraintResolve
    rw [show gatherConstraints worldC3close = [] from rfl]
    rfl
  have huv : updateVelocities worldC3close 0 = worldC3close := by
    unfold updateVelocities
    rw [if_pos (le_refl (0 : ℚ))]
  have hss : substep settingsC3 {} false worldC3 0 = worldC3close := by
    unfold substep
    rw [ha]
    dsimp only
    rw [hsync, hbp]
    dsimp only
    simp only [List.isEmpty_nil, eq_self_iff_true, if_true]
    rw [hcr, huv]
  have hpu : physicsUpdate settingsC3 {} false worldC3 0 = worldC3close := by
    unfold physicsUpdate
    rw [if_neg (lt_irrefl (0 : ℚ))]
    simp only [zero_div]
    rw [show ((max 1 settingsC3.substeps).toNat) = 1 from rfl,
      show List.range 1 = [0] from rfl, List.foldl_cons, List.foldl_nil]
    exact hss
  refine ⟨rfl, ?_, ?_⟩
  · rw [hpu]
    rfl
  · intro hcon
    rw [hpu] at hcon
    have h1 : worldC3close.bodies.Get 1 = worldC3.bodies.Get 1 := by
      rw [hcon]
    rw [show worldC3close.bodies.Get 1 =
        some ({ invMass := 0, mass := 0, torque := 0 } : RigidBodyComponent)
        from rfl,
      show worldC3.bodies.Get 1 =
        some ({ invMass := 0, mass := 0, torque := 1 } : RigidBodyComponent)
        from rfl] at h1
    have h4 := congrArg RigidBodyComponent.torque (Option.some.inj h1)
    norm_num at h4


/-- `applyLinearImpulse` preserves body-storage well-formedness. -/
theorem applyLinearImpulse_wf {s : ComponentStorage RigidBodyComponent}
    (hwf : StorageWF s) (idA idB : EntityId) (ix iy : ℚ) :
    StorageWF (applyLinearImpulse s idA idB ix iy) :=
  (hwf.modify _ _).modify _ _

/-- `applyAngularImpulse` preserves body-storage well-formedness. -/
theorem applyAngularImpulse_wf {s : ComponentStorage RigidBodyComponent}
    (hwf : StorageWF s) (idA idB : EntityId) (lA lB jt : ℚ) :
    StorageWF (applyAngularImpulse s idA idB lA lB jt) :=
  (hwf.modify _ _).modify _ _

/-- Reading back the contact pair after a linear impulse: body A lost
`impulse·invMassA`, body B gained `impulse·invMassB`. -/
theorem applyLinearImpulse_Get {s : ComponentStorage RigidBodyComponent}
    (hwf : StorageWF s) {idA idB : EntityId} (hne : idA ≠ idB)
    {bA bB : RigidBodyComponent} (hA : s.Get idA = some bA)
    (hB : s.Get idB = some bB) (ix iy : ℚ) :
    (applyLinearImpulse s idA idB ix iy).Get idA =
      some { bA with vx := bA.vx - ix * bA.invMass,
                     vy := bA.vy - iy * bA.invMass } ∧
    (applyLinearImpulse s idA idB ix iy).Get idB =
      some { bB with vx := bB.vx + ix * bB.invMass,
                     vy := bB.vy + iy * bB.invMass } := by
  unfold applyLinearImpulse
  constructor
  · rw [Get_modify (hwf.modify _ _), if_neg (fun h => hne h.symm),
      Get_modify hwf, if_pos rfl, hA, Option.map_some']
  · rw [Get_modify (hwf.modify _ _), if_pos rfl, Get_modify hwf,
      if_neg hne, hB, Option.map_some']

/-- `modify` with a pointwise-identity function changes no entry. -/
theorem Get_modify_id {C : Type} {s : ComponentStorage C} (h : StorageWF s)
    (id : EntityId) (f : C → C) (hf : ∀ x, f x = x) (e : EntityId) :
    (s.modify id f).Get e = s.Get e :=
  Get_modify_preserve h id f e (fun _ x _ => hf x)

/-- A zero linear impulse is a no-op on every entry. -/
theorem applyLinearImpulse_zero {s : ComponentStorage RigidBodyComponent}
    (hwf : StorageWF s) (idA idB e : EntityId) :
    (applyLinearImpulse s idA idB 0 0).Get e = s.Get e := by
  unfold applyLinearImpulse
  rw [Get_modify_id (hwf.modify _ _) _ _ (fun x => by cases x; simp),
    Get_modify_id hwf _ _ (fun x => by cases x; simp)]

/-- A zero tangential impulse produces no angular response on any entry. -/
theorem applyAngularImpulse_zero {s : ComponentStorage RigidBodyComponent}
    (hwf : StorageWF s) (idA idB : EntityId) (lA lB : ℚ) (e : EntityId) :
    (applyAngularImpulse s idA idB lA lB 0).Get e = s.Get e := by
  unfold applyAngularImpulse
  rw [Get_modify_id (hwf.modify _ _) _ _ (fun x => by split <;> simp),
    Get_modify_id hwf _ _ (fun x => by split <;> simp)]

/-- First velocity-solver sweep over an equal-mass restitution-1 head-on
contact: the normal impulse exactly swaps the two speeds along the normal,
and the friction step is inert (the post-impulse tangential relative
velocity is zero, and the Coulomb cap is nonnegative). -/
theorem velocityPass_exchange (w : World) (c : ContactData) (a b im : ℚ)
    (bA bB : RigidBodyComponent) (hwfB : StorageWF w.bodies)
    (hne : c.entityA ≠ c.entityB)
    (hA : w.bodies.Get c.entityA = some bA)
    (hB : w.bodies.Get c.entityB = some bB)
    (himA : bA.invMass = im) (himB : bB.invMass = im) (himpos : 0 < im)
    (hims : c.invMassSum = 2 * im) (hrest : c.restitution = 1)
    (hfr : 0 ≤ c.friction) (hunit : c.nx * c.nx + c.ny * c.ny = 1)
    (hAvx : bA.vx = a * c.nx) (hAvy : bA.vy = a * c.ny)
    (hBvx : bB.vx = b * c.nx) (hBvy : bB.vy = b * c.ny)
    (happ : b - a < 0) :
    (velocityPassContact w c).bodies.Get c.entityA =
      some { bA with vx := b * c.nx, vy := b * c.ny } ∧
    (velocityPassContact w c).bodies.Get c.entityB =
      some { bB with vx := a * c.nx, vy := a * c.ny } := by
  have him0 : im ≠ 0 := ne_of_gt himpos
  have hvan : (bB.vx - bA.vx) * c.nx + (bB.vy - bA.vy) * c.ny = b - a := by
    rw [hAvx, hAvy, hBvx, hBvy]
    linear_combination (b - a) * hunit
  have hG := applyLinearImpulse_Get hwfB hne hA hB
    (-(1 + c.restitution) * (b - a) / c.invMassSum * c.nx)
    (-(1 + c.restitution) * (b - a) / c.invMassSum * c.ny)
  have hvA2 : ({ bA with
      vx := bA.vx -
        -(1 + c.restitution) * (b - a) / c.invMassSum * c.nx * bA.invMass,
      vy := bA.vy -
        -(1 + c.restitution) * (b - a) / c.invMassSum * c.ny * bA.invMass } :
        RigidBodyComponent) =
      { bA with vx := b * c.nx, vy := b * c.ny } := by
    have h1 : bA.vx -
        -(1 + c.restitution) * (b - a) / c.invMassSum * c.nx * bA.invMass =
        b * c.nx := by
      rw [hAvx, himA, hrest, hims]
      field_simp
      ring
    have h2 : bA.vy -
        -(1 + c.restitution) * (b - a) / c.invMassSum * c.ny * bA.invMass =
        b * c.ny := by
      rw [hAvy, himA, hrest, hims]
      field_simp
      ring
    rw [h1, h2]
  have hvB2 : ({ bB with
      vx := bB.vx +
        -(1 + c.restitution) * (b - a) / c.invMassSum * c.nx * bB.invMass,
      vy := bB.vy +
        -(1 + c.restitution) * (b - a) / c.invMassSum * c.ny * bB.invMass } :
        RigidBodyComponent) =
      { bB with vx := a * c.nx, vy := a * c.ny } := by
    have h1 : bB.vx +
        -(1 + c.restitution) * (b - a) / c.invMassSum * c.nx * bB.invMass =
        a * c.nx := by
      rw [hBvx, himB, hrest, hims]
      field_simp
      ring
    have h2 : bB.vy +
        -(1 + c.restitution) * (b - a) / c.invMassSum * c.ny * bB.invMass =
        a * c.ny := by
      rw [hBvy, himB, hrest, hims]
      field_simp
      ring
    rw [h1, h2]
  have hjpos : (0 : ℚ) < -(1 + c.restitution) * (b - a) / c.invMassSum := by
    rw [hrest, hims]
    apply div_pos
    · nlinarith
    · linarith
  have hmaxnn : (0 : ℚ) ≤
      c.friction * (-(1 + c.restitution) * (b - a) / c.invMassSum) :=
    mul_nonneg hfr hjpos.le
  unfold velocityPassContact
  rw [hA, hB]
  dsimp only
  simp only [hvan]
  simp only [if_pos happ]
  rw [hG.1, hG.2]
  rw [hvA2, hvB2]
  dsimp only
  have hvat : (a * c.nx - b * c.nx) * -c.ny + (a * c.ny - b * c.ny) * c.nx
      = 0 := by ring
  simp only [hvat, neg_zero, zero_div]
  simp only [if_pos hjpos, abs_zero]
  rw [if_neg (not_lt.mpr hmaxnn)]
  simp only [zero_mul]
  by_cases hpen : c.pen > -(1/20)
  · simp only [if_pos hpen]
    refine ⟨?_, ?_⟩
    · rw [applyAngularImpulse_zero (applyLinearImpulse_wf
          (applyLinearImpulse_wf hwfB _ _ _ _) _ _ _ _) _ _ _ _ _,
        applyLinearImpulse_zero (applyLinearImpulse_wf hwfB _ _ _ _) _ _ _,
        hG.1, hvA2]
    · rw [applyAngularImpulse_zero (applyLinearImpulse_wf
          (applyLinearImpulse_wf hwfB _ _ _ _) _ _ _ _) _ _ _ _ _,
        applyLinearImpulse_zero (applyLinearImpulse_wf hwfB _ _ _ _) _ _ _,
        hG.2, hvB2]
  · simp only [if_neg hpen]
    exact ⟨by rw [hG.1, hvA2], by rw [hG.2, hvB2]⟩


/-- After the exchange the bodies separate along the normal, so every
further sweep of the velocity solver over the same contact is a no-op on
both bodies. -/
theorem velocityPass_fixedpoint (w : World) (c : ContactData) (a b : ℚ)
    (bA2 bB2 : RigidBodyComponent) (hwfB : StorageWF w.bodies)
    (hA : w.bodies.Get c.entityA = some bA2)
    (hB : w.bodies.Get c.entityB = some bB2)
    (hfr : 0 ≤ c.friction)
    (hA2vx : bA2.vx = b * c.nx) (hA2vy : bA2.vy = b * c.ny)
    (hB2vx : bB2.vx = a * c.nx) (hB2vy : bB2.vy = a * c.ny)
    (hunit : c.nx * c.nx + c.ny * c.ny = 1) (hsep : 0 < a - b) :
    (velocityPassContact w c).bodies.Get c.entityA = some bA2 ∧
    (velocityPassContact w c).bodies.Get c.entityB = some bB2 := by
  have hvan : (bB2.vx - bA2.vx) * c.nx + (bB2.vy - bA2.vy) * c.ny = a - b := by
    rw [hA2vx, hA2vy, hB2vx, hB2vy]
    linear_combination (a - b) * hunit
  have hvat : (bB2.vx - bA2.vx) * -c.ny + (bB2.vy - bA2.vy) * c.nx = 0 := by
    rw [hA2vx, hA2vy, hB2vx, hB2vy]
    ring
  have hmaxnn : (0 : ℚ) ≤ c.friction * (1 / 10) :=
    mul_nonneg hfr (by norm_num)
  unfold velocityPassContact
  rw [hA, hB]
  dsimp only
  simp only [hvan]
  simp only [if_neg (not_lt.mpr hsep.le)]
  by_cases hpen : c.pen > -(1/20)
  · simp only [if_pos hpen]
    rw [hA, hB]
    dsimp only
    simp only [hvat, neg_zero, zero_div, abs_zero]
    rw [if_neg (lt_irrefl (0 : ℚ))]
    rw [if_neg (not_lt.mpr hmaxnn)]
    simp only [zero_mul]
    refine ⟨?_, ?_⟩
    · rw [applyAngularImpulse_zero (applyLinearImpulse_wf hwfB _ _ _ _)
          _ _ _ _ _,
        applyLinearImpulse_zero hwfB _ _ _, hA]
    · rw [applyAngularImpulse_zero (applyLinearImpulse_wf hwfB _ _ _ _)
          _ _ _ _ _,
        applyLinearImpulse_zero hwfB _ _ _, hB]
  · simp only [if_neg hpen]
    exact ⟨hA, hB⟩

/-- **C7**: two bodies of equal mass with restitution 1 approaching head-on
(velocities parallel to the unit contact normal, closing speed positive, so
the tangential relative velocity is zero) exchange their velocities exactly
under the velocity solver's island sweep, for any number `k ≥ 1` of
velocity iterations: the first sweep swaps the velocities and every later
sweep is a no-op on the pair. -/
theorem C7_elastic_exchange (w : World) (c : ContactData) (k : Nat)
    (a b im : ℚ) (bA bB : RigidBodyComponent) (hwfB : StorageWF w.bodies)
    (hne : c.entityA ≠ c.entityB)
    (hA : w.bodies.Get c.entityA = some bA)
    (hB : w.bodies.Get c.entityB = some bB)
    (himA : bA.invMass = im) (himB : bB.invMass = im) (himpos : 0 < im)
    (hims : c.invMassSum = 2 * im) (hrest : c.restitution = 1)
    (hfr : 0 ≤ c.friction) (hunit : c.nx * c.nx + c.ny * c.ny = 1)
    (hAvx : bA.vx = a * c.nx) (hAvy : bA.vy = a * c.ny)
    (hBvx : bB.vx = b * c.nx) (hBvy : bB.vy = b * c.ny)
    (happ : b - a < 0) (hk : 1 ≤ k) :
    (solveIslandVelocity k [c] w).bodies.Get c.entityA =
      some { bA with vx := b * c.nx, vy := b * c.ny } ∧
    (solveIslandVelocity k [c] w).bodies.Get c.entityB =
      some { bB with vx := a * c.nx, vy := a * c.ny } := by
  obtain ⟨m, rfl⟩ : ∃ m, k = m + 1 :=
    ⟨k - 1, (Nat.succ_pred_eq_of_pos hk).symm⟩
  unfold solveIslandVelocity
  simp only [List.foldl_cons, List.foldl_nil]
  have main : ∀ m : Nat,
      StorageWF ((List.range (m + 1)).foldl
        (fun w _ => velocityPassContact w c) w).bodies ∧
      ((List.range (m + 1)).foldl (fun w _ => velocityPassContact w c)
          w).bodies.Get c.entityA =
        some { bA with vx := b * c.nx, vy := b * c.ny } ∧
      ((List.range (m + 1)).foldl (fun w _ => velocityPassContact w c)
          w).bodies.Get c.entityB =
        some { bB with vx := a * c.nx, vy := a * c.ny } := by
    intro m
    induction m with
    | zero =>
        rw [show List.range 1 = [0] from rfl, List.foldl_cons,
          List.foldl_nil]
        have h := velocityPass_exchange w c a b im bA bB hwfB hne hA hB
          himA himB himpos hims hrest hfr hunit hAvx hAvy hBvx hBvy happ
        exact ⟨velocityPass_wf w c hwfB, h.1, h.2⟩
    | succ n ih =>
        rw [List.range_succ, List.foldl_append, List.foldl_cons,
          List.foldl_nil]
        have h := velocityPass_fixedpoint _ c a b _ _ ih.1 ih.2.1 ih.2.2
          hfr rfl rfl rfl rfl hunit (by linarith)
        exact ⟨velocityPass_wf _ c ih.1, h.1, h.2⟩
  exact ⟨(main m).2.1, (main m).2.2⟩

/-- C7 witness: the exchange theorem at a concrete two-body world — unit
speeds along the x axis, unit masses, restitution 1, one solver iteration —
with every hypothesis discharged by computation. -/
theorem C7_elastic_exchange_witness :
    (0 : ℚ) < 1 ∧
    (solveIslandVelocity 1 [contactC7] worldC7).bodies.Get
        contactC7.entityA =
      some { bodyA7 with vx := (-1) * contactC7.nx,
                         vy := (-1) * contactC7.ny } ∧
    (solveIslandVelocity 1 [contactC7] worldC7).bodies.Get
        contactC7.entityB =
      some { bodyB7 with vx := 1 * contactC7.nx, vy := 1 * contactC7.ny } :=
  ⟨by norm_num,
    (C7_elastic_exchange worldC7 contactC7 1 1 (-1) 1 bodyA7 bodyB7
      (by decide) (by decide) rfl rfl rfl rfl (by norm_num)
      (by norm_num [contactC7]) rfl (by norm_num [contactC7])
      (by norm_num [contactC7])
      (by norm_num [bodyA7, contactC7]) (by norm_num [bodyA7, contactC7])
      (by norm_num [bodyB7, contactC7]) (by norm_num [bodyB7, contactC7])
      (by norm_num) (by decide)).1,
    (C7_elastic_exchange worldC7 contactC7 1 1 (-1) 1 bodyA7 bodyB7
      (by decide) (by decide) rfl rfl rfl rfl (by norm_num)
      (by norm_num [contactC7]) rfl (by norm_num [contactC7])
      (by norm_num [contactC7])
      (by norm_num [bodyA7, contactC7]) (by norm_num [bodyA7, contactC7])
      (by norm_num [bodyB7, contactC7]) (by norm_num [bodyB7, contactC7])
      (by norm_num) (by decide)).2⟩


/-- `headD` of a nonempty list ignores the default. -/
theorem headD_eq_headD {α : Type} (r : List α) (d1 d2 : α) (h : r ≠ []) :
    r.headD d1 = r.headD d2 := by
  cases r with
  | nil => exact absurd rfl h
  | cons a t => rfl

/-- `headD` of a nonempty list is a member. -/
theorem headD_mem {α : Type} (r : List α) (d : α) (h : r ≠ []) :
    r.headD d ∈ r := by
  cases r with
  | nil => exact absurd rfl h
  | cons a t => exact List.mem_cons_self a t

/-- The runs of `splitRuns` concatenate back to the input list. -/
theorem splitRuns_flatten (l : List CellEntry) :
    (splitRuns l).flatten = l := by
  induction l with
  | nil => rfl
  | cons e rest ih =>
      rw [splitRuns]
      cases h : splitRuns rest with
      | nil =>
          rw [h] at ih
          simp only [List.flatten_nil] at ih
          simp [← ih]
      | cons r rs =>
          rw [h] at ih
          simp only [List.flatten_cons] at ih
          dsimp only
          by_cases hk : (r.headD e).key = e.key
          · rw [if_pos hk]
            simp only [List.flatten_cons, List.cons_append, List.cons.injEq,
              true_and]
            exact ih
          · rw [if_neg hk]
            simp only [List.flatten_cons, List.singleton_append,
              List.cons.injEq, true_and]
            exact ih

/-- Every run produced by `splitRuns` is nonempty. -/
theorem splitRuns_ne_nil (l : List CellEntry) :
    ∀ r ∈ splitRuns l, r ≠ [] := by
  induction l with
  | nil => intro r hr; simp [splitRuns] at hr
  | cons e rest ih =>
      intro r hr
      rw [splitRuns] at hr
      cases h : splitRuns rest with
      | nil =>
          rw [h] at hr
          simp only [List.mem_singleton] at hr
          subst hr
          simp
      | cons r0 rs =>
          rw [h] at hr
          dsimp only at hr
          by_cases hk : (r0.headD e).key = e.key
          · rw [if_pos hk] at hr
            rcases List.mem_cons.mp hr with h1 | h1
            · subst h1; simp
            · exact ih r (h ▸ List.mem_cons_of_mem _ h1)
          · rw [if_neg hk] at hr
            rcases List.mem_cons.mp hr with h1 | h1
            · subst h1; simp
            · exact ih r (h ▸ h1)

/-- All elements of one run share the run head's key. -/
theorem splitRuns_key (l : List CellEntry) :
    ∀ r ∈ splitRuns l, ∀ (d : CellEntry), ∀ x ∈ r,
      x.key = (r.headD d).key := by
  induction l with
  | nil => intro r hr; simp [splitRuns] at hr
  | cons e rest ih =>
      intro r hr d x hx
      rw [splitRuns] at hr
      cases h : splitRuns rest with
      | nil =>
          rw [h] at hr
          simp only [List.mem_singleton] at hr
          subst hr
          simp only [List.mem_singleton] at hx
          subst hx
          rfl
      | cons r0 rs =>
          rw [h] at hr
          dsimp only at hr
          have hr0ne : r0 ≠ [] :=
            splitRuns_ne_nil rest r0 (h ▸ List.mem_cons_self _ _)
          have hr0mem : r0 ∈ splitRuns rest := h ▸ List.mem_cons_self _ _
          by_cases hk : (r0.headD e).key = e.key
          · rw [if_pos hk] at hr
            rcases List.mem_cons.mp hr with h1 | h1
            · subst h1
              rcases List.mem_cons.mp hx with h2 | h2
              · subst h2; rfl
              · have := ih r0 hr0mem e x h2
                rw [this, hk]
                rfl
            · exact ih r (h ▸ List.mem_cons_of_mem _ h1) d x hx
          · rw [if_neg hk] at hr
            rcases List.mem_cons.mp hr with h1 | h1
            · subst h1
              simp only [List.mem_singleton] at hx
              subst hx
              rfl
            · exact ih r (h ▸ h1) d x hx

/-- Elements of a run are elements of the input list. -/
theorem mem_of_mem_splitRuns {l r : List CellEntry} {x : CellEntry}
    (hr : r ∈ splitRuns l) (hx : x ∈ r) : x ∈ l :=
  (splitRuns_flatten l) ▸ List.mem_flatten.mpr ⟨r, hr, hx⟩

/-- Every element of the input list lies in some run. -/
theorem exists_run_of_mem {l : List CellEntry} {x : CellEntry}
    (hx : x ∈ l) : ∃ r ∈ splitRuns l, x ∈ r := by
  rw [← splitRuns_flatten l] at hx
  exact List.mem_flatten.mp hx

/-- With pairwise-distinct keys every run is a singleton: no cell task is
ever formed. -/
theorem splitRuns_short_of_nodup (l : List CellEntry)
    (h : (l.map CellEntry.key).Nodup) :
    ∀ r ∈ splitRuns l, r.length ≤ 1 := by
  induction l with
  | nil => intro r hr; simp [splitRuns] at hr
  | cons e rest ih =>
      intro r hr
      simp only [List.map_cons, List.nodup_cons] at h
      obtain ⟨hnotin, hrest⟩ := h
      rw [splitRuns] at hr
      cases hsp : splitRuns rest with
      | nil =>
          rw [hsp] at hr
          simp only [List.mem_singleton] at hr
          subst hr
          simp
      | cons r0 rs =>
          rw [hsp] at hr
          dsimp only at hr
          have hr0ne : r0 ≠ [] :=
            splitRuns_ne_nil rest r0 (hsp ▸ List.mem_cons_self _ _)
          have hr0mem : r0 ∈ splitRuns rest := hsp ▸ List.mem_cons_self _ _
          by_cases hk : (r0.headD e).key = e.key
          · exact absurd
              (List.mem_map.mpr
                ⟨r0.headD e,
                  mem_of_mem_splitRuns hr0mem (headD_mem r0 e hr0ne), hk⟩)
              hnotin
          · rw [if_neg hk] at hr
            rcases List.mem_cons.mp hr with h1 | h1
            · subst h1; simp
            · exact ih hrest r (hsp ▸ h1)

/-- If the grid entries carry pairwise-distinct keys, the spatial-hash path
forms no tasks and returns no events. -/
theorem hashedEvents_eq_nil_of_nodup_keys (aabbs : List AABBComponent)
    (ids : List EntityId)
    (h : ((buildEntries aabbs).map CellEntry.key).Nodup) :
    hashedEvents aabbs ids = [] := by
  unfold hashedEvents
  dsimp only
  have hperm : List.Perm ((buildEntries aabbs).mergeSort entryLE)
      (buildEntries aabbs) := List.mergeSort_perm _ _
  have h2 : (((buildEntries aabbs).mergeSort entryLE).map
      CellEntry.key).Nodup :=
    ((hperm.map CellEntry.key).symm).nodup h
  have h3 := splitRuns_short_of_nodup _ h2
  have h4 : (splitRuns ((buildEntries aabbs).mergeSort entryLE)).filter
      (fun r => 1 < r.length) = [] := by
    refine List.filter_eq_nil_iff.mpr ?_
    intro r hr
    simp only [decide_eq_true_eq, not_lt]
    exact h3 r hr
  rw [h4]
  rfl


/-- C2 counterexample: on the malformed input `aabbsC2` (first box inverted
on the x axis, `minX > maxX`) the serial O(n²) path reports the overlapping
pair while the spatial-hash path reports nothing: the inverted box has an
empty cell range (`floor(5/2) > floor(0/2)`), so it never enters the grid
and no cell holds two entries. -/
theorem C2_counterexample :
    (⟨5, 6, -1, 0, -5⟩ : CollisionEvent) ∈ serialEvents aabbsC2 idsC2 ∧
    hashedEvents aabbsC2 idsC2 = [] ∧
    ¬(∀ e, e ∈ hashedEvents aabbsC2 idsC2 ↔
        e ∈ serialEvents aabbsC2 idsC2) := by
  have hm : getManifold box0C2 box1C2 = some (-1, 0, -5) := by
    unfold getManifold box0C2 box1C2
    norm_num [min_def, max_def]
  have hser : (⟨5, 6, -1, 0, -5⟩ : CollisionEvent) ∈
      serialEvents aabbsC2 idsC2 := by
    unfold serialEvents
    refine List.mem_flatMap.mpr ⟨0, by decide, ?_⟩
    refine List.mem_filterMap.mpr ⟨1, by decide, ?_⟩
    dsimp only
    rw [show aabbsC2.getD 0 default = box0C2 from rfl,
      show aabbsC2.getD 1 default = box1C2 from rfl, hm]
    rfl
  have hbe : buildEntries aabbsC2 =
      [⟨packKey 0 0, 1⟩, ⟨packKey 1 0, 1⟩, ⟨packKey 2 0, 1⟩] := by
    have hccA : getCellCoords (5 : ℚ) 0 = (2, 0) := by
      unfold getCellCoords
      norm_num [Prod.ext_iff]
    have hccB : getCellCoords (0 : ℚ) 1 = (0, 0) := by
      unfold getCellCoords
      norm_num [Prod.ext_iff]
    have hccC : getCellCoords (0 : ℚ) 0 = (0, 0) := by
      unfold getCellCoords
      norm_num [Prod.ext_iff]
    have hccD : getCellCoords (5 : ℚ) 1 = (2, 0) := by
      unfold getCellCoords
      norm_num [Prod.ext_iff]
    unfold buildEntries
    rw [show List.range aabbsC2.length = [0, 1] from rfl]
    simp only [List.flatMap_cons, List.flatMap_nil]
    rw [show aabbsC2.getD 0 default = box0C2 from rfl,
      show aabbsC2.getD 1 default = box1C2 from rfl]
    simp only [box0C2, box1C2]
    rw [hccA, hccB, hccC, hccD]
    decide
  have hnodup : ((buildEntries aabbsC2).map CellEntry.key).Nodup := by
    rw [hbe]
    decide
  have hhe : hashedEvents aabbsC2 idsC2 = [] :=
    hashedEvents_eq_nil_of_nodup_keys _ _ hnodup
  refine ⟨hser, hhe, fun hiff => ?_⟩
  have h1 := (hiff _).mpr hser
  rw [hhe] at h1
  simp at h1


/-- Membership in the inclusive integer range. -/
theorem mem_intRange {lo hi z : ℤ} : z ∈ intRange lo hi ↔ lo ≤ z ∧ z ≤ hi := by
  unfold intRange
  simp only [List.mem_map, List.mem_range]
  constructor
  · rintro ⟨k, hk, rfl⟩
    omega
  · rintro ⟨h1, h2⟩
    refine ⟨(z - lo).toNat, by omega, ?_⟩
    omega

/-- Dropping `k` from `range n` leaves the interval `[k, n)`. -/
theorem drop_range_eq (n k : ℕ) :
    (List.range n).drop k = List.range' k (n - k) := by
  rcases le_or_lt k n with h | h
  · have h2 : n - k + k = n := by omega
    have h1 : List.range n = List.range' 0 k ++ List.range' k (n - k) := by
      calc List.range n = List.range' 0 n := List.range_eq_range' n
        _ = List.range' 0 (n - k + k) := by rw [h2]
        _ = List.range' 0 k 1 ++ List.range' (0 + 1 * k) (n - k) 1 :=
            (List.range'_append 0 k (n - k) 1).symm
        _ = List.range' 0 k ++ List.range' k (n - k) := by norm_num
    rw [h1, List.drop_left' (List.length_range' 0 1 k)]
  · rw [List.drop_eq_nil_of_le (by simpa using Nat.le_of_lt h),
      show n - k = 0 by omega]
    rfl

/-- `CellEntry::operator<`'s reflexive closure is transitive. -/
theorem entryLE_trans (a b c : CellEntry) (h1 : entryLE a b = true)
    (h2 : entryLE b c = true) : entryLE a c = true := by
  simp only [entryLE, Bool.or_eq_true, Bool.and_eq_true,
    decide_eq_true_eq] at h1 h2 ⊢
  omega

/-- `CellEntry::operator<`'s reflexive closure is total. -/
theorem entryLE_total (a b : CellEntry) :
    (entryLE a b || entryLE b a) = true := by
  simp only [entryLE, Bool.or_eq_true, Bool.and_eq_true,
    decide_eq_true_eq]
  omega

/-- The sort order is primarily by key. -/
theorem entryLE_key {a b : CellEntry} (h : entryLE a b = true) :
    a.key ≤ b.key := by
  simp only [entryLE, Bool.or_eq_true, Bool.and_eq_true,
    decide_eq_true_eq] at h
  omega

/-- Within one key the sort order is by collider index. -/
theorem entryLE_index {a b : CellEntry} (h : entryLE a b = true)
    (hk : a.key = b.key) : a.index ≤ b.index := by
  simp only [entryLE, Bool.or_eq_true, Bool.and_eq_true,
    decide_eq_true_eq] at h
  omega

/-- `PackKey` is injective on cell coordinates representable as 32-bit
signed integers (the C++ `int` cells). -/
theorem packKey_inj {x1 y1 x2 y2 : ℤ}
    (hx1 : -2 ^ 31 ≤ x1 ∧ x1 < 2 ^ 31) (hy1 : -2 ^ 31 ≤ y1 ∧ y1 < 2 ^ 31)
    (hx2 : -2 ^ 31 ≤ x2 ∧ x2 < 2 ^ 31) (hy2 : -2 ^ 31 ≤ y2 ∧ y2 < 2 ^ 31)
    (h : packKey x1 y1 = packKey x2 y2) : x1 = x2 ∧ y1 = y2 := by
  unfold packKey at h
  omega

/-- `GetManifold` returns no manifold exactly for separated boxes. -/
theorem getManifold_eq_none_iff {a b : AABBComponent} :
    getManifold a b = none ↔
      (a.maxX < b.minX ∨ a.minX > b.maxX ∨ a.maxY < b.minY ∨
        a.minY > b.maxY) := by
  unfold getManifold
  by_cases h : (a.maxX < b.minX ∨ a.minX > b.maxX ∨ a.maxY < b.minY ∨
      a.minY > b.maxY)
  · rw [if_pos h]
    simp [h]
  · rw [if_neg h]
    dsimp only
    constructor
    · intro hc
      split at hc <;> cases hc
    · intro hc
      exact absurd hc h

/-- Overlapping boxes always produce a manifold. -/
theorem getManifold_eq_some_of_overlap {a b : AABBComponent}
    (h : ¬(a.maxX < b.minX ∨ a.minX > b.maxX ∨ a.maxY < b.minY ∨
      a.minY > b.maxY)) : ∃ m, getManifold a b = some m := by
  unfold getManifold
  rw [if_neg h]
  dsimp only
  split
  · exact ⟨_, rfl⟩
  · exact ⟨_, rfl⟩

/-- A pair reported by the double loop splits the list around its two
components in order. -/
theorem orderedPairs_mem {α : Type} {l : List α} {x y : α}
    (h : (x, y) ∈ orderedPairs l) :
    ∃ l1 l2 l3, l = l1 ++ x :: (l2 ++ y :: l3) := by
  induction l with
  | nil => simp [orderedPairs] at h
  | cons z xs ih =>
      rw [orderedPairs] at h
      rcases List.mem_append.mp h with h1 | h1
      · obtain ⟨y', hy', heq⟩ := List.mem_map.mp h1
        obtain ⟨rfl, rfl⟩ : z = x ∧ y' = y := by
          cases heq
          exact ⟨rfl, rfl⟩
        obtain ⟨l2, l3, rfl⟩ := List.append_of_mem hy'
        exact ⟨[], l2, l3, rfl⟩
      · obtain ⟨l1, l2, l3, rfl⟩ := ih h1
        exact ⟨z :: l1, l2, l3, rfl⟩

/-- Two distinct members of a list appear as a pair of the double loop in
one order or the other. -/
theorem orderedPairs_of_mem {α : Type} {l : List α} {x y : α}
    (hx : x ∈ l) (hy : y ∈ l) (hne : x ≠ y) :
    (x, y) ∈ orderedPairs l ∨ (y, x) ∈ orderedPairs l := by
  induction l with
  | nil => cases hx
  | cons z xs ih =>
      rw [orderedPairs]
      rcases List.mem_cons.mp hx with rfl | hx'
      · rcases List.mem_cons.mp hy with h | hy'
        · exact absurd h.symm hne
        · exact Or.inl (List.mem_append_left _
            (List.mem_map.mpr ⟨y, hy', rfl⟩))
      · rcases List.mem_cons.mp hy with rfl | hy'
        · exact Or.inr (List.mem_append_left _
            (List.mem_map.mpr ⟨x, hx', rfl⟩))
        · rcases ih hx' hy' with h | h
          · exact Or.inl (List.mem_append_right _ h)
          · exact Or.inr (List.mem_append_right _ h)

/-- A pairwise property applies across a two-point split of the list. -/
theorem sandwich_pairwise {α : Type} (P : α → α → Prop)
    {l l1 l2 l3 : List α} {x y : α}
    (hl : l = l1 ++ x :: (l2 ++ y :: l3)) (hp : l.Pairwise P) : P x y := by
  subst hl
  have h2 := (List.pairwise_append.mp hp).2.1
  rw [List.pairwise_cons] at h2
  exact h2.1 y (by simp)

/-- Every run is a sublist of the input. -/
theorem splitRuns_sublist {l r : List CellEntry} (hr : r ∈ splitRuns l) :
    r.Sublist l := by
  obtain ⟨R1, R2, hR⟩ := List.append_of_mem hr
  have hj := splitRuns_flatten l
  rw [hR, List.flatten_append, List.flatten_cons] at hj
  rw [← hj]
  exact (List.sublist_append_left r _).trans (List.sublist_append_right _ _)


/-- `getD` within bounds is a member. -/
theorem getD_mem_of_lt {α : Type} (l : List α) (i : ℕ) (d : α)
    (h : i < l.length) : l.getD i d ∈ l := by
  rw [List.getD_eq_getElem l d h]
  exact List.getElem_mem h

/-- The inclusive integer range has no repeats. -/
theorem intRange_nodup (lo hi : ℤ) : (intRange lo hi).Nodup := by
  unfold intRange
  refine List.Nodup.map ?_ (List.nodup_range _)
  intro a b h
  dsimp only at h
  omega

/-- Membership characterization of the grid entries: entry `(packKey x y, i)`
for each collider `i` and each cell `(x, y)` of its AABB's cell rectangle. -/
theorem mem_buildEntries {aabbs : List AABBComponent} {ent : CellEntry} :
    ent ∈ buildEntries aabbs ↔
      ∃ i, i < aabbs.length ∧ ∃ x y : ℤ,
        (⌊(aabbs.getD i default).minX / 2⌋ ≤ x ∧
          x ≤ ⌊(aabbs.getD i default).maxX / 2⌋) ∧
        (⌊(aabbs.getD i default).minY / 2⌋ ≤ y ∧
          y ≤ ⌊(aabbs.getD i default).maxY / 2⌋) ∧
        ent = ⟨packKey x y, i⟩ := by
  unfold buildEntries getCellCoords
  simp only [List.mem_flatMap, List.mem_map, List.mem_range, mem_intRange]
  constructor
  · rintro ⟨i, hi, x, hx, y, hy, rfl⟩
    exact ⟨i, hi, x, y, hx, hy, rfl⟩
  · rintro ⟨i, hi, x, y, hx, hy, rfl⟩
    exact ⟨i, hi, x, hx, y, hy, rfl⟩

/-- Every grid entry's collider index is in range. -/
theorem buildEntries_index {aabbs : List AABBComponent} {ent : CellEntry}
    (h : ent ∈ buildEntries aabbs) : ent.index < aabbs.length := by
  obtain ⟨i, hi, x, y, _, _, rfl⟩ := mem_buildEntries.mp h
  exact hi

/-- With 32-bit-representable cell coordinates the grid entries are
pairwise distinct: `PackKey` collides neither within one collider's cell
rectangle nor across colliders (the index differs). -/
theorem buildEntries_nodup (aabbs : List AABBComponent)
    (hb : ∀ box ∈ aabbs,
      (-2 ^ 31 ≤ ⌊box.minX / 2⌋ ∧ ⌊box.maxX / 2⌋ < 2 ^ 31) ∧
      (-2 ^ 31 ≤ ⌊box.minY / 2⌋ ∧ ⌊box.maxY / 2⌋ < 2 ^ 31)) :
    (buildEntries aabbs).Nodup := by
  unfold buildEntries getCellCoords
  rw [List.flatMap_def]
  refine List.nodup_flatten.mpr ⟨?_, ?_⟩
  · intro l hl
    obtain ⟨i, hi, rfl⟩ := List.mem_map.mp hl
    rw [List.mem_range] at hi
    obtain ⟨⟨hbx1, hbx2⟩, hby1, hby2⟩ :=
      hb (aabbs.getD i default) (getD_mem_of_lt _ _ _ hi)
    dsimp only
    rw [List.flatMap_def]
    refine List.nodup_flatten.mpr ⟨?_, ?_⟩
    · intro m hm
      obtain ⟨x, hx, rfl⟩ := List.mem_map.mp hm
      rw [mem_intRange] at hx
      refine List.Nodup.map_on ?_ (intRange_nodup _ _)
      intro y1 hy1 y2 hy2 heq
      rw [mem_intRange] at hy1 hy2
      have hkey : packKey x y1 = packKey x y2 := congrArg CellEntry.key heq
      exact (packKey_inj ⟨by omega, by omega⟩ ⟨by omega, by omega⟩
        ⟨by omega, by omega⟩ ⟨by omega, by omega⟩ hkey).2
    · rw [List.pairwise_map]
      refine List.Pairwise.imp_of_mem ?_ (intRange_nodup _ _)
      intro x1 x2 hx1 hx2 hne
      rw [mem_intRange] at hx1 hx2
      rw [List.disjoint_left]
      rintro ent hent1 hent2
      obtain ⟨y1, hy1, rfl⟩ := List.mem_map.mp hent1
      obtain ⟨y2, hy2, heq⟩ := List.mem_map.mp hent2
      rw [mem_intRange] at hy1 hy2
      have hkey : packKey x2 y2 = packKey x1 y1 := congrArg CellEntry.key heq
      exact hne (packKey_inj ⟨by omega, by omega⟩ ⟨by omega, by omega⟩
        ⟨by omega, by omega⟩ ⟨by omega, by omega⟩ hkey).1.symm
  · rw [List.pairwise_map]
    refine List.Pairwise.imp ?_ (List.pairwise_lt_range aabbs.length)
    intro i j hij
    rw [List.disjoint_left]
    intro ent hent1 hent2
    have h1 : ent.index = i := by
      simp only [List.mem_flatMap, List.mem_map] at hent1
      obtain ⟨x, _, y, _, rfl⟩ := hent1
      rfl
    have h2 : ent.index = j := by
      simp only [List.mem_flatMap, List.mem_map] at hent2
      obtain ⟨x, _, y, _, rfl⟩ := hent2
      rfl
    omega


/-- Nonempty runs other than the first are disjoint from the first when the
underlying list has no repeats. -/
theorem splitRuns_head_disjoint {l : List CellEntry} (hnd : l.Nodup)
    {r0 : List CellEntry} {rs : List (List CellEntry)}
    (h : splitRuns l = r0 :: rs) {r : List CellEntry} (hr : r ∈ rs)
    {x : CellEntry} (hx0 : x ∈ r0) (hxr : x ∈ r) : False := by
  have hj := splitRuns_flatten l
  rw [h, List.flatten_cons] at hj
  rw [← hj] at hnd
  have hd := List.nodup_append.mp hnd
  exact hd.2.2 hx0 (List.mem_flatten.mpr ⟨r, hr, hxr⟩)

/-- The first run starts with the head of the list. -/
theorem splitRuns_head {l : List CellEntry} {r0 : List CellEntry}
    {rs : List (List CellEntry)} (h : splitRuns l = r0 :: rs)
    (d : CellEntry) : l ≠ [] ∧ l.headD d = r0.headD d := by
  have hj := splitRuns_flatten l
  rw [h, List.flatten_cons] at hj
  have hr0 : r0 ≠ [] := splitRuns_ne_nil l r0 (h ▸ List.mem_cons_self _ _)
  cases r0 with
  | nil => exact absurd rfl hr0
  | cons a t =>
      constructor
      · rw [← hj]
        simp
      · rw [← hj]
        rfl

/-- Maximality of the runs on a sorted duplicate-free list: an element whose
key equals a run's key belongs to that run (equal keys are adjacent after
sorting, and the scan only breaks a run at a key change). -/
theorem splitRuns_max (l : List CellEntry)
    (hs : l.Pairwise (fun a b => entryLE a b = true)) (hnd : l.Nodup)
    (d : CellEntry) :
    ∀ r ∈ splitRuns l, ∀ x ∈ l, x.key = (r.headD d).key → x ∈ r := by
  induction l with
  | nil => intro r hr; simp [splitRuns] at hr
  | cons e rest ih =>
      intro r hr x hx hkey
      have hsrest : rest.Pairwise (fun a b => entryLE a b = true) :=
        (List.pairwise_cons.mp hs).2
      have hErest : ∀ z ∈ rest, entryLE e z = true :=
        (List.pairwise_cons.mp hs).1
      have hndrest : rest.Nodup := (List.nodup_cons.mp hnd).2
      rw [splitRuns] at hr
      cases hsp : splitRuns rest with
      | nil =>
          have hrest : rest = [] := by
            have hfl := splitRuns_flatten rest
            rw [hsp] at hfl
            simpa using hfl.symm
          subst hrest
          rw [hsp] at hr
          dsimp only at hr
          simp only [List.mem_singleton] at hr
          subst hr
          simp only [List.mem_singleton] at hx
          subst hx
          simp
      | cons r0 rs =>
          rw [hsp] at hr
          dsimp only at hr
          have hr0ne : r0 ≠ [] :=
            splitRuns_ne_nil rest r0 (hsp ▸ List.mem_cons_self _ _)
          have hr0mem : r0 ∈ splitRuns rest := hsp ▸ List.mem_cons_self _ _
          have hhead := splitRuns_head hsp d
          by_cases hk : (r0.headD e).key = e.key
          · rw [if_pos hk] at hr
            rcases List.mem_cons.mp hr with rfl | h1
            · simp only [List.headD_cons] at hkey
              rcases List.mem_cons.mp hx with rfl | hx'
              · exact List.mem_cons_self _ _
              · have hkey' : x.key = (r0.headD d).key := by
                  rw [headD_eq_headD r0 d e hr0ne, hk]
                  exact hkey
                exact List.mem_cons_of_mem _
                  (ih hsrest hndrest r0 hr0mem x hx' hkey')
            · rcases List.mem_cons.mp hx with rfl | hx'
              · have hrne : r ≠ [] := splitRuns_ne_nil rest r
                  (hsp ▸ List.mem_cons_of_mem _ h1)
                have hrh := headD_mem r d hrne
                have hrhmem : r.headD d ∈ rest := mem_of_mem_splitRuns
                  (hsp ▸ List.mem_cons_of_mem _ h1) hrh
                have hkk : (r.headD d).key = (r0.headD d).key := by
                  rw [headD_eq_headD r0 d x hr0ne, hk, ← hkey]
                have hin0 : r.headD d ∈ r0 :=
                  ih hsrest hndrest r0 hr0mem (r.headD d) hrhmem hkk
                exact (splitRuns_head_disjoint hndrest hsp h1 hin0 hrh).elim
              · exact ih hsrest hndrest r
                  (hsp ▸ List.mem_cons_of_mem _ h1) x hx' hkey
          · rw [if_neg hk] at hr
            obtain ⟨hrestne, hheq⟩ := hhead
            have habs : ∀ z ∈ rest, z.key = e.key → False := by
              intro z hz hzkey
              have hhd : rest.headD d ∈ rest := headD_mem rest d hrestne
              have h1e : entryLE e (rest.headD d) = true := hErest _ hhd
              have h2e : (rest.headD d).key ≤ z.key := by
                obtain ⟨hd, tl, hct⟩ := List.exists_cons_of_ne_nil hrestne
                have hhds : rest.headD d = hd := by rw [hct]; rfl
                rw [hct] at hz
                rcases List.mem_cons.mp hz with rfl | hz'
                · rw [hhds]
                · have hp := hsrest
                  rw [hct, List.pairwise_cons] at hp
                  rw [hhds]
                  exact entryLE_key (hp.1 z hz')
              have h3 : (rest.headD d).key = e.key :=
                le_antisymm (hzkey ▸ h2e) (entryLE_key h1e)
              have hkeq : (r0.headD e).key = e.key := by
                rw [headD_eq_headD r0 e d hr0ne, ← hheq]
                exact h3
              exact hk hkeq
            rcases List.mem_cons.mp hr with rfl | h1
            · simp only [List.headD_cons] at hkey
              rcases List.mem_cons.mp hx with rfl | hx'
              · exact List.mem_cons_self _ _
              · exact (habs x hx' hkey).elim
            · rcases List.mem_cons.mp h1 with rfl | h2
              · rcases List.mem_cons.mp hx with rfl | hx'
                · have hh : r.headD d ∈ rest :=
                    mem_of_mem_splitRuns hr0mem (headD_mem r d hr0ne)
                  exact (habs _ hh hkey.symm).elim
                · exact ih hsrest hndrest r hr0mem x hx' hkey
              · rcases List.mem_cons.mp hx with rfl | hx'
                · have hrne : r ≠ [] := splitRuns_ne_nil rest r
                    (hsp ▸ List.mem_cons_of_mem _ h2)
                  have hh : r.headD d ∈ rest := mem_of_mem_splitRuns
                    (hsp ▸ List.mem_cons_of_mem _ h2) (headD_mem r d hrne)
                  exact (habs _ hh hkey.symm).elim
                · exact ih hsrest hndrest r
                    (hsp ▸ List.mem_cons_of_mem _ h2) x hx' hkey

/-- On a sorted duplicate-free list, two entries with equal keys lie in the
same run. -/
theorem splitRuns_same_run {l : List CellEntry}
    (hs : l.Pairwise (fun a b => entryLE a b = true)) (hnd : l.Nodup)
    {x y : CellEntry} (hx : x ∈ l) (hy : y ∈ l) (hkey : x.key = y.key) :
    ∃ r ∈ splitRuns l, x ∈ r ∧ y ∈ r := by
  obtain ⟨r, hr, hxr⟩ := exists_run_of_mem hx
  refine ⟨r, hr, hxr, ?_⟩
  have h1 : x.key = (r.headD default).key :=
    splitRuns_key l r hr default x hxr
  exact splitRuns_max l hs hnd default r hr y hy (by rw [← hkey, ← h1])


/-- Membership characterization of the serial path: one event per ordered
index pair with a manifold. -/
theorem mem_serialEvents {aabbs : List AABBComponent} {ids : List EntityId}
    {e : CollisionEvent} :
    e ∈ serialEvents aabbs ids ↔
      ∃ i j, i < j ∧ j < aabbs.length ∧
        ∃ m, getManifold (aabbs.getD i default) (aabbs.getD j default) =
            some m ∧
          e = ⟨ids.getD i 0, ids.getD j 0, m.1, m.2.1, m.2.2⟩ := by
  unfold serialEvents
  simp only [List.mem_flatMap, List.mem_filterMap, List.mem_range,
    drop_range_eq, List.mem_range'_1]
  constructor
  · rintro ⟨i, hi, j, ⟨hj1, hj2⟩, hfm⟩
    refine ⟨i, j, by omega, by omega, ?_⟩
    cases hm2 : getManifold (aabbs.getD i default) (aabbs.getD j default) with
    | none =>
        rw [hm2] at hfm
        simp at hfm
    | some m =>
        rw [hm2] at hfm
        dsimp only at hfm
        exact ⟨m, rfl, (Option.some.inj hfm).symm⟩
  · rintro ⟨i, j, hij, hjn, m, hm2, rfl⟩
    refine ⟨i, by omega, j, ⟨by omega, by omega⟩, ?_⟩
    rw [hm2]

/-- Membership characterization of the spatial-hash path: an event comes
from an ordered pair of one surviving run, keyed by that run's head. -/
theorem mem_hashedEvents {aabbs : List AABBComponent} {ids : List EntityId}
    {e : CollisionEvent} :
    e ∈ hashedEvents aabbs ids ↔
      ∃ r ∈ splitRuns ((buildEntries aabbs).mergeSort entryLE),
        1 < r.length ∧ ∃ pr ∈ orderedPairs r,
          pairEvent aabbs ids (r.headD default).key pr = some e := by
  unfold hashedEvents taskEvents
  dsimp only
  simp only [List.mem_flatMap, List.mem_filter, List.mem_filterMap,
    decide_eq_true_eq]
  constructor
  · rintro ⟨r, ⟨hr, hlen⟩, pr, hpr, hpe⟩
    exact ⟨r, hr, hlen, pr, hpr, hpe⟩
  · rintro ⟨r, hr, hlen, pr, hpr, hpe⟩
    exact ⟨r, ⟨hr, hlen⟩, pr, hpr, hpe⟩

/-- What a successful per-pair cell-task test implies: overlap, matching
primary cell, and the serial manifold's event. -/
theorem pairEvent_some_elim {aabbs : List AABBComponent}
    {ids : List EntityId} {tk : ℕ} {pr : CellEntry × CellEntry}
    {e : CollisionEvent} (h : pairEvent aabbs ids tk pr = some e) :
    ¬((aabbs.getD pr.1.index default).maxX <
        (aabbs.getD pr.2.index default).minX ∨
      (aabbs.getD pr.1.index default).minX >
        (aabbs.getD pr.2.index default).maxX ∨
      (aabbs.getD pr.1.index default).maxY <
        (aabbs.getD pr.2.index default).minY ∨
      (aabbs.getD pr.1.index default).minY >
        (aabbs.getD pr.2.index default).maxY) ∧
    packKey
      ⌊max (aabbs.getD pr.1.index default).minX
        (aabbs.getD pr.2.index default).minX / 2⌋
      ⌊max (aabbs.getD pr.1.index default).minY
        (aabbs.getD pr.2.index default).minY / 2⌋ = tk ∧
    ∃ m, getManifold (aabbs.getD pr.1.index default)
        (aabbs.getD pr.2.index default) = some m ∧
      e = ⟨ids.getD pr.1.index 0, ids.getD pr.2.index 0,
        m.1, m.2.1, m.2.2⟩ := by
  unfold pairEvent getCellCoords at h
  dsimp only at h
  by_cases h1 : ((aabbs.getD pr.1.index default).maxX <
      (aabbs.getD pr.2.index default).minX ∨
    (aabbs.getD pr.1.index default).minX >
      (aabbs.getD pr.2.index default).maxX ∨
    (aabbs.getD pr.1.index default).maxY <
      (aabbs.getD pr.2.index default).minY ∨
    (aabbs.getD pr.1.index default).minY >
      (aabbs.getD pr.2.index default).maxY)
  · rw [if_pos h1] at h
    simp at h
  · rw [if_neg h1] at h
    by_cases h2 : packKey
        ⌊max (aabbs.getD pr.1.index default).minX
          (aabbs.getD pr.2.index default).minX / 2⌋
        ⌊max (aabbs.getD pr.1.index default).minY
          (aabbs.getD pr.2.index default).minY / 2⌋ = tk
    · rw [if_pos h2] at h
      refine ⟨h1, h2, ?_⟩
      cases hm : getManifold (aabbs.getD pr.1.index default)
          (aabbs.getD pr.2.index default) with
      | none =>
          rw [hm] at h
          simp at h
      | some m =>
          rw [hm] at h
          dsimp only at h
          exact ⟨m, rfl, (Option.some.inj h).symm⟩
    · rw [if_neg h2] at h
      simp at h

/-- The converse: an overlapping pair whose primary cell matches the task
key produces exactly the serial manifold's event. -/
theorem pairEvent_some_intro {aabbs : List AABBComponent}
    {ids : List EntityId} {tk : ℕ} {pr : CellEntry × CellEntry}
    {m : ℚ × ℚ × ℚ}
    (h1 : ¬((aabbs.getD pr.1.index default).maxX <
        (aabbs.getD pr.2.index default).minX ∨
      (aabbs.getD pr.1.index default).minX >
        (aabbs.getD pr.2.index default).maxX ∨
      (aabbs.getD pr.1.index default).maxY <
        (aabbs.getD pr.2.index default).minY ∨
      (aabbs.getD pr.1.index default).minY >
        (aabbs.getD pr.2.index default).maxY))
    (h2 : packKey
      ⌊max (aabbs.getD pr.1.index default).minX
        (aabbs.getD pr.2.index default).minX / 2⌋
      ⌊max (aabbs.getD pr.1.index default).minY
        (aabbs.getD pr.2.index default).minY / 2⌋ = tk)
    (h3 : getManifold (aabbs.getD pr.1.index default)
      (aabbs.getD pr.2.index default) = some m) :
    pairEvent aabbs ids tk pr =
      some ⟨ids.getD pr.1.index 0, ids.getD pr.2.index 0,
        m.1, m.2.1, m.2.2⟩ := by
  unfold pairEvent getCellCoords
  dsimp only
  rw [if_neg h1, if_pos h2, h3]


/-- With well-formed AABBs (nonempty on each axis) and 32-bit-representable
cell coordinates, the serial O(n²) path and the spatial-hash path report
exactly the same set of collision events. -/
theorem hashed_serial_equiv (aabbs : List AABBComponent)
    (ids : List EntityId)
    (hwf : ∀ box ∈ aabbs, box.minX ≤ box.maxX ∧ box.minY ≤ box.maxY)
    (hb : ∀ box ∈ aabbs,
      (-2 ^ 31 ≤ ⌊box.minX / 2⌋ ∧ ⌊box.maxX / 2⌋ < 2 ^ 31) ∧
      (-2 ^ 31 ≤ ⌊box.minY / 2⌋ ∧ ⌊box.maxY / 2⌋ < 2 ^ 31))
    (e : CollisionEvent) :
    e ∈ hashedEvents aabbs ids ↔ e ∈ serialEvents aabbs ids := by
  have hnd : (buildEntries aabbs).Nodup := buildEntries_nodup aabbs hb
  have hperm : List.Perm ((buildEntries aabbs).mergeSort entryLE)
      (buildEntries aabbs) := List.mergeSort_perm _ _
  have hndS : ((buildEntries aabbs).mergeSort entryLE).Nodup :=
    hperm.symm.nodup hnd
  have hsorted : ((buildEntries aabbs).mergeSort entryLE).Pairwise
      (fun a b => entryLE a b = true) :=
    List.sorted_mergeSort entryLE_trans entryLE_total _
  constructor
  · intro he
    obtain ⟨r, hr, hlen, pr, hpr, hpe⟩ := mem_hashedEvents.mp he
    obtain ⟨hov, hcell, m, hm, hedef⟩ := pairEvent_some_elim hpe
    obtain ⟨l1, l2, l3, hsplit⟩ := orderedPairs_mem hpr
    have hsub := splitRuns_sublist hr
    have hrP : r.Pairwise (fun a b => entryLE a b = true) :=
      List.Pairwise.sublist hsub hsorted
    have hrN : r.Nodup := List.Nodup.sublist hsub hndS
    have hle : entryLE pr.1 pr.2 = true :=
      sandwich_pairwise (fun a b => entryLE a b = true) hsplit hrP
    have hne : pr.1 ≠ pr.2 :=
      sandwich_pairwise (fun a b : CellEntry => a ≠ b) hsplit hrN
    have hm1r : pr.1 ∈ r := by rw [hsplit]; simp
    have hm2r : pr.2 ∈ r := by rw [hsplit]; simp
    have hk1 : pr.1.key = (r.headD default).key :=
      splitRuns_key _ r hr default _ hm1r
    have hk2 : pr.2.key = (r.headD default).key :=
      splitRuns_key _ r hr default _ hm2r
    have hk12 : pr.1.key = pr.2.key := by rw [hk1, hk2]
    have hidxle : pr.1.index ≤ pr.2.index := entryLE_index hle hk12
    have hidxne : pr.1.index ≠ pr.2.index := by
      intro hc
      apply hne
      have h1 : pr.1 = ⟨pr.1.key, pr.1.index⟩ := rfl
      have h2 : pr.2 = ⟨pr.2.key, pr.2.index⟩ := rfl
      rw [h1, h2, hk12, hc]
    have hmem2 : pr.2 ∈ buildEntries aabbs :=
      hperm.mem_iff.mp (mem_of_mem_splitRuns hr hm2r)
    have hbound : pr.2.index < aabbs.length := buildEntries_index hmem2
    exact mem_serialEvents.mpr ⟨pr.1.index, pr.2.index,
      lt_of_le_of_ne hidxle hidxne, hbound, m, hm, hedef⟩
  · intro he
    obtain ⟨i, j, hij, hjn, m, hm, rfl⟩ := mem_serialEvents.mp he
    have hin : i < aabbs.length := lt_trans hij hjn
    have hAmem : aabbs.getD i default ∈ aabbs := getD_mem_of_lt _ _ _ hin
    have hBmem : aabbs.getD j default ∈ aabbs := getD_mem_of_lt _ _ _ hjn
    obtain ⟨hwfA1, hwfA2⟩ := hwf _ hAmem
    obtain ⟨hwfB1, hwfB2⟩ := hwf _ hBmem
    obtain ⟨⟨hbA1, hbA2⟩, hbA3, hbA4⟩ := hb _ hAmem
    obtain ⟨⟨hbB1, hbB2⟩, hbB3, hbB4⟩ := hb _ hBmem
    have hov : ¬((aabbs.getD i default).maxX <
        (aabbs.getD j default).minX ∨
      (aabbs.getD i default).minX > (aabbs.getD j default).maxX ∨
      (aabbs.getD i default).maxY < (aabbs.getD j default).minY ∨
      (aabbs.getD i default).minY > (aabbs.getD j default).maxY) := by
      intro hc
      rw [getManifold_eq_none_iff.mpr hc] at hm
      exact Option.noConfusion hm
    have hov' := hov
    push_neg at hov'
    obtain ⟨hov1, hov2, hov3, hov4⟩ := hov'
    have hA1 : ⌊(aabbs.getD i default).minX / 2⌋ ≤
        ⌊max (aabbs.getD i default).minX
          (aabbs.getD j default).minX / 2⌋ :=
      Int.floor_le_floor (by
        have := le_max_left (aabbs.getD i default).minX
          (aabbs.getD j default).minX
        linarith)
    have hA2 : ⌊max (aabbs.getD i default).minX
        (aabbs.getD j default).minX / 2⌋ ≤
        ⌊(aabbs.getD i default).maxX / 2⌋ :=
      Int.floor_le_floor (by
        have := max_le hwfA1 hov1
        linarith)
    have hA3 : ⌊(aabbs.getD i default).minY / 2⌋ ≤
        ⌊max (aabbs.getD i default).minY
          (aabbs.getD j default).minY / 2⌋ :=
      Int.floor_le_floor (by
        have := le_max_left (aabbs.getD i default).minY
          (aabbs.getD j default).minY
        linarith)
    have hA4 : ⌊max (aabbs.getD i default).minY
        (aabbs.getD j default).minY / 2⌋ ≤
        ⌊(aabbs.getD i default).maxY / 2⌋ :=
      Int.floor_le_floor (by
        have := max_le hwfA2 hov3
        linarith)
    have hB1 : ⌊(aabbs.getD j default).minX / 2⌋ ≤
        ⌊max (aabbs.getD i default).minX
          (aabbs.getD j default).minX / 2⌋ :=
      Int.floor_le_floor (by
        have := le_max_right (aabbs.getD i default).minX
          (aabbs.getD j default).minX
        linarith)
    have hB2 : ⌊max (aabbs.getD i default).minX
        (aabbs.getD j default).minX / 2⌋ ≤
        ⌊(aabbs.getD j default).maxX / 2⌋ :=
      Int.floor_le_floor (by
        have := max_le hov2 hwfB1
        linarith)
    have hB3 : ⌊(aabbs.getD j default).minY / 2⌋ ≤
        ⌊max (aabbs.getD i default).minY
          (aabbs.getD j default).minY / 2⌋ :=
      Int.floor_le_floor (by
        have := le_max_right (aabbs.getD i default).minY
          (aabbs.getD j default).minY
        linarith)
    have hB4 : ⌊max (aabbs.getD i default).minY
        (aabbs.getD j default).minY / 2⌋ ≤
        ⌊(aabbs.getD j default).maxY / 2⌋ :=
      Int.floor_le_floor (by
        have := max_le hov4 hwfB2
        linarith)
    have hEA : (⟨packKey
        ⌊max (aabbs.getD i default).minX
          (aabbs.getD j default).minX / 2⌋
        ⌊max (aabbs.getD i default).minY
          (aabbs.getD j default).minY / 2⌋, i⟩ : CellEntry) ∈
        buildEntries aabbs :=
      mem_buildEntries.mpr ⟨i, hin, _, _, ⟨hA1, hA2⟩, ⟨hA3, hA4⟩, rfl⟩
    have hEB : (⟨packKey
        ⌊max (aabbs.getD i default).minX
          (aabbs.getD j default).minX / 2⌋
        ⌊max (aabbs.getD i default).minY
          (aabbs.getD j default).minY / 2⌋, j⟩ : CellEntry) ∈
        buildEntries aabbs :=
      mem_buildEntries.mpr ⟨j, hjn, _, _, ⟨hB1, hB2⟩, ⟨hB3, hB4⟩, rfl⟩
    have hEAs := hperm.mem_iff.mpr hEA
    have hEBs := hperm.mem_iff.mpr hEB
    obtain ⟨r, hr, hAr, hBr⟩ :=
      splitRuns_same_run hsorted hndS hEAs hEBs rfl
    have hneAB : (⟨packKey
        ⌊max (aabbs.getD i default).minX
          (aabbs.getD j default).minX / 2⌋
        ⌊max (aabbs.getD i default).minY
          (aabbs.getD j default).minY / 2⌋, i⟩ : CellEntry) ≠
        ⟨packKey
        ⌊max (aabbs.getD i default).minX
          (aabbs.getD j default).minX / 2⌋
        ⌊max (aabbs.getD i default).minY
          (aabbs.getD j default).minY / 2⌋, j⟩ := by
      intro hc
      have hc2 := congrArg CellEntry.index hc
      dsimp only at hc2
      omega
    have hlen : 1 < r.length := by
      rcases r with _ | ⟨a, _ | ⟨b, t⟩⟩
      · cases hAr
      · rw [List.mem_singleton] at hAr hBr
        exact absurd (hAr.trans hBr.symm) hneAB
      · simp only [List.length_cons]
        omega
    have hrP : r.Pairwise (fun a b => entryLE a b = true) :=
      List.Pairwise.sublist (splitRuns_sublist hr) hsorted
    rcases orderedPairs_of_mem hAr hBr hneAB with hAB | hBA
    · have htk := (splitRuns_key _ r hr default _ hAr).symm
      exact mem_hashedEvents.mpr ⟨r, hr, hlen, _, hAB,
        pairEvent_some_intro hov htk.symm hm⟩
    · exfalso
      obtain ⟨l1, l2, l3, hsplit⟩ := orderedPairs_mem hBA
      have hle := sandwich_pairwise
        (fun a b => entryLE a b = true) hsplit hrP
      have hidx := entryLE_index hle rfl
      dsimp only at hidx
      omega


/-- **C2** (amended): for AABBs that are well formed (`minX ≤ maxX` and
`minY ≤ maxY`) with cell coordinates representable as 32-bit signed
integers (the C++ `int` cells), `CollisionSystem::Detect` reports the same
set of events no matter which path runs: membership in the result of
`detect` is independent of whether a job scheduler is supplied, and hence
of the `n > 100` threshold. For malformed (inverted) AABBs the two paths
genuinely disagree — see the counterexample. -/
theorem C2_detect_path_equivalence (aabbs : List AABBComponent)
    (ids : List EntityId)
    (hwf : ∀ box ∈ aabbs, box.minX ≤ box.maxX ∧ box.minY ≤ box.maxY)
    (hb : ∀ box ∈ aabbs,
      (-2 ^ 31 ≤ ⌊box.minX / 2⌋ ∧ ⌊box.maxX / 2⌋ < 2 ^ 31) ∧
      (-2 ^ 31 ≤ ⌊box.minY / 2⌋ ∧ ⌊box.maxY / 2⌋ < 2 ^ 31))
    (prev prev' : List CollisionEvent) (js js' : Bool)
    (e : CollisionEvent) :
    e ∈ detect prev aabbs ids js ↔ e ∈ detect prev' aabbs ids js' := by
  have key : ∀ (p : List CollisionEvent) (b : Bool) (ev : CollisionEvent),
      ev ∈ detect p aabbs ids b ↔
        (¬(aabbs.length < 2 ∨ aabbs.length ≠ ids.length) ∧
          ev ∈ serialEvents aabbs ids) := by
    intro p b ev
    unfold detect
    dsimp only
    by_cases hg : (aabbs.length < 2 ∨ aabbs.length ≠ ids.length)
    · rw [if_pos hg]
      simp [hg]
    · rw [if_neg hg]
      by_cases hbig : (b = true ∧ 100 < aabbs.length)
      · rw [if_pos hbig]
        simp only [hg, not_false_iff, true_and]
        exact hashed_serial_equiv aabbs ids hwf hb ev
      · rw [if_neg hbig]
        simp [hg]
  rw [key prev js e, key prev' js' e]

/-- C2 witness: the amended theorem at a concrete pair of overlapping unit
boxes, hypotheses discharged by computation. -/
theorem C2_detect_path_equivalence_witness :
    (∀ box ∈ aabbsW2, box.minX ≤ box.maxX ∧ box.minY ≤ box.maxY) ∧
    (∀ e, e ∈ detect [] aabbsW2 idsW2 true ↔
      e ∈ detect [] aabbsW2 idsW2 false) := by
  have hwf : ∀ box ∈ aabbsW2,
      box.minX ≤ box.maxX ∧ box.minY ≤ box.maxY := by
    intro box hbox
    simp only [aabbsW2, List.mem_cons, List.not_mem_nil, or_false] at hbox
    rcases hbox with rfl | rfl
    · constructor <;> norm_num
    · constructor <;> norm_num
  have hbound : ∀ box ∈ aabbsW2,
      (-2 ^ 31 ≤ ⌊box.minX / 2⌋ ∧ ⌊box.maxX / 2⌋ < 2 ^ 31) ∧
      (-2 ^ 31 ≤ ⌊box.minY / 2⌋ ∧ ⌊box.maxY / 2⌋ < 2 ^ 31) := by
    intro box hbox
    simp only [aabbsW2, List.mem_cons, List.not_mem_nil, or_false] at hbox
    rcases hbox with rfl | rfl
    · refine ⟨⟨?_, ?_⟩, ?_, ?_⟩ <;> norm_num
    · refine ⟨⟨?_, ?_⟩, ?_, ?_⟩ <;> norm_num
  exact ⟨hwf, fun e =>
    C2_detect_path_equivalence aabbsW2 idsW2 hwf hbound [] [] true false e⟩


/-- Iterating the parent map fixes a root. -/
theorem iter_isRoot {p : List Nat} {r : Nat} (h : IsRoot p r) (k : Nat) :
    (pstep p)^[k] r = r := by
  induction k with
  | zero => rfl
  | succ n ih =>
      rw [Function.iterate_succ_apply, h]
      exact ih

/-- The root of a chain is unique. -/
theorem rootedAt_unique {p : List Nat} {i r1 r2 : Nat}
    (h1 : RootedAt p i r1) (h2 : RootedAt p i r2) : r1 = r2 := by
  obtain ⟨k1, hk1, hr1⟩ := h1
  obtain ⟨k2, hk2, hr2⟩ := h2
  have key : ∀ (a b u v : Nat), a ≤ b → (pstep p)^[a] i = u →
      (pstep p)^[b] i = v → IsRoot p u → u = v := by
    intro a b u v hab ha hb hr
    have : (pstep p)^[b] i = u := by
      have hsplit : b = (b - a) + a := by omega
      rw [hsplit, Function.iterate_add_apply, ha, iter_isRoot hr]
    rw [this] at hb
    exact hb
  rcases le_total k1 k2 with h | h
  · exact key k1 k2 r1 r2 h hk1 hk2 hr1
  · exact (key k2 k1 r2 r1 h hk2 hk1 hr2).symm

/-- A root is rooted at itself. -/
theorem rootedAt_self {p : List Nat} {r : Nat} (h : IsRoot p r) :
    RootedAt p r r := ⟨0, rfl, h⟩

/-- Extending the chain by one step preserves the root. -/
theorem rootedAt_step {p : List Nat} {i r : Nat}
    (h : RootedAt p (pstep p i) r) : RootedAt p i r := by
  obtain ⟨k, hk, hr⟩ := h
  exact ⟨k + 1, by rw [Function.iterate_succ_apply]; exact hk, hr⟩

/-- Conversely, a non-root node's root is its parent's root. -/
theorem rootedAt_of_step {p : List Nat} {i r : Nat} (hne : pstep p i ≠ i)
    (h : RootedAt p i r) : RootedAt p (pstep p i) r := by
  obtain ⟨k, hk, hr⟩ := h
  cases k with
  | zero =>
      simp only [Function.iterate_zero_apply] at hk
      subst hk
      unfold IsRoot at hr
      exact absurd hr hne
  | succ n =>
      rw [Function.iterate_succ_apply] at hk
      exact ⟨n, hk, hr⟩


/-- Iterates of an in-bounds index stay in bounds. -/
theorem iter_lt {p rank : List Nat} (h : UFInv p rank) {i : Nat}
    (hi : i < p.length) (k : Nat) : (pstep p)^[k] i < p.length := by
  induction k with
  | zero => simpa using hi
  | succ n ih =>
      rw [Function.iterate_succ_apply']
      exact h.2.1 _ ih

/-- Rank weakly increases along the parent chain. -/
theorem rank_le_iter {p rank : List Nat} (h : UFInv p rank) {i : Nat}
    (hi : i < p.length) (k : Nat) :
    rank.getD i 0 ≤ rank.getD ((pstep p)^[k] i) 0 := by
  induction k with
  | zero => simp
  | succ n ih =>
      rw [Function.iterate_succ_apply']
      by_cases hroot : pstep p ((pstep p)^[n] i) = (pstep p)^[n] i
      · rw [hroot]
        exact ih
      · have := h.2.2 _ (iter_lt h hi n) hroot
        omega

/-- Rank strictly increases from a non-root node to its root. -/
theorem rank_lt_root {p rank : List Nat} (h : UFInv p rank) {i r : Nat}
    (hi : i < p.length) (hne : pstep p i ≠ i) (hr : RootedAt p i r) :
    rank.getD i 0 < rank.getD r 0 := by
  have h1 : rank.getD i 0 < rank.getD (pstep p i) 0 := h.2.2 i hi hne
  have hr2 : RootedAt p (pstep p i) r := rootedAt_of_step hne hr
  obtain ⟨k, hk, _⟩ := hr2
  have h2 := rank_le_iter h (h.2.1 i hi) k
  rw [hk] at h2
  omega

/-- Pigeonhole: within `p.length` steps every in-bounds chain reaches a
root, so the fuel `parent.size()` used by `Find` always suffices. -/
theorem reach_root {p rank : List Nat} (h : UFInv p rank) {i : Nat}
    (hi : i < p.length) :
    ∃ k, k ≤ p.length ∧ IsRoot p ((pstep p)^[k] i) := by
  by_contra hcon
  push_neg at hcon
  have hmono : ∀ a b, a < b → b ≤ p.length →
      rank.getD ((pstep p)^[a] i) 0 < rank.getD ((pstep p)^[b] i) 0 := by
    intro a b hab hb
    have hstep : rank.getD ((pstep p)^[a] i) 0 <
        rank.getD ((pstep p)^[a + 1] i) 0 := by
      have hroot := hcon a (by omega)
      rw [Function.iterate_succ_apply']
      exact h.2.2 _ (iter_lt h hi a) hroot
    have hrest : rank.getD ((pstep p)^[a + 1] i) 0 ≤
        rank.getD ((pstep p)^[b] i) 0 := by
      have h4 := rank_le_iter h (iter_lt h hi (a + 1)) (b - (a + 1))
      have h5 : (pstep p)^[b - (a + 1)] ((pstep p)^[a + 1] i) =
          (pstep p)^[b] i := by
        rw [← Function.iterate_add_apply]
        congr 1
        omega
      rw [h5] at h4
      exact h4
    omega
  have hinj : ∀ a b, a ≤ p.length → b ≤ p.length →
      (pstep p)^[a] i = (pstep p)^[b] i → a = b := by
    intro a b ha hb heq
    by_contra hne
    rcases lt_or_gt_of_ne hne with h1 | h1
    · have := hmono a b h1 hb
      rw [heq] at this
      omega
    · have := hmono b a h1 ha
      rw [heq] at this
      omega
  have hf : Function.Injective (fun k : Fin (p.length + 1) =>
      (⟨(pstep p)^[k.1] i, iter_lt h hi k.1⟩ : Fin p.length)) := by
    intro a b hab
    have h2 : (pstep p)^[a.1] i = (pstep p)^[b.1] i := by
      have h3 := congrArg Fin.val hab
      simpa using h3
    exact Fin.ext (hinj a.1 b.1 (Nat.lt_succ_iff.mp a.isLt)
      (Nat.lt_succ_iff.mp b.isLt) h2)
  have hcard := Fintype.card_le_of_injective _ hf
  simp only [Fintype.card_fin] at hcard
  omega


/-- `pstep` after a single write. -/
theorem pstep_set {p : List Nat} {i r : Nat} (hi : i < p.length) (j : Nat) :
    pstep (p.set i r) j = if j = i then r else pstep p j := by
  unfold pstep
  by_cases hj : j = i
  · subst hj
    rw [if_pos rfl, List.getD_eq_getElem _ _ (by simpa using hi)]
    simp
  · rw [if_neg hj]
    by_cases hjl : j < p.length
    · rw [List.getD_eq_getElem _ _ (by simpa using hjl),
        List.getD_eq_getElem _ _ hjl]
      rw [List.getElem_set_ne (by omega)]
    · rw [List.getD_eq_default _ _ (by simpa using Nat.le_of_not_lt hjl),
        List.getD_eq_default _ _ (Nat.le_of_not_lt hjl)]

/-- Path compression (`parent[i] = root`) changes no root assignment. -/
theorem rootedAt_set_iff {p : List Nat} {i r : Nat} (hi : i < p.length)
    (hir : RootedAt p i r) (hne : i ≠ r) (j rr : Nat) :
    RootedAt (p.set i r) j rr ↔ RootedAt p j rr := by
  obtain ⟨k0, hk0, hrroot⟩ := hir
  have hstep : ∀ j, pstep (p.set i r) j = if j = i then r else pstep p j :=
    pstep_set hi
  have hroot_ne : ¬IsRoot p i := by
    intro hc
    exact hne (rootedAt_unique ⟨k0, hk0, hrroot⟩ (rootedAt_self hc)).symm
  have hroot'_r : IsRoot (p.set i r) r := by
    unfold IsRoot
    rw [hstep r, if_neg (Ne.symm hne)]
    exact hrroot
  constructor
  · rintro ⟨k, hk, hrr⟩
    have hrrne : rr ≠ i := by
      intro hc
      subst hc
      unfold IsRoot at hrr
      rw [hstep rr, if_pos rfl] at hrr
      exact hne hrr.symm
    have hrrroot : IsRoot p rr := by
      unfold IsRoot at hrr ⊢
      rw [hstep rr, if_neg hrrne] at hrr
      exact hrr
    have aux : ∀ (n : Nat) (j : Nat),
        (pstep (p.set i r))^[n] j = rr → RootedAt p j rr := by
      intro n
      induction n with
      | zero =>
          intro j hk2
          simp only [Function.iterate_zero_apply] at hk2
          subst hk2
          exact rootedAt_self hrrroot
      | succ m ih =>
          intro j hk2
          rw [Function.iterate_succ_apply] at hk2
          by_cases hji : j = i
          · subst hji
            rw [hstep j, if_pos rfl] at hk2
            rw [iter_isRoot hroot'_r m] at hk2
            subst hk2
            exact ⟨k0, hk0, hrroot⟩
          · rw [hstep j, if_neg hji] at hk2
            exact rootedAt_step (ih _ hk2)
    exact aux k j hk
  · rintro ⟨k, hk, hrr⟩
    have hrrne : rr ≠ i := by
      intro hc
      subst hc
      exact hroot_ne hrr
    have hrr' : IsRoot (p.set i r) rr := by
      unfold IsRoot
      rw [hstep rr, if_neg hrrne]
      exact hrr
    have aux : ∀ (n : Nat) (j : Nat),
        (pstep p)^[n] j = rr → RootedAt (p.set i r) j rr := by
      intro n
      induction n with
      | zero =>
          intro j hk2
          simp only [Function.iterate_zero_apply] at hk2
          subst hk2
          exact rootedAt_self hrr'
      | succ m ih =>
          intro j hk2
          rw [Function.iterate_succ_apply] at hk2
          by_cases hji : j = i
          · subst hji
            have h1 : RootedAt p j rr :=
              ⟨m + 1, by rw [Function.iterate_succ_apply]; exact hk2, hrr⟩
            have h2 : rr = r := rootedAt_unique h1 ⟨k0, hk0, hrroot⟩
            subst h2
            refine ⟨1, ?_, hrr'⟩
            rw [Function.iterate_one]
            rw [hstep j, if_pos rfl]
          · have h3 : pstep (p.set i r) j = pstep p j := by
              rw [hstep j, if_neg hji]
            exact rootedAt_step (h3.symm ▸ ih _ hk2)
    exact aux k j hk


/-- Full specification of the fuelled `Find`: with the union-find
invariants and enough fuel it returns the root of `i`, keeps the array
length and invariants, and changes no root assignment (path compression
only shortcuts chains). -/
theorem findAux_spec : ∀ (fuel : Nat) (p rank : List Nat) (i : Nat),
    UFInv p rank → i < p.length →
    (∃ k, k ≤ fuel ∧ IsRoot p ((pstep p)^[k] i)) →
    RootedAt p i (findAux fuel p i).2 ∧
    (findAux fuel p i).1.length = p.length ∧
    UFInv (findAux fuel p i).1 rank ∧
    (∀ j rr, RootedAt (findAux fuel p i).1 j rr ↔ RootedAt p j rr) := by
  intro fuel
  induction fuel with
  | zero =>
      intro p rank i hinv hi hreach
      obtain ⟨k, hk, hroot⟩ := hreach
      have hk0 : k = 0 := by omega
      subst hk0
      simp only [Function.iterate_zero_apply] at hroot
      unfold findAux
      exact ⟨rootedAt_self hroot, rfl, hinv, fun j rr => Iff.rfl⟩
  | succ fuel ih =>
      intro p rank i hinv hi hreach
      unfold findAux
      dsimp only
      by_cases hpi : pstep p i = i
      · rw [if_pos hpi]
        exact ⟨rootedAt_self hpi, rfl, hinv, fun j rr => Iff.rfl⟩
      · rw [if_neg hpi]
        dsimp only
        have hpilt : pstep p i < p.length := hinv.2.1 i hi
        have hreach' : ∃ k, k ≤ fuel ∧
            IsRoot p ((pstep p)^[k] (pstep p i)) := by
          obtain ⟨k, hk, hroot⟩ := hreach
          cases k with
          | zero =>
              simp only [Function.iterate_zero_apply] at hroot
              exact absurd hroot hpi
          | succ m =>
              refine ⟨m, by omega, ?_⟩
              rw [← Function.iterate_succ_apply]
              exact hroot
        obtain ⟨hroot1, hlen1, hinv1, hiff1⟩ :=
          ih p rank (pstep p i) hinv hpilt hreach'
        have hri : RootedAt p i (findAux fuel p (pstep p i)).2 :=
          rootedAt_step hroot1
        have hri1 : RootedAt (findAux fuel p (pstep p i)).1 i
            (findAux fuel p (pstep p i)).2 := (hiff1 _ _).mpr hri
        have hine : i ≠ (findAux fuel p (pstep p i)).2 := by
          intro hc
          have hic : IsRoot p i := by
            obtain ⟨k, hk, hroot⟩ := hri
            rw [← hc] at hroot
            exact hroot
          exact hpi hic
        have hilt1 : i < (findAux fuel p (pstep p i)).1.length := by
          rw [hlen1]
          exact hi
        have hiff2 := fun j rr => rootedAt_set_iff hilt1 hri1 hine j rr
        refine ⟨hri, ?_, ?_, ?_⟩
        · rw [List.length_set, hlen1]
        · refine ⟨?_, ?_, ?_⟩
          · rw [List.length_set, hlen1]
            exact hinv.1
          · intro j hj
            rw [List.length_set] at hj ⊢
            rw [pstep_set hilt1 j]
            split
            · rw [hlen1]
              obtain ⟨k, hk, _⟩ := hri
              rw [← hk]
              exact iter_lt hinv hi k
            · exact hinv1.2.1 j hj
          · intro j hj hne2
            rw [List.length_set] at hj
            rw [pstep_set hilt1 j] at hne2 ⊢
            by_cases hji : j = i
            · subst hji
              rw [if_pos rfl] at hne2 ⊢
              exact rank_lt_root hinv hi hpi hri
            · rw [if_neg hji] at hne2 ⊢
              exact hinv1.2.2 j hj hne2
        · intro j rr
          exact (hiff2 j rr).trans (hiff1 j rr)

/-- The specification instantiated at `ufFind` (fuel `parent.size()`). -/
theorem ufFind_spec {p rank : List Nat} {i : Nat} (hinv : UFInv p rank)
    (hi : i < p.length) :
    RootedAt p i (ufFind p i).2 ∧
    (ufFind p i).1.length = p.length ∧
    UFInv (ufFind p i).1 rank ∧
    (∀ j rr, RootedAt (ufFind p i).1 j rr ↔ RootedAt p j rr) := by
  unfold ufFind
  exact findAux_spec p.length p rank i hinv hi (reach_root hinv hi)


/-- `Connected` is reflexive. -/
theorem connected_refl (es : List ContactData) (x : EntityId) :
    Connected es x x := Relation.EqvGen.refl x

/-- `Connected` is symmetric. -/
theorem connected_symm {es : List ContactData} {x y : EntityId}
    (h : Connected es x y) : Connected es y x :=
  Relation.EqvGen.symm x y h

/-- `Connected` is transitive. -/
theorem connected_trans {es : List ContactData} {x y z : EntityId}
    (h1 : Connected es x y) (h2 : Connected es y z) : Connected es x z :=
  Relation.EqvGen.trans x y z h1 h2

/-- Nontrivially connected vertices are touched by some contact. -/
theorem connected_touched {es : List ContactData} {x y : EntityId}
    (h : Connected es x y) : x = y ∨ (Touched es x ∧ Touched es y) := by
  induction h with
  | rel u v huv =>
      obtain ⟨c, hc, hor⟩ := huv
      rcases hor with ⟨ha, hb⟩ | ⟨ha, hb⟩
      · exact Or.inr ⟨⟨c, hc, Or.inl ha⟩, ⟨c, hc, Or.inr hb⟩⟩
      · exact Or.inr ⟨⟨c, hc, Or.inr hb⟩, ⟨c, hc, Or.inl ha⟩⟩
  | refl u => exact Or.inl rfl
  | symm u v _ ih =>
      rcases ih with h | ⟨h1, h2⟩
      · exact Or.inl h.symm
      · exact Or.inr ⟨h2, h1⟩
  | trans u v w _ _ ih1 ih2 =>
      rcases ih1 with h1 | ⟨h1, h2⟩
      · rcases ih2 with h3 | ⟨h3, h4⟩
        · exact Or.inl (h1.trans h3)
        · exact Or.inr ⟨h1 ▸ h3, h4⟩
      · rcases ih2 with h3 | ⟨h3, h4⟩
        · exact Or.inr ⟨h1, h3 ▸ h2⟩
        · exact Or.inr ⟨h1, h4⟩

/-- Connectivity is monotone in the contact list. -/
theorem connected_mono {es : List ContactData} {c : ContactData}
    {x y : EntityId} (h : Connected es x y) :
    Connected (es ++ [c]) x y := by
  refine Relation.EqvGen.mono ?_ h
  intro u v huv
  obtain ⟨c', hc', hor⟩ := huv
  exact ⟨c', List.mem_append_left _ hc', hor⟩

/-- Appending one contact joins exactly the classes of its two bodies. -/
theorem connected_append {es : List ContactData} {c : ContactData}
    {x y : EntityId} :
    Connected (es ++ [c]) x y ↔
      JoinE (Connected es) c.entityA c.entityB x y := by
  unfold JoinE
  constructor
  · intro h
    induction h with
    | rel u v huv =>
        obtain ⟨c', hc', hor⟩ := huv
        rcases List.mem_append.mp hc' with hin | hin
        · exact Or.inl (Relation.EqvGen.rel _ _ ⟨c', hin, hor⟩)
        · rw [List.mem_singleton] at hin
          subst hin
          rcases hor with ⟨ha, hb⟩ | ⟨ha, hb⟩
          · exact Or.inr (Or.inl ⟨ha ▸ Relation.EqvGen.refl u,
              hb ▸ Relation.EqvGen.refl v⟩)
          · exact Or.inr (Or.inr ⟨hb ▸ Relation.EqvGen.refl u,
              ha ▸ Relation.EqvGen.refl v⟩)
    | refl u => exact Or.inl (Relation.EqvGen.refl u)
    | symm u v _ ih =>
        rcases ih with h1 | ⟨h1, h2⟩ | ⟨h1, h2⟩
        · exact Or.inl (connected_symm h1)
        · exact Or.inr (Or.inr ⟨connected_symm h2, connected_symm h1⟩)
        · exact Or.inr (Or.inl ⟨connected_symm h2, connected_symm h1⟩)
    | trans u v w _ _ ih1 ih2 =>
        rcases ih1 with h1 | ⟨h1, h2⟩ | ⟨h1, h2⟩
        · rcases ih2 with h3 | ⟨h3, h4⟩ | ⟨h3, h4⟩
          · exact Or.inl (connected_trans h1 h3)
          · exact Or.inr (Or.inl ⟨connected_trans h1 h3, h4⟩)
          · exact Or.inr (Or.inr ⟨connected_trans h1 h3, h4⟩)
        · rcases ih2 with h3 | ⟨h3, h4⟩ | ⟨h3, h4⟩
          · exact Or.inr (Or.inl ⟨h1, connected_trans h2 h3⟩)
          · exact Or.inr (Or.inl ⟨h1, h4⟩)
          · exact Or.inl (connected_trans h1 h4)
        · rcases ih2 with h3 | ⟨h3, h4⟩ | ⟨h3, h4⟩
          · exact Or.inr (Or.inr ⟨h1, connected_trans h2 h3⟩)
          · exact Or.inl (connected_trans h1 h4)
          · exact Or.inr (Or.inr ⟨h1, h4⟩)
  · intro h
    have hedge : Connected (es ++ [c]) c.entityA c.entityB :=
      Relation.EqvGen.rel _ _
        ⟨c, List.mem_append_right _ (List.mem_singleton.mpr rfl),
          Or.inl ⟨rfl, rfl⟩⟩
    rcases h with h1 | ⟨h1, h2⟩ | ⟨h1, h2⟩
    · exact connected_mono h1
    · exact connected_trans (connected_trans (connected_mono h1) hedge)
        (connected_mono h2)
    · exact connected_trans (connected_trans (connected_mono h1)
        (connected_symm hedge)) (connected_mono h2)

/-- `Touched` across an append. -/
theorem touched_append {es : List ContactData} {c : ContactData}
    {x : EntityId} :
    Touched (es ++ [c]) x ↔ Touched es x ∨ x = c.entityA ∨ x = c.entityB := by
  unfold Touched
  constructor
  · rintro ⟨c', hc', hor⟩
    rcases List.mem_append.mp hc' with hin | hin
    · exact Or.inl ⟨c', hin, hor⟩
    · rw [List.mem_singleton] at hin
      subst hin
      rcases hor with h | h
      · exact Or.inr (Or.inl h.symm)
      · exact Or.inr (Or.inr h.symm)
  · rintro (⟨c', hc', hor⟩ | h | h)
    · exact ⟨c', List.mem_append_left _ hc', hor⟩
    · exact ⟨c, List.mem_append_right _ (List.mem_singleton.mpr rfl),
        Or.inl h.symm⟩
    · exact ⟨c, List.mem_append_right _ (List.mem_singleton.mpr rfl),
        Or.inr h.symm⟩


/-- `getD` ignores an appended tail below the original length. -/
theorem getD_append_lt {l l2 : List Nat} {j : Nat} (h : j < l.length)
    (d : Nat) : (l ++ l2).getD j d = l.getD j d := by
  rw [List.getD_eq_getElem _ _ (by simp only [List.length_append]; omega),
    List.getD_eq_getElem _ _ h]
  exact List.getElem_append_left h

/-- `pstep` on the freshly appended singleton slot. -/
theorem pstep_append {p : List Nat} (j : Nat) :
    pstep (p ++ [p.length]) j = if j < p.length then pstep p j else j := by
  unfold pstep
  by_cases hj : j < p.length
  · rw [if_pos hj]
    exact getD_append_lt hj j
  · rw [if_neg hj]
    by_cases hj2 : j = p.length
    · subst hj2
      rw [List.getD_eq_getElem _ _ (by simp)]
      exact List.getElem_concat_length p p.length p.length rfl (by simp)
    · rw [List.getD_eq_default _ _ (by simp only [List.length_append,
        List.length_cons, List.length_nil]; omega)]

/-- Chains of old nodes ignore the appended slot. -/
theorem rootedAt_append_iff {p rank : List Nat} (hinv : UFInv p rank)
    {j : Nat} (hj : j < p.length) (rr : Nat) :
    RootedAt (p ++ [p.length]) j rr ↔ RootedAt p j rr := by
  have aux : ∀ (n : Nat) (j : Nat), j < p.length →
      (pstep (p ++ [p.length]))^[n] j = (pstep p)^[n] j := by
    intro n
    induction n with
    | zero => intro j _; rfl
    | succ m ih =>
        intro j hj
        rw [Function.iterate_succ_apply, Function.iterate_succ_apply]
        rw [pstep_append j, if_pos hj]
        exact ih _ (hinv.2.1 j hj)
  constructor
  · rintro ⟨k, hk, hroot⟩
    rw [aux k j hj] at hk
    have hrr : rr < p.length := hk ▸ iter_lt hinv hj k
    refine ⟨k, hk, ?_⟩
    unfold IsRoot at hroot ⊢
    rw [pstep_append rr, if_pos hrr] at hroot
    exact hroot
  · rintro ⟨k, hk, hroot⟩
    have hrr : rr < p.length := hk ▸ iter_lt hinv hj k
    refine ⟨k, by rw [aux k j hj]; exact hk, ?_⟩
    unfold IsRoot
    rw [pstep_append rr, if_pos hrr]
    exact hroot

/-- The fresh slot is its own singleton root. -/
theorem rootedAt_append_self {p : List Nat} :
    RootedAt (p ++ [p.length]) p.length p.length := by
  refine rootedAt_self ?_
  unfold IsRoot
  rw [pstep_append, if_neg (lt_irrefl _)]

/-- The fresh slot's root is itself. -/
theorem rootedAt_append_new {p : List Nat} {rr : Nat}
    (h : RootedAt (p ++ [p.length]) p.length rr) : rr = p.length :=
  rootedAt_unique h rootedAt_append_self

/-- Specification of `IslandBuilder::Add`: well-formedness is preserved,
the entity maps to an in-bounds slot, other entities are untouched, and no
existing root assignment changes. -/
theorem add_spec {s : IslandBuilder} (hwf : IBWF s) (e : EntityId) :
    IBWF (s.add e).1 ∧
    (s.add e).1.indices.lookup e = some (s.add e).2 ∧
    (s.add e).2 < (s.add e).1.parent.length ∧
    (∀ x, x ≠ e → (s.add e).1.indices.lookup x = s.indices.lookup x) ∧
    s.parent.length ≤ (s.add e).1.parent.length ∧
    (∀ j rr, j < s.parent.length →
      (RootedAt (s.add e).1.parent j rr ↔ RootedAt s.parent j rr)) := by
  unfold IslandBuilder.add
  cases hl : s.indices.lookup e with
  | some i =>
      dsimp only
      refine ⟨hwf, hl, ?_, fun x _ => rfl, le_refl _, fun j rr hj => Iff.rfl⟩
      exact hwf.2.2.1 (e, i) ((lookup_eq_some_iff_mem hwf.2.1 e i).mp hl)
  | none =>
      dsimp only
      obtain ⟨⟨hlen, hbnd, hrk⟩, hnd, hidx, hsurj⟩ := hwf
      have henotin : e ∉ s.indices.map Prod.fst :=
        (lookup_eq_none_iff_not_mem e).mp hl
      refine ⟨⟨⟨?_, ?_, ?_⟩, ?_, ?_, ?_⟩, ?_, ?_, ?_, ?_, ?_⟩
      · simp [hlen]
      · intro j hj
        rw [pstep_append j]
        simp only [List.length_append, List.length_cons,
          List.length_nil] at hj ⊢
        split
        · have := hbnd j (by assumption)
          omega
        · omega
      · intro j hj hne
        rw [pstep_append j] at hne ⊢
        simp only [List.length_append, List.length_cons,
          List.length_nil] at hj
        by_cases hjl : j < s.parent.length
        · rw [if_pos hjl] at hne ⊢
          have h1 := hbnd j hjl
          rw [getD_append_lt (by omega) 0, getD_append_lt (by omega) 0]
          exact hrk j hjl hne
        · rw [if_neg hjl] at hne
          exact absurd rfl hne
      · simp only [List.map_cons, List.nodup_cons]
        exact ⟨henotin, hnd⟩
      · intro pr hpr
        rcases List.mem_cons.mp hpr with rfl | hpr'
        · simp
        · have := hidx pr hpr'
          simp only [List.length_append, List.length_cons, List.length_nil]
          omega
      · intro i hi
        simp only [List.length_append, List.length_cons,
          List.length_nil] at hi
        by_cases hil : i < s.parent.length
        · obtain ⟨e', he'⟩ := hsurj i hil
          exact ⟨e', List.mem_cons_of_mem _ he'⟩
        · have : i = s.parent.length := by omega
          subst this
          exact ⟨e, List.mem_cons_self _ _⟩
      · show List.lookup e ((e, s.parent.length) :: s.indices) = _
        simp [List.lookup]
      · simp
      · intro x hx
        show List.lookup x ((e, s.parent.length) :: s.indices) = _
        rw [List.lookup_cons]
        rw [show (x == e) = false from beq_eq_false_iff_ne.mpr hx]
      · simp
      · intro j rr hj
        exact rootedAt_append_iff ⟨hlen, hbnd, hrk⟩ hj rr


/-- Linking root `rb` under root `ra` (`parent[rb] = ra`) merges exactly
the two classes: afterwards a node's root is `ra` if it was `rb`, and is
unchanged otherwise. -/
theorem rootedAt_link_iff {p : List Nat}
    {ra rb : Nat} (hra : IsRoot p ra) (hrb : IsRoot p rb) (hne : rb ≠ ra)
    (hrb_lt : rb < p.length) (j rr : Nat) :
    RootedAt (p.set rb ra) j rr ↔
      ((RootedAt p j rb ∧ rr = ra) ∨ (RootedAt p j rr ∧ rr ≠ rb)) := by
  have hstep : ∀ j, pstep (p.set rb ra) j = if j = rb then ra else pstep p j :=
    pstep_set hrb_lt
  have hra' : IsRoot (p.set rb ra) ra := by
    unfold IsRoot
    rw [hstep ra, if_neg (fun hc => hne hc.symm)]
    exact hra
  constructor
  · rintro ⟨k, hk, hroot⟩
    have hrrne : rr ≠ rb := by
      intro hc
      subst hc
      unfold IsRoot at hroot
      rw [hstep rr, if_pos rfl] at hroot
      exact hne hroot.symm
    have hrroot_p : IsRoot p rr := by
      unfold IsRoot at hroot ⊢
      rw [hstep rr, if_neg hrrne] at hroot
      exact hroot
    have aux : ∀ (n : Nat) (j : Nat), (pstep (p.set rb ra))^[n] j = rr →
        (RootedAt p j rb ∧ rr = ra) ∨ RootedAt p j rr := by
      intro n
      induction n with
      | zero =>
          intro j hk2
          simp only [Function.iterate_zero_apply] at hk2
          subst hk2
          exact Or.inr (rootedAt_self hrroot_p)
      | succ m ih =>
          intro j hk2
          rw [Function.iterate_succ_apply] at hk2
          by_cases hj : j = rb
          · subst hj
            rw [hstep j, if_pos rfl] at hk2
            rw [iter_isRoot hra' m] at hk2
            exact Or.inl ⟨rootedAt_self hrb, hk2.symm⟩
          · rw [hstep j, if_neg hj] at hk2
            rcases ih _ hk2 with ⟨h1, h2⟩ | h1
            · exact Or.inl ⟨rootedAt_step h1, h2⟩
            · exact Or.inr (rootedAt_step h1)
    rcases aux k j hk with ⟨h1, h2⟩ | h1
    · exact Or.inl ⟨h1, h2⟩
    · exact Or.inr ⟨h1, hrrne⟩
  · have aux2 : ∀ (n : Nat) (j : Nat), (pstep p)^[n] j = rb →
        RootedAt (p.set rb ra) j ra := by
      intro n
      induction n with
      | zero =>
          intro j hk2
          simp only [Function.iterate_zero_apply] at hk2
          subst hk2
          refine ⟨1, ?_, hra'⟩
          rw [Function.iterate_one, hstep j, if_pos rfl]
      | succ m ih =>
          intro j hk2
          rw [Function.iterate_succ_apply] at hk2
          by_cases hj : j = rb
          · subst hj
            refine ⟨1, ?_, hra'⟩
            rw [Function.iterate_one, hstep j, if_pos rfl]
          · have h3 : pstep (p.set rb ra) j = pstep p j := by
              rw [hstep j, if_neg hj]
            exact rootedAt_step (h3.symm ▸ ih _ hk2)
    have aux3 : ∀ (n : Nat) (j : Nat), (pstep p)^[n] j = rr →
        IsRoot p rr → rr ≠ rb → RootedAt (p.set rb ra) j rr := by
      intro n
      induction n with
      | zero =>
          intro j hk2 hroot hrrne
          simp only [Function.iterate_zero_apply] at hk2
          subst hk2
          refine rootedAt_self ?_
          unfold IsRoot
          rw [hstep j, if_neg hrrne]
          exact hroot
      | succ m ih =>
          intro j hk2 hroot hrrne
          rw [Function.iterate_succ_apply] at hk2
          by_cases hj : j = rb
          · subst hj
            exfalso
            apply hrrne
            rw [← hk2]
            have hrb2 := hrb
            unfold IsRoot at hrb2
            rw [hrb2]
            exact iter_isRoot hrb m
          · have h3 : pstep (p.set rb ra) j = pstep p j := by
              rw [hstep j, if_neg hj]
            exact rootedAt_step (h3.symm ▸ ih _ hk2 hroot hrrne)
    rintro (⟨⟨k, hk, _⟩, rfl⟩ | ⟨⟨k, hk, hroot⟩, hrrne⟩)
    · exact aux2 k j hk
    · exact aux3 k j hk hroot hrrne


/-- The endpoint of a rooted chain is a root. -/
theorem rootedAt_isRoot {p : List Nat} {i r : Nat} (h : RootedAt p i r) :
    IsRoot p r := h.choose_spec.2

/-- Roots of in-bounds chains are in bounds. -/
theorem rootedAt_lt {p rank : List Nat} (hinv : UFInv p rank) {i r : Nat}
    (hi : i < p.length) (h : RootedAt p i r) : r < p.length := by
  obtain ⟨k, hk, _⟩ := h
  exact hk ▸ iter_lt hinv hi k

/-- `getD` after a single in-bounds write. -/
theorem getD_set' {l : List Nat} {i v : Nat} (hi : i < l.length)
    (j d : Nat) : (l.set i v).getD j d = if j = i then v else l.getD j d := by
  by_cases hj : j = i
  · subst hj
    rw [if_pos rfl, List.getD_eq_getElem _ _ (by simpa using hi)]
    simp
  · rw [if_neg hj]
    by_cases hjl : j < l.length
    · rw [List.getD_eq_getElem _ _ (by simpa using hjl),
        List.getD_eq_getElem _ _ hjl]
      rw [List.getElem_set_ne (by omega)]
    · rw [List.getD_eq_default _ _ (by simpa using Nat.le_of_not_lt hjl),
        List.getD_eq_default _ _ (Nat.le_of_not_lt hjl)]

/-- An entity is registered after `Add` iff it was registered or is the
added one. -/
theorem registered_add {s : IslandBuilder} (e : EntityId) (x : EntityId) :
    Registered (s.add e).1 x ↔ (Registered s x ∨ x = e) := by
  unfold IslandBuilder.add Registered
  cases hl : s.indices.lookup e with
  | some i =>
      dsimp only
      constructor
      · exact Or.inl
      · rintro (h | rfl)
        · exact h
        · exact ⟨i, hl⟩
  | none =>
      dsimp only
      by_cases hx : x = e
      · subst hx
        constructor
        · intro _
          exact Or.inr rfl
        · intro _
          refine ⟨s.parent.length, ?_⟩
          show List.lookup x ((x, s.parent.length) :: s.indices) = _
          simp [List.lookup]
      · have hpres : List.lookup x ((e, s.parent.length) :: s.indices) =
            s.indices.lookup x := by
          rw [List.lookup_cons]
          rw [show (x == e) = false from beq_eq_false_iff_ne.mpr hx]
        constructor
        · rintro ⟨i, hi⟩
          rw [hpres] at hi
          exact Or.inl ⟨i, hi⟩
        · rintro (⟨i, hi⟩ | h)
          · exact ⟨i, by rw [hpres]; exact hi⟩
          · exact absurd h hx

/-- `Add` merges no classes: it at most creates the fresh singleton. -/
theorem sameRoot_add {s : IslandBuilder} (hwf : IBWF s) (e : EntityId)
    (x y : EntityId) :
    SameRoot (s.add e).1 x y ↔ (SameRoot s x y ∨ (x = e ∧ y = e)) := by
  unfold IslandBuilder.add
  cases hl : s.indices.lookup e with
  | some i =>
      dsimp only
      constructor
      · exact Or.inl
      · rintro (h | ⟨hx1, hy1⟩)
        · exact h
        · have hilt : i < s.parent.length := hwf.2.2.1 (e, i)
            ((lookup_eq_some_iff_mem hwf.2.1 e i).mp hl)
          obtain ⟨k, _, hroot⟩ := reach_root hwf.1 hilt
          refine ⟨i, i, _, ?_, ?_, ⟨k, rfl, hroot⟩, ⟨k, rfl, hroot⟩⟩
          · rw [hx1]
            exact hl
          · rw [hy1]
            exact hl
  | none =>
      dsimp only
      have hlk : ∀ z, List.lookup z ((e, s.parent.length) :: s.indices) =
          (if z = e then some s.parent.length else s.indices.lookup z) := by
        intro z
        rw [List.lookup_cons]
        by_cases hz : z = e
        · subst hz
          rw [if_pos rfl]
          simp
        · rw [if_neg hz,
            show (z == e) = false from beq_eq_false_iff_ne.mpr hz]
      have hbnd : ∀ z iz, s.indices.lookup z = some iz →
          iz < s.parent.length := by
        intro z iz hz
        exact hwf.2.2.1 (z, iz)
          ((lookup_eq_some_iff_mem hwf.2.1 z iz).mp hz)
      unfold SameRoot
      dsimp only
      constructor
      · rintro ⟨ix, iy, r, hx, hy, hrx, hry⟩
        rw [hlk x] at hx
        rw [hlk y] at hy
        by_cases hxe : x = e
        · rw [if_pos hxe] at hx
          by_cases hye : y = e
          · exact Or.inr ⟨hxe, hye⟩
          · rw [if_neg hye] at hy
            cases Option.some.inj hx
            have hr : r = s.parent.length := rootedAt_append_new hrx
            subst hr
            have hylt := hbnd y iy hy
            have := rootedAt_lt hwf.1 hylt
              ((rootedAt_append_iff hwf.1 hylt _).mp hry)
            omega
        · rw [if_neg hxe] at hx
          by_cases hye : y = e
          · rw [if_pos hye] at hy
            cases Option.some.inj hy
            have hr : r = s.parent.length := rootedAt_append_new hry
            subst hr
            have hxlt := hbnd x ix hx
            have := rootedAt_lt hwf.1 hxlt
              ((rootedAt_append_iff hwf.1 hxlt _).mp hrx)
            omega
          · rw [if_neg hye] at hy
            have hxlt := hbnd x ix hx
            have hylt := hbnd y iy hy
            exact Or.inl ⟨ix, iy, r, hx, hy,
              (rootedAt_append_iff hwf.1 hxlt _).mp hrx,
              (rootedAt_append_iff hwf.1 hylt _).mp hry⟩
      · rintro (⟨ix, iy, r, hx, hy, hrx, hry⟩ | ⟨hx1, hy1⟩)
        · have hxe : x ≠ e := by
            intro hc
            subst hc
            rw [hx] at hl
            cases hl
          have hye : y ≠ e := by
            intro hc
            subst hc
            rw [hy] at hl
            cases hl
          have hxlt := hbnd x ix hx
          have hylt := hbnd y iy hy
          refine ⟨ix, iy, r, ?_, ?_, ?_, ?_⟩
          · rw [hlk x, if_neg hxe]
            exact hx
          · rw [hlk y, if_neg hye]
            exact hy
          · exact (rootedAt_append_iff hwf.1 hxlt _).mpr hrx
          · exact (rootedAt_append_iff hwf.1 hylt _).mpr hry
        · refine ⟨s.parent.length, s.parent.length, s.parent.length,
            ?_, ?_, rootedAt_append_self, rootedAt_append_self⟩
          · rw [hlk x, if_pos hx1]
          · rw [hlk y, if_pos hy1]


/-- `SameRoot` is symmetric. -/
theorem sameRoot_symm {s : IslandBuilder} {x y : EntityId}
    (h : SameRoot s x y) : SameRoot s y x := by
  obtain ⟨ix, iy, r, hx, hy, h1, h2⟩ := h
  exact ⟨iy, ix, r, hy, hx, h2, h1⟩

/-- `SameRoot` is transitive (roots are unique). -/
theorem sameRoot_trans {s : IslandBuilder} {x y z : EntityId}
    (h1 : SameRoot s x y) (h2 : SameRoot s y z) : SameRoot s x z := by
  obtain ⟨ix, iy, r, hx, hy, hrx, hry⟩ := h1
  obtain ⟨iy', iz, r', hy', hz, hry', hrz⟩ := h2
  cases Option.some.inj (hy.symm.trans hy')
  cases rootedAt_unique hry hry'
  exact ⟨ix, iz, r, hx, hz, hrx, hrz⟩

/-- Attaching the class of root `dr` under root `lr` (where `{lr, dr}` are
the two entities' roots `{ra, rb}` in some order) merges exactly those two
classes, for any rank array satisfying the rank invariant on the new
parent array. -/
theorem linkParts {s2 : IslandBuilder} (hwf2 : IBWF s2)
    {q : List Nat}
    (hqlen : q.length = s2.parent.length)
    (hqinv : UFInv q s2.rank)
    (hqroots : ∀ j rr, RootedAt q j rr ↔ RootedAt s2.parent j rr)
    {a b : EntityId} {ia ib ra rb : Nat}
    (hla : s2.indices.lookup a = some ia)
    (hlb : s2.indices.lookup b = some ib)
    (hcra : RootedAt s2.parent ia ra)
    (hcrb : RootedAt s2.parent ib rb)
    (hne : ra ≠ rb)
    {lr dr : Nat}
    (habs : (lr = ra ∧ dr = rb) ∨ (lr = rb ∧ dr = ra))
    (rank' : List Nat)
    (hrlen : rank'.length = s2.rank.length)
    (hrkinv : ∀ j, j < q.length → pstep (q.set dr lr) j ≠ j →
      rank'.getD j 0 < rank'.getD (pstep (q.set dr lr) j) 0) :
    IBWF { indices := s2.indices, parent := q.set dr lr, rank := rank' } ∧
    (∀ x, Registered
      { indices := s2.indices, parent := q.set dr lr, rank := rank' } x ↔
      Registered s2 x) ∧
    (∀ x y, SameRoot
      { indices := s2.indices, parent := q.set dr lr, rank := rank' } x y ↔
      (SameRoot s2 x y ∨ (SameRoot s2 x a ∧ SameRoot s2 b y) ∨
        (SameRoot s2 x b ∧ SameRoot s2 a y))) := by
  have hialt : ia < s2.parent.length :=
    hwf2.2.2.1 (a, ia) ((lookup_eq_some_iff_mem hwf2.2.1 a ia).mp hla)
  have hiblt : ib < s2.parent.length :=
    hwf2.2.2.1 (b, ib) ((lookup_eq_some_iff_mem hwf2.2.1 b ib).mp hlb)
  have hralt : ra < s2.parent.length := rootedAt_lt hwf2.1 hialt hcra
  have hrblt : rb < s2.parent.length := rootedAt_lt hwf2.1 hiblt hcrb
  have hraq : IsRoot q ra :=
    rootedAt_isRoot ((hqroots ra ra).mpr (rootedAt_self (rootedAt_isRoot hcra)))
  have hrbq : IsRoot q rb :=
    rootedAt_isRoot ((hqroots rb rb).mpr (rootedAt_self (rootedAt_isRoot hcrb)))
  have hlrq : IsRoot q lr := by
    rcases habs with ⟨hl1, _⟩ | ⟨hl1, _⟩
    · rw [hl1]
      exact hraq
    · rw [hl1]
      exact hrbq
  have hdrq : IsRoot q dr := by
    rcases habs with ⟨_, hd1⟩ | ⟨_, hd1⟩
    · rw [hd1]
      exact hrbq
    · rw [hd1]
      exact hraq
  have hnedl : dr ≠ lr := by
    rcases habs with ⟨hl1, hd1⟩ | ⟨hl1, hd1⟩
    · rw [hl1, hd1]
      exact fun hc => hne hc.symm
    · rw [hl1, hd1]
      exact hne
  have hdrlt : dr < q.length := by
    rcases habs with ⟨_, hd1⟩ | ⟨_, hd1⟩
    · rw [hd1, hqlen]
      exact hrblt
    · rw [hd1, hqlen]
      exact hralt
  have hlrlt : lr < q.length := by
    rcases habs with ⟨hl1, _⟩ | ⟨hl1, _⟩
    · rw [hl1, hqlen]
      exact hralt
    · rw [hl1, hqlen]
      exact hrblt
  have hlink2 : ∀ j rr, RootedAt (q.set dr lr) j rr ↔
      ((RootedAt s2.parent j dr ∧ rr = lr) ∨
        (RootedAt s2.parent j rr ∧ rr ≠ dr)) := by
    intro j rr
    rw [rootedAt_link_iff hlrq hdrq hnedl hdrlt j rr, hqroots j dr,
      hqroots j rr]
  refine ⟨⟨⟨?_, ?_, ?_⟩, hwf2.2.1, ?_, ?_⟩, fun x => Iff.rfl, ?_⟩
  · show (q.set dr lr).length = rank'.length
    rw [List.length_set, hqinv.1]
    exact hrlen.symm
  · show ∀ j, j < (q.set dr lr).length →
      pstep (q.set dr lr) j < (q.set dr lr).length
    intro j hj
    rw [List.length_set] at hj ⊢
    rw [pstep_set hdrlt j]
    by_cases hjd : j = dr
    · rw [if_pos hjd]
      exact hlrlt
    · rw [if_neg hjd]
      exact hqinv.2.1 j hj
  · show ∀ j, j < (q.set dr lr).length → pstep (q.set dr lr) j ≠ j →
      rank'.getD j 0 < rank'.getD (pstep (q.set dr lr) j) 0
    intro j hj hne'
    rw [List.length_set] at hj
    exact hrkinv j hj hne'
  · show ∀ pr ∈ s2.indices, pr.2 < (q.set dr lr).length
    intro pr hpr
    rw [List.length_set, hqlen]
    exact hwf2.2.2.1 pr hpr
  · show ∀ i, i < (q.set dr lr).length → ∃ e, (e, i) ∈ s2.indices
    intro i hi
    rw [List.length_set, hqlen] at hi
    exact hwf2.2.2.2 i hi
  intro x y
  constructor
  · rintro ⟨ix, iy, r, hx, hy, h1, h2⟩
    rcases (hlink2 ix r).mp h1 with ⟨hx1, hxr⟩ | ⟨hx1, hxr⟩
    · rcases (hlink2 iy r).mp h2 with ⟨hy1, -⟩ | ⟨hy1, -⟩
      · exact Or.inl ⟨ix, iy, dr, hx, hy, hx1, hy1⟩
      · rw [hxr] at hy1
        rcases habs with ⟨hl1, hd1⟩ | ⟨hl1, hd1⟩
        · rw [hd1] at hx1
          rw [hl1] at hy1
          exact Or.inr (Or.inr ⟨⟨ix, ib, rb, hx, hlb, hx1, hcrb⟩,
            ⟨ia, iy, ra, hla, hy, hcra, hy1⟩⟩)
        · rw [hd1] at hx1
          rw [hl1] at hy1
          exact Or.inr (Or.inl ⟨⟨ix, ia, ra, hx, hla, hx1, hcra⟩,
            ⟨ib, iy, rb, hlb, hy, hcrb, hy1⟩⟩)
    · rcases (hlink2 iy r).mp h2 with ⟨hy1, hyr⟩ | ⟨hy1, -⟩
      · rw [hyr] at hx1
        rcases habs with ⟨hl1, hd1⟩ | ⟨hl1, hd1⟩
        · rw [hl1] at hx1
          rw [hd1] at hy1
          exact Or.inr (Or.inl ⟨⟨ix, ia, ra, hx, hla, hx1, hcra⟩,
            ⟨ib, iy, rb, hlb, hy, hcrb, hy1⟩⟩)
        · rw [hl1] at hx1
          rw [hd1] at hy1
          exact Or.inr (Or.inr ⟨⟨ix, ib, rb, hx, hlb, hx1, hcrb⟩,
            ⟨ia, iy, ra, hla, hy, hcra, hy1⟩⟩)
      · exact Or.inl ⟨ix, iy, r, hx, hy, hx1, hy1⟩
  · have hto : ∀ u v iu iv r, s2.indices.lookup u = some iu →
        s2.indices.lookup v = some iv → RootedAt s2.parent iu r →
        RootedAt s2.parent iv r →
        SameRoot { indices := s2.indices, parent := q.set dr lr, rank := rank' } u v := by
      intro u v iu iv r hu hv hur hvr
      by_cases hr : r = dr
      · rw [hr] at hur hvr
        exact ⟨iu, iv, lr, hu, hv, (hlink2 iu lr).mpr (Or.inl ⟨hur, rfl⟩),
          (hlink2 iv lr).mpr (Or.inl ⟨hvr, rfl⟩)⟩
      · exact ⟨iu, iv, r, hu, hv, (hlink2 iu r).mpr (Or.inr ⟨hur, hr⟩),
          (hlink2 iv r).mpr (Or.inr ⟨hvr, hr⟩)⟩
    rintro (h | ⟨h1, h2⟩ | ⟨h1, h2⟩)
    · obtain ⟨ix, iy, r, hx, hy, hxr, hyr⟩ := h
      exact hto x y ix iy r hx hy hxr hyr
    · obtain ⟨ix, ia2, r1, hx, hla', hxr, har⟩ := h1
      have he : ia2 = ia := Option.some.inj (hla'.symm.trans hla)
      subst he
      have hr1 : r1 = ra := rootedAt_unique har hcra
      subst hr1
      obtain ⟨ib2, iy, r2, hlb', hy, hbr, hyr⟩ := h2
      have he2 : ib2 = ib := Option.some.inj (hlb'.symm.trans hlb)
      subst he2
      have hr2 : r2 = rb := rootedAt_unique hbr hcrb
      subst hr2
      rcases habs with ⟨hl1, hd1⟩ | ⟨hl1, hd1⟩
      · refine ⟨ix, iy, lr, hx, hy, (hlink2 ix lr).mpr (Or.inr ⟨?_, ?_⟩),
          (hlink2 iy lr).mpr (Or.inl ⟨?_, rfl⟩)⟩
        · rw [hl1]
          exact hxr
        · rw [hl1, hd1]
          exact hne
        · rw [hd1]
          exact hyr
      · refine ⟨ix, iy, lr, hx, hy, (hlink2 ix lr).mpr (Or.inl ⟨?_, rfl⟩),
          (hlink2 iy lr).mpr (Or.inr ⟨?_, ?_⟩)⟩
        · rw [hd1]
          exact hxr
        · rw [hl1]
          exact hyr
        · rw [hl1, hd1]
          exact fun hc => hne hc.symm
    · obtain ⟨ix, ib2, r1, hx, hlb', hxr, hbr⟩ := h1
      have he : ib2 = ib := Option.some.inj (hlb'.symm.trans hlb)
      subst he
      have hr1 : r1 = rb := rootedAt_unique hbr hcrb
      subst hr1
      obtain ⟨ia2, iy, r2, hla', hy, har, hyr⟩ := h2
      have he2 : ia2 = ia := Option.some.inj (hla'.symm.trans hla)
      subst he2
      have hr2 : r2 = ra := rootedAt_unique har hcra
      subst hr2
      rcases habs with ⟨hl1, hd1⟩ | ⟨hl1, hd1⟩
      · refine ⟨ix, iy, lr, hx, hy, (hlink2 ix lr).mpr (Or.inl ⟨?_, rfl⟩),
          (hlink2 iy lr).mpr (Or.inr ⟨?_, ?_⟩)⟩
        · rw [hd1]
          exact hxr
        · rw [hl1]
          exact hyr
        · rw [hl1, hd1]
          exact hne
      · refine ⟨ix, iy, lr, hx, hy, (hlink2 ix lr).mpr (Or.inr ⟨?_, ?_⟩),
          (hlink2 iy lr).mpr (Or.inl ⟨?_, rfl⟩)⟩
        · rw [hl1]
          exact hxr
        · rw [hl1, hd1]
          exact fun hc => hne hc.symm
        · rw [hd1]
          exact hyr

/-- Union by rank (`linkRoots`) preserves well-formedness, registers
nothing new, and merges exactly the classes of the two roots. -/
theorem link_spec {s2 : IslandBuilder} (hwf2 : IBWF s2)
    {q : List Nat}
    (hqlen : q.length = s2.parent.length)
    (hqinv : UFInv q s2.rank)
    (hqroots : ∀ j rr, RootedAt q j rr ↔ RootedAt s2.parent j rr)
    {a b : EntityId} {ia ib ra rb : Nat}
    (hla : s2.indices.lookup a = some ia)
    (hlb : s2.indices.lookup b = some ib)
    (hcra : RootedAt s2.parent ia ra)
    (hcrb : RootedAt s2.parent ib rb)
    (hne : ra ≠ rb) :
    IBWF (linkRoots s2 q ra rb) ∧
    (∀ x, Registered (linkRoots s2 q ra rb) x ↔ Registered s2 x) ∧
    (∀ x y, SameRoot (linkRoots s2 q ra rb) x y ↔
      (SameRoot s2 x y ∨ (SameRoot s2 x a ∧ SameRoot s2 b y) ∨
        (SameRoot s2 x b ∧ SameRoot s2 a y))) := by
  have hialt : ia < s2.parent.length :=
    hwf2.2.2.1 (a, ia) ((lookup_eq_some_iff_mem hwf2.2.1 a ia).mp hla)
  have hiblt : ib < s2.parent.length :=
    hwf2.2.2.1 (b, ib) ((lookup_eq_some_iff_mem hwf2.2.1 b ib).mp hlb)
  have hralt : ra < s2.parent.length := rootedAt_lt hwf2.1 hialt hcra
  have hrblt : rb < s2.parent.length := rootedAt_lt hwf2.1 hiblt hcrb
  have hralt' : ra < q.length := by
    rw [hqlen]
    exact hralt
  have hrblt' : rb < q.length := by
    rw [hqlen]
    exact hrblt
  have hralt2 : ra < s2.rank.length := by
    rw [← hwf2.1.1]
    exact hralt
  have hraq : IsRoot q ra :=
    rootedAt_isRoot ((hqroots ra ra).mpr (rootedAt_self (rootedAt_isRoot hcra)))
  unfold linkRoots
  by_cases hrk : s2.rank.getD ra 0 < s2.rank.getD rb 0
  · simp only [if_pos hrk]
    rw [if_neg (by omega : ¬(s2.rank.getD rb 0 = s2.rank.getD ra 0))]
    refine linkParts hwf2 hqlen hqinv hqroots hla hlb hcra hcrb hne
      (Or.inr ⟨rfl, rfl⟩) s2.rank rfl ?_
    intro j hj hne'
    rw [pstep_set hralt' j] at hne' ⊢
    by_cases hjd : j = ra
    · rw [if_pos hjd] at hne' ⊢
      rw [hjd]
      exact hrk
    · rw [if_neg hjd] at hne' ⊢
      exact hqinv.2.2 j hj hne'
  · simp only [if_neg hrk]
    by_cases hbump : s2.rank.getD ra 0 = s2.rank.getD rb 0
    · rw [if_pos hbump]
      refine linkParts hwf2 hqlen hqinv hqroots hla hlb hcra hcrb hne
        (Or.inl ⟨rfl, rfl⟩) (s2.rank.set ra (s2.rank.getD ra 0 + 1))
        (by simp) ?_
      intro j hj hne'
      rw [pstep_set hrblt' j] at hne' ⊢
      by_cases hjd : j = rb
      · rw [if_pos hjd] at hne' ⊢
        have hjra : ¬(j = ra) := by
          rw [hjd]
          exact fun hc => hne hc.symm
        rw [getD_set' hralt2 ra 0, if_pos rfl, getD_set' hralt2 j 0,
          if_neg hjra, hjd]
        omega
      · rw [if_neg hjd] at hne' ⊢
        have hold := hqinv.2.2 j hj hne'
        rw [getD_set' hralt2 j 0, getD_set' hralt2 (pstep q j) 0]
        by_cases hja : j = ra
        · exfalso
          rw [hja] at hne'
          exact hne' hraq
        · rw [if_neg hja]
          by_cases hpa : pstep q j = ra
          · rw [if_pos hpa]
            rw [hpa] at hold
            omega
          · rw [if_neg hpa]
            exact hold
    · rw [if_neg hbump]
      refine linkParts hwf2 hqlen hqinv hqroots hla hlb hcra hcrb hne
        (Or.inl ⟨rfl, rfl⟩) s2.rank rfl ?_
      have hlt : s2.rank.getD rb 0 < s2.rank.getD ra 0 := by omega
      intro j hj hne'
      rw [pstep_set hrblt' j] at hne' ⊢
      by_cases hjd : j = rb
      · rw [if_pos hjd] at hne' ⊢
        rw [hjd]
        exact hlt
      · rw [if_neg hjd] at hne' ⊢
        exact hqinv.2.2 j hj hne'

/-- Specification of `IslandBuilder::Unite`: well-formedness is preserved,
exactly `a` and `b` become newly registered, and the root partition is the
old one with the classes of `a` and `b` (each a fresh singleton if new)
joined. -/
theorem unite_spec {s : IslandBuilder} (hwf : IBWF s) (a b : EntityId) :
    IBWF (s.unite a b) ∧
    (∀ x, Registered (s.unite a b) x ↔
      (Registered s x ∨ x = a ∨ x = b)) ∧
    (∀ x y, SameRoot (s.unite a b) x y ↔
      JoinE (fun u v => SameRoot s u v ∨ (u = a ∧ v = a) ∨ (u = b ∧ v = b))
        a b x y) := by
  obtain ⟨hwf1, hla1, hia1, hpres1, _hmono1, _hroots1⟩ := add_spec hwf a
  obtain ⟨hwf2, hlb2, hib2, hpres2, hmono2, _hroots2⟩ := add_spec hwf1 b
  have hla2 : ((s.add a).1.add b).1.indices.lookup a = some (s.add a).2 := by
    by_cases hab : a = b
    · subst hab
      rcases hsa : s.add a with ⟨s1, i1⟩
      rw [hsa] at hla1
      dsimp only at hla1 ⊢
      unfold IslandBuilder.add
      rw [hla1]
      exact hla1
    · rw [hpres2 a hab]
      exact hla1
  have hia2 : (s.add a).2 < ((s.add a).1.add b).1.parent.length :=
    lt_of_lt_of_le hia1 hmono2
  have hinv2 := hwf2.1
  obtain ⟨hF1root, hF1len, hF1inv, hF1iff⟩ := ufFind_spec hinv2 hia2
  have hib_lt : ((s.add a).1.add b).2 <
      (ufFind ((s.add a).1.add b).1.parent (s.add a).2).1.length := by
    rw [hF1len]
    exact hib2
  obtain ⟨hF2root, hF2len, hF2inv, hF2iff⟩ := ufFind_spec hF1inv hib_lt
  have hrb_s2 := (hF1iff _ _).mp hF2root
  have hroots12 : ∀ j rr,
      RootedAt (ufFind (ufFind ((s.add a).1.add b).1.parent
        (s.add a).2).1 ((s.add a).1.add b).2).1 j rr ↔
      RootedAt ((s.add a).1.add b).1.parent j rr :=
    fun j rr => (hF2iff j rr).trans (hF1iff j rr)
  have hreg2 : ∀ x, Registered ((s.add a).1.add b).1 x ↔
      (Registered s x ∨ x = a ∨ x = b) := by
    intro x
    rw [registered_add b x, registered_add a x]
    tauto
  have hsame2 : ∀ x y, SameRoot ((s.add a).1.add b).1 x y ↔
      (SameRoot s x y ∨ (x = a ∧ y = a) ∨ (x = b ∧ y = b)) := by
    intro x y
    rw [sameRoot_add hwf1 b x y, sameRoot_add hwf a x y]
    tauto
  unfold IslandBuilder.unite
  dsimp only
  by_cases hrr : (ufFind ((s.add a).1.add b).1.parent (s.add a).2).2 =
      (ufFind (ufFind ((s.add a).1.add b).1.parent
        (s.add a).2).1 ((s.add a).1.add b).2).2
  · rw [if_pos hrr]
    have hab2 : SameRoot ((s.add a).1.add b).1 a b := by
      refine ⟨(s.add a).2, ((s.add a).1.add b).2,
        (ufFind ((s.add a).1.add b).1.parent (s.add a).2).2,
        hla2, hlb2, hF1root, ?_⟩
      rw [hrr]
      exact hrb_s2
    have hsame' : ∀ x y,
        SameRoot { ((s.add a).1.add b).1 with
          parent := (ufFind (ufFind ((s.add a).1.add b).1.parent
            (s.add a).2).1 ((s.add a).1.add b).2).1 } x y ↔
        SameRoot ((s.add a).1.add b).1 x y := by
      intro x y
      constructor
      · rintro ⟨ix, iy, r, hx, hy, h1, h2⟩
        exact ⟨ix, iy, r, hx, hy, (hroots12 _ _).mp h1, (hroots12 _ _).mp h2⟩
      · rintro ⟨ix, iy, r, hx, hy, h1, h2⟩
        exact ⟨ix, iy, r, hx, hy, (hroots12 _ _).mpr h1,
          (hroots12 _ _).mpr h2⟩
    refine ⟨⟨?_, hwf2.2.1, ?_, ?_⟩, ?_, ?_⟩
    · show UFInv _ ((s.add a).1.add b).1.rank
      exact hF2inv
    · intro pr hpr
      show pr.2 < (ufFind _ _).1.length
      rw [hF2len, hF1len]
      exact hwf2.2.2.1 pr hpr
    · intro i hi
      refine hwf2.2.2.2 i ?_
      rw [← hF1len, ← hF2len]
      exact hi
    · intro x
      exact hreg2 x
    · intro x y
      rw [hsame' x y, hsame2 x y]
      unfold JoinE
      constructor
      · exact Or.inl
      · rintro (h | ⟨h1, h2⟩ | ⟨h1, h2⟩)
        · exact h
        · have h3 := sameRoot_trans ((hsame2 x a).mpr h1)
            (sameRoot_trans hab2 ((hsame2 b y).mpr h2))
          exact (hsame2 x y).mp h3
        · have h3 := sameRoot_trans ((hsame2 x b).mpr h1)
            (sameRoot_trans (sameRoot_symm hab2) ((hsame2 a y).mpr h2))
          exact (hsame2 x y).mp h3
  · rw [if_neg hrr]
    obtain ⟨hI, hR, hS⟩ := link_spec hwf2 (hF2len.trans hF1len) hF2inv
      hroots12 hla2 hlb2 hF1root hrb_s2 hrr
    refine ⟨hI, ?_, ?_⟩
    · intro x
      exact (hR x).trans (hreg2 x)
    · intro x y
      refine (hS x y).trans ?_
      unfold JoinE
      constructor
      · rintro (h | ⟨h1, h2⟩ | ⟨h1, h2⟩)
        · exact Or.inl ((hsame2 x y).mp h)
        · exact Or.inr (Or.inl ⟨(hsame2 x a).mp h1, (hsame2 b y).mp h2⟩)
        · exact Or.inr (Or.inr ⟨(hsame2 x b).mp h1, (hsame2 a y).mp h2⟩)
      · rintro (h | ⟨h1, h2⟩ | ⟨h1, h2⟩)
        · exact Or.inl ((hsame2 x y).mpr h)
        · exact Or.inr (Or.inl ⟨(hsame2 x a).mpr h1, (hsame2 b y).mpr h2⟩)
        · exact Or.inr (Or.inr ⟨(hsame2 x b).mpr h1, (hsame2 a y).mpr h2⟩)


/-- Phase 1 of `BuildIslands`: after uniting every contact's endpoints the
builder is well formed, registers exactly the touched bodies, and two
bodies share a root iff they are touched and connected in the contact
graph. -/
theorem uniteAll_spec (contacts : List ContactData) :
    IBWF (uniteAll contacts) ∧
    (∀ x, Registered (uniteAll contacts) x ↔ Touched contacts x) ∧
    (∀ x y, SameRoot (uniteAll contacts) x y ↔
      (Touched contacts x ∧ Touched contacts y ∧ Connected contacts x y)) := by
  induction contacts using List.reverseRecOn with
  | nil =>
      refine ⟨⟨⟨rfl, ?_, ?_⟩, ?_, ?_, ?_⟩, ?_, ?_⟩
      · intro i hi
        simp [uniteAll] at hi
      · intro i hi
        simp [uniteAll] at hi
      · simp [uniteAll]
      · intro pr hpr
        simp [uniteAll] at hpr
      · intro i hi
        simp [uniteAll] at hi
      · intro x
        constructor
        · rintro ⟨i, hi⟩
          simp [uniteAll, List.lookup] at hi
        · rintro ⟨c, hc, -⟩
          simp at hc
      · intro x y
        constructor
        · rintro ⟨ix, iy, r, hx, -, -, -⟩
          simp [uniteAll, List.lookup] at hx
        · rintro ⟨⟨c, hc, -⟩, -, -⟩
          simp at hc
  | append_singleton es c ih =>
      obtain ⟨hwf, hreg, hsame⟩ := ih
      have hstep : uniteAll (es ++ [c]) =
          (uniteAll es).unite c.entityA c.entityB := by
        unfold uniteAll
        rw [List.foldl_append]
        rfl
      rw [hstep]
      obtain ⟨hwf', hreg', hsame'⟩ := unite_spec hwf c.entityA c.entityB
      refine ⟨hwf', ?_, ?_⟩
      · intro x
        rw [hreg' x, hreg x, touched_append]
      · intro x y
        rw [hsame' x y]
        unfold JoinE
        have hTA : Touched (es ++ [c]) c.entityA :=
          ⟨c, List.mem_append_right _ (List.mem_singleton.mpr rfl), Or.inl rfl⟩
        have hTB : Touched (es ++ [c]) c.entityB :=
          ⟨c, List.mem_append_right _ (List.mem_singleton.mpr rfl), Or.inr rfl⟩
        have hedge : Connected (es ++ [c]) c.entityA c.entityB :=
          Relation.EqvGen.rel _ _
            ⟨c, List.mem_append_right _ (List.mem_singleton.mpr rfl),
              Or.inl ⟨rfl, rfl⟩⟩
        constructor
        · have hatom : ∀ u v, (SameRoot (uniteAll es) u v ∨
              (u = c.entityA ∧ v = c.entityA) ∨
              (u = c.entityB ∧ v = c.entityB)) →
              Touched (es ++ [c]) u ∧ Touched (es ++ [c]) v ∧
                Connected (es ++ [c]) u v := by
            intro u v hu
            rcases hu with h | ⟨h1, h2⟩ | ⟨h1, h2⟩
            · obtain ⟨ht1, ht2, hc3⟩ := (hsame u v).mp h
              exact ⟨touched_append.mpr (Or.inl ht1),
                touched_append.mpr (Or.inl ht2), connected_mono hc3⟩
            · subst h1
              subst h2
              exact ⟨hTA, hTA, connected_refl _ _⟩
            · subst h1
              subst h2
              exact ⟨hTB, hTB, connected_refl _ _⟩
          rintro (h | ⟨h1, h2⟩ | ⟨h1, h2⟩)
          · exact hatom x y h
          · obtain ⟨ht1, -, hc1⟩ := hatom x c.entityA h1
            obtain ⟨-, ht2, hc2⟩ := hatom c.entityB y h2
            exact ⟨ht1, ht2,
              connected_trans (connected_trans hc1 hedge) hc2⟩
          · obtain ⟨ht1, -, hc1⟩ := hatom x c.entityB h1
            obtain ⟨-, ht2, hc2⟩ := hatom c.entityA y h2
            exact ⟨ht1, ht2,
              connected_trans (connected_trans hc1 (connected_symm hedge)) hc2⟩
        · rintro ⟨htx, hty, hcxy⟩
          have hGatom : ∀ u, Touched (es ++ [c]) u →
              (SameRoot (uniteAll es) u u ∨
                (u = c.entityA ∧ u = c.entityA) ∨
                (u = c.entityB ∧ u = c.entityB)) := by
            intro u hu
            rcases touched_append.mp hu with h | h | h
            · exact Or.inl ((hsame u u).mpr ⟨h, h, connected_refl _ _⟩)
            · exact Or.inr (Or.inl ⟨h, h⟩)
            · exact Or.inr (Or.inr ⟨h, h⟩)
          have hconn : ∀ u v, Connected es u v → Touched es u →
              Touched es v → SameRoot (uniteAll es) u v :=
            fun u v h h1 h2 => (hsame u v).mpr ⟨h1, h2, h⟩
          rcases connected_append.mp hcxy with h | ⟨h1, h2⟩ | ⟨h1, h2⟩
          · rcases connected_touched h with heq | ⟨ht1, ht2⟩
            · subst heq
              exact Or.inl (hGatom x htx)
            · exact Or.inl (Or.inl (hconn x y h ht1 ht2))
          · rcases connected_touched h1 with heq1 | ⟨hu1, hv1⟩
            · rcases connected_touched h2 with heq2 | ⟨hu2, hv2⟩
              · exact Or.inr (Or.inl ⟨Or.inr (Or.inl ⟨heq1, rfl⟩),
                  Or.inr (Or.inr ⟨rfl, heq2.symm⟩)⟩)
              · exact Or.inr (Or.inl ⟨Or.inr (Or.inl ⟨heq1, rfl⟩),
                  Or.inl (hconn _ _ h2 hu2 hv2)⟩)
            · rcases connected_touched h2 with heq2 | ⟨hu2, hv2⟩
              · exact Or.inr (Or.inl ⟨Or.inl (hconn _ _ h1 hu1 hv1),
                  Or.inr (Or.inr ⟨rfl, heq2.symm⟩)⟩)
              · exact Or.inr (Or.inl ⟨Or.inl (hconn _ _ h1 hu1 hv1),
                  Or.inl (hconn _ _ h2 hu2 hv2)⟩)
          · rcases connected_touched h1 with heq1 | ⟨hu1, hv1⟩
            · rcases connected_touched h2 with heq2 | ⟨hu2, hv2⟩
              · exact Or.inr (Or.inr ⟨Or.inr (Or.inr ⟨heq1, rfl⟩),
                  Or.inr (Or.inl ⟨rfl, heq2.symm⟩)⟩)
              · exact Or.inr (Or.inr ⟨Or.inr (Or.inr ⟨heq1, rfl⟩),
                  Or.inl (hconn _ _ h2 hu2 hv2)⟩)
            · rcases connected_touched h2 with heq2 | ⟨hu2, hv2⟩
              · exact Or.inr (Or.inr ⟨Or.inl (hconn _ _ h1 hu1 hv1),
                  Or.inr (Or.inl ⟨rfl, heq2.symm⟩)⟩)
              · exact Or.inr (Or.inr ⟨Or.inl (hconn _ _ h1 hu1 hv1),
                  Or.inl (hconn _ _ h2 hu2 hv2)⟩)


/-- A successful association-list lookup yields a member pair. -/
theorem lookup_mem {α β : Type} [BEq α] [LawfulBEq α] {l : List (α × β)}
    {k : α} {v : β} (h : l.lookup k = some v) : (k, v) ∈ l := by
  induction l with
  | nil => simp [List.lookup] at h
  | cons p rest ih =>
      obtain ⟨pk, pv⟩ := p
      by_cases hk : k = pk
      · subst hk
        rw [List.lookup_cons, show (k == k) = true from beq_self_eq_true k]
          at h
        have h2 : pv = v := Option.some.inj h
        subst h2
        exact List.mem_cons_self _ _
      · rw [List.lookup_cons,
          show (k == pk) = false from beq_eq_false_iff_ne.mpr hk] at h
        exact List.mem_cons_of_mem _ (ih h)

/-- Lookup ignores an appended tail when the key is found in the head
part. -/
theorem lookup_append_some {α β : Type} [BEq α] {l l2 : List (α × β)}
    {k : α} {v : β} (h : l.lookup k = some v) :
    (l ++ l2).lookup k = some v := by
  induction l with
  | nil => simp [List.lookup] at h
  | cons p rest ih =>
      obtain ⟨pk, pv⟩ := p
      rw [List.lookup_cons] at h
      rw [List.cons_append, List.lookup_cons]
      cases hbe : (k == pk)
      · rw [hbe] at h
        exact ih h
      · rw [hbe] at h
        exact h

/-- Lookup falls through to the appended tail when the key is absent from
the head part. -/
theorem lookup_append_none {α β : Type} [BEq α] {l l2 : List (α × β)}
    {k : α} (h : l.lookup k = none) :
    (l ++ l2).lookup k = l2.lookup k := by
  induction l with
  | nil => rfl
  | cons p rest ih =>
      obtain ⟨pk, pv⟩ := p
      rw [List.lookup_cons] at h
      rw [List.cons_append, List.lookup_cons]
      cases hbe : (k == pk)
      · rw [hbe] at h
        exact ih h
      · rw [hbe] at h
        simp at h

/-- `getD` ignores an appended tail below the original length (polymorphic
version). -/
theorem getD_append_lt2 {α : Type} {l l2 : List α} {j : Nat}
    (h : j < l.length) (d : α) : (l ++ l2).getD j d = l.getD j d := by
  rw [List.getD_eq_getElem _ _ (by simp only [List.length_append]; omega),
    List.getD_eq_getElem _ _ h]
  exact List.getElem_append_left h

/-- `getD` at the index of a freshly appended element. -/
theorem getD_concat_self {α : Type} (l : List α) (x d : α) :
    (l ++ [x]).getD l.length d = x := by
  rw [List.getD_eq_getElem _ _ (by simp)]
  exact List.getElem_concat_length l x _ rfl _

/-- `getD` after a single in-bounds write (polymorphic version). -/
theorem getD_set2 {α : Type} {l : List α} {i : Nat} {v : α}
    (hi : i < l.length) (j : Nat) (d : α) :
    (l.set i v).getD j d = if j = i then v else l.getD j d := by
  by_cases hj : j = i
  · subst hj
    rw [if_pos rfl, List.getD_eq_getElem _ _ (by simpa using hi)]
    simp
  · rw [if_neg hj]
    by_cases hjl : j < l.length
    · rw [List.getD_eq_getElem _ _ (by simpa using hjl),
        List.getD_eq_getElem _ _ hjl]
      rw [List.getElem_set_ne (by omega)]
    · rw [List.getD_eq_default _ _ (by simpa using Nat.le_of_not_lt hjl),
        List.getD_eq_default _ _ (Nat.le_of_not_lt hjl)]

/-- Appending an element to one bucket of a bucket list permutes the
flattening into the old flattening plus that element. -/
theorem flatten_set_perm {α : Type} (l : List (List α)) (k : Nat) (x : α)
    (h : k < l.length) :
    (l.set k (l.getD k [] ++ [x])).flatten.Perm (l.flatten ++ [x]) := by
  induction l generalizing k with
  | nil => simp at h
  | cons a rest ih =>
      cases k with
      | zero =>
          show ((a ++ [x]) :: rest).flatten.Perm ((a :: rest).flatten ++ [x])
          rw [List.flatten_cons, List.flatten_cons]
          have h1 : (a ++ [x]) ++ rest.flatten =
              a ++ ([x] ++ rest.flatten) := List.append_assoc a [x] rest.flatten
          have h2 : (a ++ rest.flatten) ++ [x] =
              a ++ (rest.flatten ++ [x]) := List.append_assoc a rest.flatten [x]
          rw [h1, h2]
          exact List.Perm.append_left a (@List.perm_append_comm _ [x] rest.flatten)
      | succ j =>
          show (a :: rest.set j (rest.getD j [] ++ [x])).flatten.Perm
            ((a :: rest).flatten ++ [x])
          rw [List.flatten_cons, List.flatten_cons]
          have h' : j < rest.length := by
            simp only [List.length_cons] at h
            omega
          have h2 := List.Perm.append_left a (ih j h')
          rw [← List.append_assoc] at h2
          exact h2


/-- One step of the phase-2 grouping fold preserves `GroupInv`, extending
the processed prefix by the handled contact. -/
theorem groupStep_spec {contacts : List ContactData} {g : GroupState}
    {processed : List ContactData} {c : ContactData}
    (hwf0 : IBWF (uniteAll contacts))
    (hinv : GroupInv (uniteAll contacts) g processed)
    (hc : c ∈ contacts) :
    GroupInv (uniteAll contacts) (groupStep g c) (processed ++ [c]) := by
  obtain ⟨hidx, hrank, hlen, hufinv, hroots, hsnd, hm7, hm8, hperm, hnem⟩ :=
    hinv
  obtain ⟨i, hlook⟩ := ((uniteAll_spec contacts).2.1 c.entityA).mpr
    ⟨c, hc, Or.inl rfl⟩
  have hilt : i < (uniteAll contacts).parent.length :=
    hwf0.2.2.1 (c.entityA, i)
      ((lookup_eq_some_iff_mem hwf0.2.1 c.entityA i).mp hlook)
  have hilt' : i < g.builder.parent.length := by
    rw [hlen]
    exact hilt
  obtain ⟨hFroot, hFlen, hFinv, hFiff⟩ := ufFind_spec hufinv hilt'
  have hAroot : ARoot (uniteAll contacts) c (ufFind g.builder.parent i).2 :=
    ⟨i, hlook, (hroots _ _).mp hFroot⟩
  have hsndnd : (g.rootToIsland.map Prod.snd).Nodup := by
    rw [hsnd]
    exact List.nodup_range _
  have hinjI : ∀ (q1 q2 : Int) (k' : Nat),
      g.rootToIsland.lookup q1 = some k' →
      g.rootToIsland.lookup q2 = some k' → q1 = q2 := by
    intro q1 q2 k' h1 h2
    have hm1 := lookup_mem h1
    have hm2 := lookup_mem h2
    exact congrArg Prod.fst (List.inj_on_of_nodup_map hsndnd hm1 hm2 rfl)
  have hklt : ∀ k', (∃ q : Int, g.rootToIsland.lookup q = some k') →
      k' < g.islands.length := by
    rintro k' ⟨q, hq⟩
    have h2 : k' ∈ g.rootToIsland.map Prod.snd :=
      List.mem_map_of_mem Prod.snd (lookup_mem hq)
    rw [hsnd] at h2
    exact List.mem_range.mp h2
  unfold groupStep IslandBuilder.root
  rw [hidx, hlook]
  dsimp only
  rw [if_neg (by omega : ¬(((ufFind g.builder.parent i).2 : Int) < 0))]
  cases hlk : g.rootToIsland.lookup ((ufFind g.builder.parent i).2 : Int) with
  | some k =>
      dsimp only
      have hklt' : k < g.islands.length := hklt k ⟨_, hlk⟩
      refine ⟨rfl, hrank, ?_, hFinv, ?_, ?_, ?_, ?_, ?_, ?_⟩
      · show (ufFind g.builder.parent i).1.length =
          (uniteAll contacts).parent.length
        rw [hFlen]
        exact hlen
      · intro j rr
        exact (hFiff j rr).trans (hroots j rr)
      · show g.rootToIsland.map Prod.snd =
          List.range (g.islands.set k (g.islands.getD k [] ++ [c])).length
        rw [List.length_set]
        exact hsnd
      · intro r' k' hlk' cc hcc
        have hlk2 : g.rootToIsland.lookup (r' : Int) = some k' := hlk'
        have hcc2 : cc ∈
            (g.islands.set k (g.islands.getD k [] ++ [c])).getD k' [] := hcc
        by_cases hkk : k' = k
        · rw [getD_set2 hklt' k' [], if_pos hkk] at hcc2
          rcases List.mem_append.mp hcc2 with hold | hnew
          · have hold' : cc ∈ g.islands.getD k' [] := by
              rw [hkk]
              exact hold
            exact hm7 r' k' hlk2 cc hold'
          · rw [List.mem_singleton] at hnew
            subst hnew
            have hlk3 : g.rootToIsland.lookup (r' : Int) = some k := by
              rw [← hkk]
              exact hlk2
            have hq := hinjI (r' : Int) ((ufFind g.builder.parent i).2 : Int)
              k hlk3 hlk
            have hr' : r' = (ufFind g.builder.parent i).2 := by
              exact_mod_cast hq
            rw [hr']
            exact hAroot
        · rw [getD_set2 hklt' k' [], if_neg hkk] at hcc2
          exact hm7 r' k' hlk2 cc hcc2
      · intro k' cc hk' hcc
        have hk2 : k' < g.islands.length := by
          have h0 : k' <
              (g.islands.set k (g.islands.getD k [] ++ [c])).length := hk'
          rw [List.length_set] at h0
          exact h0
        have hcc2 : cc ∈
            (g.islands.set k (g.islands.getD k [] ++ [c])).getD k' [] := hcc
        by_cases hkk : k' = k
        · rw [getD_set2 hklt' k' [], if_pos hkk] at hcc2
          rcases List.mem_append.mp hcc2 with hold | hnew
          · have hold' : cc ∈ g.islands.getD k' [] := by
              rw [hkk]
              exact hold
            exact hm8 k' cc hk2 hold'
          · rw [List.mem_singleton] at hnew
            subst hnew
            refine ⟨(ufFind g.builder.parent i).2, hAroot, ?_⟩
            rw [hkk]
            exact hlk
        · rw [getD_set2 hklt' k' [], if_neg hkk] at hcc2
          exact hm8 k' cc hk2 hcc2
      · show (g.islands.set k
          (g.islands.getD k [] ++ [c])).flatten.Perm (processed ++ [c])
        exact (flatten_set_perm g.islands k c hklt').trans
          (hperm.append_right [c])
      · intro isl hisl
        have hisl2 : isl ∈ g.islands.set k (g.islands.getD k [] ++ [c]) :=
          hisl
        rcases List.mem_or_eq_of_mem_set hisl2 with hold | hq
        · exact hnem isl hold
        · rw [hq]
          simp
  | none =>
      dsimp only
      refine ⟨rfl, hrank, ?_, hFinv, ?_, ?_, ?_, ?_, ?_, ?_⟩
      · show (ufFind g.builder.parent i).1.length =
          (uniteAll contacts).parent.length
        rw [hFlen]
        exact hlen
      · intro j rr
        exact (hFiff j rr).trans (hroots j rr)
      · show (g.rootToIsland ++
            [(((ufFind g.builder.parent i).2 : Int), g.islands.length)]).map
            Prod.snd = List.range (g.islands ++ [[c]]).length
        rw [List.map_append, hsnd, List.length_append]
        simp [List.range_succ]
      · intro r' k' hlk' cc hcc
        have hlk2 : (g.rootToIsland ++
            [(((ufFind g.builder.parent i).2 : Int),
              g.islands.length)]).lookup (r' : Int) = some k' := hlk'
        have hcc2 : cc ∈ (g.islands ++ [[c]]).getD k' [] := hcc
        cases hold : g.rootToIsland.lookup (r' : Int) with
        | some k2 =>
            have h3 : (g.rootToIsland ++
                [(((ufFind g.builder.parent i).2 : Int),
                  g.islands.length)]).lookup (r' : Int) = some k2 :=
              lookup_append_some hold
            have h5 : k2 = k' := Option.some.inj (h3.symm.trans hlk2)
            subst h5
            have hklt2 : k2 < g.islands.length := hklt k2 ⟨_, hold⟩
            rw [getD_append_lt2 hklt2 []] at hcc2
            exact hm7 r' k2 hold cc hcc2
        | none =>
            have h3 : (g.rootToIsland ++
                [(((ufFind g.builder.parent i).2 : Int),
                  g.islands.length)]).lookup (r' : Int) =
                [(((ufFind g.builder.parent i).2 : Int),
                  g.islands.length)].lookup (r' : Int) :=
              lookup_append_none hold
            rw [h3, List.lookup_cons] at hlk2
            cases hbe : ((r' : Int) == ((ufFind g.builder.parent i).2 : Int))
            · rw [hbe] at hlk2
              simp at hlk2
            · rw [hbe] at hlk2
              have hkn : g.islands.length = k' := Option.some.inj hlk2
              have hr' : r' = (ufFind g.builder.parent i).2 := by
                exact_mod_cast eq_of_beq hbe
              rw [← hkn, getD_concat_self, List.mem_singleton] at hcc2
              subst hcc2
              rw [hr']
              exact hAroot
      · intro k' cc hk' hcc
        have hk2 : k' < g.islands.length + 1 := by
          have h0 : k' < (g.islands ++ [[c]]).length := hk'
          rw [List.length_append] at h0
          simpa using h0
        have hcc2 : cc ∈ (g.islands ++ [[c]]).getD k' [] := hcc
        by_cases hkk : k' < g.islands.length
        · rw [getD_append_lt2 hkk []] at hcc2
          obtain ⟨r'', hAr, hlkr⟩ := hm8 k' cc hkk hcc2
          exact ⟨r'', hAr, lookup_append_some hlkr⟩
        · have hkeq : k' = g.islands.length := by omega
          subst hkeq
          rw [getD_concat_self, List.mem_singleton] at hcc2
          subst hcc2
          refine ⟨(ufFind g.builder.parent i).2, hAroot, ?_⟩
          have h3 : (g.rootToIsland ++
              [(((ufFind g.builder.parent i).2 : Int),
                g.islands.length)]).lookup
              (((ufFind g.builder.parent i).2 : Nat) : Int) =
              [(((ufFind g.builder.parent i).2 : Int),
                g.islands.length)].lookup
              (((ufFind g.builder.parent i).2 : Nat) : Int) :=
            lookup_append_none hlk
          rw [h3, List.lookup_cons, beq_self_eq_true]
      · show (g.islands ++ [[c]]).flatten.Perm (processed ++ [c])
        have h3 : (g.islands ++ [[c]]).flatten = g.islands.flatten ++ [c] := by
          simp
        rw [h3]
        exact hperm.append_right [c]
      · intro isl hisl
        have hisl2 : isl ∈ g.islands ++ [[c]] := hisl
        rcases List.mem_append.mp hisl2 with hold | hnew
        · exact hnem isl hold
        · rw [List.mem_singleton] at hnew
          subst hnew
          simp


/-- The phase-2 grouping fold preserves `GroupInv` over any run of
contacts drawn from the full list. -/
theorem groupFold_spec (contacts : List ContactData)
    (hwf0 : IBWF (uniteAll contacts)) :
    ∀ (rest : List ContactData), (∀ c ∈ rest, c ∈ contacts) →
    ∀ (g : GroupState) (processed : List ContactData),
    GroupInv (uniteAll contacts) g processed →
    GroupInv (uniteAll contacts) (rest.foldl groupStep g)
      (processed ++ rest) := by
  intro rest
  induction rest with
  | nil =>
      intro _ g processed hinv
      rw [List.foldl_nil, List.append_nil]
      exact hinv
  | cons c rest' ih =>
      intro hsub g processed hinv
      rw [List.foldl_cons]
      have h1 := groupStep_spec hwf0 hinv (hsub c (List.mem_cons_self _ _))
      have h2 := ih (fun c' hc' => hsub c' (List.mem_cons_of_mem _ hc'))
        (groupStep g c) (processed ++ [c]) h1
      have h3 : (processed ++ [c]) ++ rest' = processed ++ c :: rest' := by
        simp
      rw [h3] at h2
      exact h2

/-- The grouping fold of `BuildIslands`, run over the whole contact list
from the phase-1 builder, satisfies `GroupInv` with every contact
processed. -/
theorem buildIslands_inv (contacts : List ContactData) :
    GroupInv (uniteAll contacts)
      (contacts.foldl groupStep ⟨uniteAll contacts, [], []⟩) contacts := by
  have hwf0 := (uniteAll_spec contacts).1
  have hbase : GroupInv (uniteAll contacts)
      ⟨uniteAll contacts, [], []⟩ [] := by
    refine ⟨rfl, rfl, rfl, hwf0.1, fun j rr => Iff.rfl, rfl, ?_, ?_, ?_, ?_⟩
    · intro r k h
      simp [List.lookup] at h
    · intro k cc hk _
      simp at hk
    · exact List.Perm.refl _
    · intro isl h
      simp at h
  have h2 := groupFold_spec contacts hwf0 contacts (fun c hc => hc)
    ⟨uniteAll contacts, [], []⟩ [] hbase
  simpa using h2


/-- Every contact stored in some island came from the input list. -/
theorem islands_mem_contacts {contacts : List ContactData} {k : Nat}
    (hk : k < (islandsOf contacts).length) {c1 : ContactData}
    (h1 : c1 ∈ (islandsOf contacts).getD k []) : c1 ∈ contacts := by
  obtain ⟨-, -, -, -, -, -, -, -, hperm, -⟩ := buildIslands_inv contacts
  have hmem : c1 ∈ (islandsOf contacts).flatten :=
    List.mem_flatten.mpr ⟨(islandsOf contacts).getD k [],
      getD_mem_of_lt _ k [] hk, h1⟩
  exact hperm.mem_iff.mp hmem

/-- Two contacts of the same island have connected first bodies. -/
theorem islands_conn {contacts : List ContactData} {k : Nat}
    (hk : k < (islandsOf contacts).length) {c1 c2 : ContactData}
    (h1 : c1 ∈ (islandsOf contacts).getD k [])
    (h2 : c2 ∈ (islandsOf contacts).getD k []) :
    Connected contacts c1.entityA c2.entityA := by
  obtain ⟨-, -, -, -, -, hsnd, -, hm8, -, -⟩ := buildIslands_inv contacts
  obtain ⟨r1, hA1, hl1⟩ := hm8 k c1 hk h1
  obtain ⟨r2, hA2, hl2⟩ := hm8 k c2 hk h2
  have hsndnd : ((contacts.foldl groupStep
      ⟨uniteAll contacts, [], []⟩).rootToIsland.map Prod.snd).Nodup := by
    rw [hsnd]
    exact List.nodup_range _
  have hq := congrArg Prod.fst
    (List.inj_on_of_nodup_map hsndnd (lookup_mem hl1) (lookup_mem hl2) rfl)
  have hq2 : (r1 : Int) = (r2 : Int) := hq
  have hr : r1 = r2 := by exact_mod_cast hq2
  subst hr
  obtain ⟨i1, hlk1, hrt1⟩ := hA1
  obtain ⟨i2, hlk2, hrt2⟩ := hA2
  have hsr : SameRoot (uniteAll contacts) c1.entityA c2.entityA :=
    ⟨i1, i2, r1, hlk1, hlk2, hrt1, hrt2⟩
  exact (((uniteAll_spec contacts).2.2 _ _).mp hsr).2.2

/-- Contacts with connected first bodies always land in the same island. -/
theorem islands_inj {contacts : List ContactData} {k1 k2 : Nat}
    (hk1 : k1 < (islandsOf contacts).length)
    (hk2 : k2 < (islandsOf contacts).length) {c1 c2 : ContactData}
    (h1 : c1 ∈ (islandsOf contacts).getD k1 [])
    (h2 : c2 ∈ (islandsOf contacts).getD k2 [])
    (hc : Connected contacts c1.entityA c2.entityA) : k1 = k2 := by
  obtain ⟨-, -, -, -, -, -, -, hm8, -, -⟩ := buildIslands_inv contacts
  have hc1m := islands_mem_contacts hk1 h1
  have hc2m := islands_mem_contacts hk2 h2
  have hsr := ((uniteAll_spec contacts).2.2 c1.entityA c2.entityA).mpr
    ⟨⟨c1, hc1m, Or.inl rfl⟩, ⟨c2, hc2m, Or.inl rfl⟩, hc⟩
  obtain ⟨i1, i2, r, hlk1, hlk2, hrt1, hrt2⟩ := hsr
  obtain ⟨r1, ⟨i1', hlk1', hrt1'⟩, hl1⟩ := hm8 k1 c1 hk1 h1
  obtain ⟨r2, ⟨i2', hlk2', hrt2'⟩, hl2⟩ := hm8 k2 c2 hk2 h2
  have he1 : i1' = i1 := Option.some.inj (hlk1'.symm.trans hlk1)
  subst he1
  have hr1 : r1 = r := rootedAt_unique hrt1' hrt1
  subst hr1
  have he2 : i2' = i2 := Option.some.inj (hlk2'.symm.trans hlk2)
  subst he2
  have hr2 : r2 = r1 := rootedAt_unique hrt2' hrt2
  subst hr2
  exact Option.some.inj (hl1.symm.trans hl2)

/-- C6: `BuildIslands` partitions the contact list into nonempty islands;
two contacts lie in the same island exactly when their first bodies are
connected in the contact graph; different islands share no body; and
`k ↦ component of island k's representative body` is a bijection between
island indices and the connected components touched by contacts, so the
number of islands equals the number of connected components of the contact
graph. -/
theorem C6_island_partition (contacts : List ContactData) :
    (buildIslands contacts).flatten.Perm contacts ∧
    (∀ isl ∈ buildIslands contacts, isl ≠ []) ∧
    (∀ k1 k2, k1 < (buildIslands contacts).length →
      k2 < (buildIslands contacts).length →
      ∀ c1 ∈ (buildIslands contacts).getD k1 [],
        ∀ c2 ∈ (buildIslands contacts).getD k2 [],
          (Connected contacts c1.entityA c2.entityA ↔ k1 = k2)) ∧
    (∀ k1 k2, k1 < (buildIslands contacts).length →
      k2 < (buildIslands contacts).length → k1 ≠ k2 →
      ∀ c1 ∈ (buildIslands contacts).getD k1 [],
        ∀ c2 ∈ (buildIslands contacts).getD k2 [],
          c1.entityA ≠ c2.entityA ∧ c1.entityA ≠ c2.entityB ∧
          c1.entityB ≠ c2.entityA ∧ c1.entityB ≠ c2.entityB) ∧
    (∀ k, k < (buildIslands contacts).length →
      Touched contacts (islandRep ((buildIslands contacts).getD k []))) ∧
    (∀ k1 k2, k1 < (buildIslands contacts).length →
      k2 < (buildIslands contacts).length →
      Connected contacts (islandRep ((buildIslands contacts).getD k1 []))
        (islandRep ((buildIslands contacts).getD k2 [])) → k1 = k2) ∧
    (∀ v, Touched contacts v → ∃ k, k < (buildIslands contacts).length ∧
      Connected contacts
        (islandRep ((buildIslands contacts).getD k [])) v) := by
  by_cases hemp : contacts.isEmpty
  · have hc0 : contacts = [] := by
      cases contacts with
      | nil => rfl
      | cons a l => simp [List.isEmpty] at hemp
    subst hc0
    have hbi : buildIslands ([] : List ContactData) = [] := rfl
    rw [hbi]
    refine ⟨List.Perm.refl _, ?_, ?_, ?_, ?_, ?_, ?_⟩
    · intro isl h
      simp at h
    · intro k1 k2 h1
      simp at h1
    · intro k1 k2 h1
      simp at h1
    · intro k h
      simp at h
    · intro k1 k2 h1
      simp at h1
    · rintro v ⟨cX, hcX, -⟩
      simp at hcX
  · have hbi : buildIslands contacts = islandsOf contacts := by
      unfold buildIslands islandsOf
      rw [if_neg hemp]
    rw [hbi]
    obtain ⟨-, -, -, -, -, -, -, -, hperm, hnem⟩ := buildIslands_inv contacts
    have hperm' : (islandsOf contacts).flatten.Perm contacts := hperm
    have hnem' : ∀ isl ∈ islandsOf contacts, isl ≠ [] := hnem
    have hedge : ∀ c' ∈ contacts, Connected contacts c'.entityA c'.entityB :=
      fun c' hc' => Relation.EqvGen.rel _ _ ⟨c', hc', Or.inl ⟨rfl, rfl⟩⟩
    have hiff : ∀ k1 k2, k1 < (islandsOf contacts).length →
        k2 < (islandsOf contacts).length →
        ∀ c1 ∈ (islandsOf contacts).getD k1 [],
          ∀ c2 ∈ (islandsOf contacts).getD k2 [],
            (Connected contacts c1.entityA c2.entityA ↔ k1 = k2) := by
      intro k1 k2 hk1 hk2 c1 h1 c2 h2
      constructor
      · intro hcn
        exact islands_inj hk1 hk2 h1 h2 hcn
      · intro hk
        subst hk
        exact islands_conn hk1 h1 h2
    refine ⟨hperm', hnem', hiff, ?_, ?_, ?_, ?_⟩
    · intro k1 k2 hk1 hk2 hne c1 h1 c2 h2
      have hc1m := islands_mem_contacts hk1 h1
      have hc2m := islands_mem_contacts hk2 h2
      refine ⟨?_, ?_, ?_, ?_⟩
      · intro heq
        have hcn : Connected contacts c1.entityA c2.entityA := by
          rw [heq]
          exact connected_refl _ _
        exact hne ((hiff k1 k2 hk1 hk2 c1 h1 c2 h2).mp hcn)
      · intro heq
        have hcn : Connected contacts c1.entityA c2.entityA := by
          rw [heq]
          exact connected_symm (hedge c2 hc2m)
        exact hne ((hiff k1 k2 hk1 hk2 c1 h1 c2 h2).mp hcn)
      · intro heq
        have hcn : Connected contacts c1.entityA c2.entityA := by
          have h3 := hedge c1 hc1m
          rw [heq] at h3
          exact h3
        exact hne ((hiff k1 k2 hk1 hk2 c1 h1 c2 h2).mp hcn)
      · intro heq
        have hcn : Connected contacts c1.entityA c2.entityA := by
          have h3 := hedge c1 hc1m
          rw [heq] at h3
          exact connected_trans h3 (connected_symm (hedge c2 hc2m))
        exact hne ((hiff k1 k2 hk1 hk2 c1 h1 c2 h2).mp hcn)
    · intro k hk
      have hne2 := hnem' _ (getD_mem_of_lt _ k [] hk)
      have hhead := headD_mem ((islandsOf contacts).getD k []) default hne2
      have hm := islands_mem_contacts hk hhead
      exact ⟨((islandsOf contacts).getD k []).headD default, hm, Or.inl rfl⟩
    · intro k1 k2 hk1 hk2 hcn
      have hne1 := hnem' _ (getD_mem_of_lt _ k1 [] hk1)
      have hne2 := hnem' _ (getD_mem_of_lt _ k2 [] hk2)
      have hh1 := headD_mem ((islandsOf contacts).getD k1 []) default hne1
      have hh2 := headD_mem ((islandsOf contacts).getD k2 []) default hne2
      exact islands_inj hk1 hk2 hh1 hh2 hcn
    · rintro v ⟨cX, hcX, hor⟩
      have hcf : cX ∈ (islandsOf contacts).flatten := hperm'.mem_iff.mpr hcX
      obtain ⟨isl, hisl, hcin⟩ := List.mem_flatten.mp hcf
      obtain ⟨k, hkl, heq⟩ := List.mem_iff_getElem.mp hisl
      have hkd : (islandsOf contacts).getD k [] = isl := by
        rw [List.getD_eq_getElem _ _ hkl]
        exact heq
      have hcin' : cX ∈ (islandsOf contacts).getD k [] := by
        rw [hkd]
        exact hcin
      have hne2 := hnem' _ (getD_mem_of_lt _ k [] hkl)
      have hhead := headD_mem ((islandsOf contacts).getD k []) default hne2
      have hc1 : Connected contacts
          ((((islandsOf contacts).getD k []).headD default).entityA)
          cX.entityA := islands_conn hkl hhead hcin'
      refine ⟨k, hkl, ?_⟩
      rcases hor with h | h
      · rw [← h]
        exact hc1
      · rw [← h]
        exact connected_trans hc1 (hedge cX hcX)

end AtlasCore
